import Mathlib

/-! kmap: cluster-state aggregation and topic-size reconciliation.

A shallow embedding of the aggregation code of `kmap` (a Kafka cluster snapshot
tool written in Go) together with theorems about it.

Conventions of the embedding

* Go `string` is `String`; the regular expression and `strconv.Atoi` work on
  the character list `String.data`.
* Go `int64` is `Int` with explicit wrap-around (`wrapInt64`); Go `int` is the
  64-bit one (`maxInt = 2^63 - 1`).  Counters that are lengths of collections
  are `Nat`.
* A Go `map` is an association list with unique keys (`mapGet`, `mapSet`);
  the order in which `range` visits a map is unspecified in Go and is chosen
  here by a number (`mapRange seed`), every order being reachable
  (`mapRange_surjective`).
* `sort.Slice` is not stable: it returns some permutation sorted by `less`;
  which one is again chosen by a number (`sortSlice seed`), every sorted
  permutation being reachable (`sortSlice_surjective`).
* The numbers that pick these orders are the values `rnd 0`, `rnd 1`, ... of an
  argument `rnd` of each function; the answers of the Kafka client and the
  clock are arguments as well.
-/

namespace Kmap

/-! ## Identifier codec (`src/topic_sizes_kafka_cli.go`, lines 227-252) -/

/-- Go regexp class `\d`: an ASCII decimal digit. -/
def isDigit (c : Char) : Bool := decide ('0' ≤ c ∧ c ≤ '9')

/-- Go regexp `.` (no `s` flag): any character except a newline. -/
def isDot (c : Char) : Bool := decide (c ≠ '\n')

/-- The part of the pattern after group 1, `-(\d+)$`, matched against the rest
of the text: a hyphen, then one or more digits up to the end of the text.
Returns group 2. -/
def matchTail : List Char → Option (List Char)
  | '-' :: d => if d ≠ [] ∧ d.all isDigit = true then some d else none
  | _ => none

/-- Leftmost-first matching of `^(.+)-(\d+)$`: group 1 is greedy, so the
candidates for its length are tried from the longest (`k`) down to 1, and the
first length for which the rest of the pattern matches wins. -/
def backtrack (s : List Char) : Nat → Option (List Char × List Char)
  | 0 => none
  | k + 1 =>
    match matchTail (s.drop (k + 1)) with
    | some d => some (s.take (k + 1), d)
    | none => backtrack s k

/-- The call `partitionRegex.FindStringSubmatch(s)` for
`partitionRegex = regexp.MustCompile("^(.+)-(\\d+)$")`: the whole match and the
two groups, or the empty slice when the text does not match.  `(.+)` can take
at most the leading run of non-newline characters. -/
def FindStringSubmatch (s : String) : List String :=
  match backtrack s.data (s.data.takeWhile isDot).length with
  | some (g1, g2) => [s, String.mk g1, String.mk g2]
  | none => []

/-- Largest value of a Go `int` (64-bit platform). -/
def maxInt : Nat := 2 ^ 63 - 1

/-- Value of a run of decimal digits, most significant first. -/
def digitsValue (cs : List Char) : Nat :=
  cs.foldl (fun acc c => acc * 10 + (c.toNat - 48)) 0

/-- Unsigned decimal parsing: fails on the empty string and on any character
that is not a digit. -/
def parseDigits (cs : List Char) : Option Nat :=
  if cs ≠ [] ∧ cs.all isDigit = true then some (digitsValue cs) else none

/-- Go `strconv.Atoi`: optional sign, decimal digits, range error when the
value does not fit in `int`.  `none` stands for a non-nil error. -/
def Atoi (s : String) : Option Int :=
  match s.data with
  | '-' :: ds =>
    match parseDigits ds with
    | some n => if n ≤ maxInt + 1 then some (-(n : Int)) else none
    | none => none
  | '+' :: ds =>
    match parseDigits ds with
    | some n => if n ≤ maxInt then some (n : Int) else none
    | none => none
  | ds =>
    match parseDigits ds with
    | some n => if n ≤ maxInt then some (n : Int) else none
    | none => none

/-- The identifier decoding of `convertKafkaLogDirsToReport` (lines 241-252):
`FindStringSubmatch`, the test `len(matches) != 3`, then `strconv.Atoi` on
group 2.  `none` is the `continue` of either failure branch. -/
def decodePartition (s : String) : Option (String × Int) :=
  match FindStringSubmatch s with
  | [_, topicName, num] =>
    match Atoi num with
    | some partitionNum => some (topicName, partitionNum)
    | none => none
  | _ => none

/-! ## Machine integers, maps, iteration order and sorting -/

/-- The value of an `int64` after wrap-around (two's complement). -/
def wrapInt64 (x : Int) : Int := (x + 2 ^ 63) % 2 ^ 64 - 2 ^ 63

/-- Go `a + b` on `int64`. -/
def add64 (a b : Int) : Int := wrapInt64 (a + b)

/-- The `int64` sum of a list, accumulated left to right from 0 with Go `+=`. -/
def sumInt64 (l : List Int) : Int := l.foldl add64 0

/-- Go `m[k]` with the comma-ok form: the value stored under `k`, if any. -/
def mapGet {K V : Type} [DecidableEq K] : List (K × V) → K → Option V
  | [], _ => none
  | (k', v) :: r, k => if k' = k then some v else mapGet r k

/-- Go `m[k] = v`: replaces the value of an existing key, adds a new key
otherwise. -/
def mapSet {K V : Type} [DecidableEq K] : List (K × V) → K → V → List (K × V)
  | [], k, v => [(k, v)]
  | (k', v') :: r, k, v => if k' = k then (k, v) :: r else (k', v') :: mapSet r k v

/-- An in-place update of the value stored under an existing key, as in
`m[k].field = x` through a pointer or `m[k][j] = x` on an inner map.  (On a
missing key Go would panic; the callers create the key first.) -/
def mapModify {K V : Type} [DecidableEq K] : List (K × V) → K → (V → V) → List (K × V)
  | [], _, _ => []
  | (k', v') :: r, k, f => if k' = k then (k', f v') :: r else (k', v') :: mapModify r k f

/-- Go `m[k]++` on a map of counters (a missing key reads as 0). -/
def mapIncr {K : Type} [DecidableEq K] (m : List (K × Nat)) (k : K) : List (K × Nat) :=
  mapSet m k ((mapGet m k).getD 0 + 1)

/-- The order in which `range` visits the entries of a map.  Go leaves it
unspecified; here the number `seed` picks the permutation (each element is
inserted at position `seed % (length + 1)` of the order of the others). -/
def mapRange {α : Type} : Nat → List α → List α
  | _, [] => []
  | seed, x :: xs =>
    (mapRange (seed / (xs.length + 1)) xs).insertIdx (seed % (xs.length + 1)) x

/-- Go `sort.Slice(l, less)`: a permutation of `l` in which no element is
`less` than an earlier one.  The sort is not stable, so the order of elements
that compare equal is unspecified: it is the one of `mapRange seed l`. -/
def sortSlice {α : Type} (seed : Nat) (less : α → α → Bool) (l : List α) : List α :=
  List.insertionSort (fun a b => less b a = false) (mapRange seed l)

/-! ## Byte formatting (`src/topic_sizes.go`, lines 231-246) -/

/-- The loop `for n := bytes / unit; n >= unit; n /= unit { div *= unit; exp++ }`.
The first argument bounds the number of iterations; `n` itself is enough since
`n / 1024 < n`. -/
def formatBytesLoop : Nat → Int → Int → Nat → Int × Nat
  | 0, _, div, exp => (div, exp)
  | fuel + 1, n, div, exp =>
    if n ≥ 1024 then formatBytesLoop fuel (n / 1024) (wrapInt64 (div * 1024)) (exp + 1)
    else (div, exp)

/-- Number of low bits that do not fit in the 53-bit significand of a
`float64`. -/
def excessBits : Nat → Nat → Nat
  | 0, _ => 0
  | fuel + 1, n => if n < 2 ^ 53 then 0 else excessBits fuel (n / 2) + 1

/-- Go `float64(n)` for `n ≥ 0`, as an exact number: the nearest value with a
53-bit significand, ties to even. -/
def toFloat64 (n : Nat) : Nat :=
  let e := excessBits n n
  let q := n / 2 ^ e
  let r := n % 2 ^ e
  if 2 * r > 2 ^ e ∨ (2 * r = 2 ^ e ∧ q % 2 = 1) then (q + 1) * 2 ^ e else q * 2 ^ e

/-- Go `fmt.Sprintf("%.2f", x)` for the exact value `x = num / den ≥ 0`: two
decimals, rounded to nearest, ties to even. -/
def sprintf2f (num den : Nat) : String :=
  let q := num * 100 / den
  let r := num * 100 % den
  let cents := if 2 * r > den ∨ (2 * r = den ∧ q % 2 = 1) then q + 1 else q
  toString (cents / 100) ++ "." ++ toString (cents % 100 / 10) ++ toString (cents % 10)

/-- The unit table of `formatBytes`. -/
def units : List String := ["KiB", "MiB", "GiB", "TiB", "PiB", "EiB"]

/-- Go `formatBytes`.  `div` is a power of two, so the `float64` quotient
`float64(bytes)/float64(div)` is exact.  The lookup `units[exp]` panics in Go
when out of range; it is in range for every `int64` (`formatBytesLoop_exp_le`). -/
def formatBytes (bytes : Int) : String :=
  if bytes < 1024 then toString bytes ++ " B"
  else
    let r := formatBytesLoop (bytes / 1024).toNat (bytes / 1024) 1024 0
    sprintf2f (toFloat64 bytes.toNat) r.1.toNat ++ " " ++ units.getD r.2 ""

/-! ## Topic sizes: data model (`src/topic_sizes.go`, `src/topic_sizes_kafka_cli.go`) -/

/-- Go `TopicSize`. -/
structure TopicSize where
  Topic : String
  TotalSize : Int
  TotalSizeStr : String
  Partitions : Nat
  deriving DecidableEq, Repr

/-- Go `TopicSizesReport`. -/
structure TopicSizesReport where
  Timestamp : String
  Cluster : String
  Topics : List TopicSize
  TotalSize : Int
  TotalSizeStr : String
  TotalTopics : Nat
  TotalPartitions : Nat
  deriving DecidableEq, Repr

/-- Go `KafkaPartitionInfo`: `Partition` has the format
"topic-name-partition-number". -/
structure KafkaPartitionInfo where
  Partition : String
  Size : Int
  OffsetLag : Int
  IsFuture : Bool
  deriving DecidableEq, Repr

/-- Go `KafkaLogDir`; `Error` is the nullable `*string`. -/
structure KafkaLogDir where
  LogDir : String
  Error : Option String
  Partitions : List KafkaPartitionInfo
  deriving DecidableEq, Repr

/-- Go `KafkaBrokerLogDirs`. -/
structure KafkaBrokerLogDirs where
  Broker : Int
  LogDirs : List KafkaLogDir
  deriving DecidableEq, Repr

/-- Go `KafkaLogDirsResponse`. -/
structure KafkaLogDirsResponse where
  Version : Int
  Brokers : List KafkaBrokerLogDirs
  deriving DecidableEq, Repr

/-! ## Fallback collector: `convertKafkaLogDirsToReport` -/

/-- The two maps filled by the aggregation loop: `topicSizes` and
`partitionCounts` (topic to set of partition numbers). -/
structure ConvertState where
  topicSizes : List (String × TopicSize)
  partitionCounts : List (String × List (Int × Bool))
  deriving DecidableEq, Repr

/-- The aggregation step for one decoded entry (lines 254-268): create the
topic on first sight, add the size (each replica counts), record the partition
number. -/
def convertRecord (st : ConvertState) (topicName : String) (partitionNum : Int) (size : Int) :
    ConvertState :=
  let st1 : ConvertState :=
    if (mapGet st.topicSizes topicName).isNone then
      { topicSizes := mapSet st.topicSizes topicName
          { Topic := topicName, TotalSize := 0, TotalSizeStr := "", Partitions := 0 }
        partitionCounts := mapSet st.partitionCounts topicName [] }
    else st
  { topicSizes := mapModify st1.topicSizes topicName
      (fun ts => { ts with TotalSize := add64 ts.TotalSize size })
    partitionCounts := mapModify st1.partitionCounts topicName
      (fun ps => mapSet ps partitionNum true) }

/-- Body of `for _, partition := range logDir.Partitions` (lines 239-269): an
entry whose identifier does not decode is skipped. -/
def convertPartition (st : ConvertState) (partition : KafkaPartitionInfo) : ConvertState :=
  match decodePartition partition.Partition with
  | none => st
  | some (topicName, partitionNum) => convertRecord st topicName partitionNum partition.Size

/-- Body of `for _, logDir := range broker.LogDirs` (lines 233-270): a log dir
with an error is skipped. -/
def convertLogDir (st : ConvertState) (logDir : KafkaLogDir) : ConvertState :=
  if logDir.Error.isSome then st
  else logDir.Partitions.foldl convertPartition st

/-- Body of `for _, broker := range kafkaResponse.Brokers` (lines 232-271). -/
def convertBroker (st : ConvertState) (broker : KafkaBrokerLogDirs) : ConvertState :=
  broker.LogDirs.foldl convertLogDir st

/-- The aggregation loop of `convertKafkaLogDirsToReport` from empty maps. -/
def convertAggregate (kafkaResponse : KafkaLogDirsResponse) : ConvertState :=
  kafkaResponse.Brokers.foldl convertBroker { topicSizes := [], partitionCounts := [] }

/-- The loop "Update partition counts" (lines 273-276) over the entries of
`partitionCounts` in the order `order`. -/
def updatePartitionCounts (topicSizes : List (String × TopicSize))
    (order : List (String × List (Int × Bool))) : List (String × TopicSize) :=
  order.foldl (fun m e => mapModify m e.1 (fun ts => { ts with Partitions := e.2.length }))
    topicSizes

/-- One step of the loop "Convert map to slice and calculate totals"
(lines 288-293). -/
def reportStep (report : TopicSizesReport) (e : String × TopicSize) : TopicSizesReport :=
  let ts : TopicSize := { e.2 with TotalSizeStr := formatBytes e.2.TotalSize }
  { report with
    Topics := report.Topics ++ [ts]
    TotalSize := add64 report.TotalSize ts.TotalSize
    TotalPartitions := report.TotalPartitions + ts.Partitions }

/-- The comparison passed to `sort.Slice`: larger `TotalSize` first. -/
def sizeLess (a b : TopicSize) : Bool := decide (a.TotalSize > b.TotalSize)

/-- Go `convertKafkaLogDirsToReport`.  `now` is `time.Now().Format(time.RFC3339)`;
`rnd 0` and `rnd 1` pick the iteration orders of the two `range` loops over
maps, `rnd 2` the order `sort.Slice` leaves among equal sizes. -/
def convertKafkaLogDirsToReport (kafkaResponse : KafkaLogDirsResponse)
    (brokers : List String) (now : String) (rnd : Nat → Nat) : TopicSizesReport :=
  let st := convertAggregate kafkaResponse
  let topicSizes := updatePartitionCounts st.topicSizes (mapRange (rnd 0) st.partitionCounts)
  let report0 : TopicSizesReport :=
    { Timestamp := now
      Cluster := ",".intercalate brokers
      Topics := []
      TotalSize := 0
      TotalSizeStr := ""
      TotalTopics := topicSizes.length
      TotalPartitions := 0 }
  let report1 := (mapRange (rnd 1) topicSizes).foldl reportStep report0
  let topics := sortSlice (rnd 2) sizeLess report1.Topics
  { report1 with
    Topics := topics
    TotalSizeStr := formatBytes report1.TotalSize
    TotalTopics := topics.length }

/-! ## Native collector: `getTopicSizes` (`src/topic_sizes.go`, lines 59-179) -/

/-- The sarama type `DescribeLogDirsResponsePartition`. -/
structure DescribeLogDirsResponsePartition where
  PartitionID : Int
  Size : Int
  OffsetLag : Int
  IsTemporary : Bool
  deriving DecidableEq, Repr

/-- The sarama type `DescribeLogDirsResponseTopic`. -/
structure DescribeLogDirsResponseTopic where
  Topic : String
  Partitions : List DescribeLogDirsResponsePartition
  deriving DecidableEq, Repr

/-- The sarama type `DescribeLogDirsResponseDirMetadata`; `ErrorCode = 0` is
`sarama.ErrNoError`. -/
structure DescribeLogDirsResponseDirMetadata where
  ErrorCode : Int
  Path : String
  Topics : List DescribeLogDirsResponseTopic
  deriving DecidableEq, Repr

/-- What the client answers for one broker of `client.Brokers()`:
`connected` is the result of `broker.Connected()`, `openFails` tells whether
`broker.Open(config)` returns an error, and `response` is the `LogDirs` of the
answer to `broker.DescribeLogDirs` (`none` when the call returns an error). -/
structure BrokerQuery where
  ID : Int
  Addr : String
  connected : Bool
  openFails : Bool
  response : Option (List DescribeLogDirsResponseDirMetadata)
  deriving DecidableEq, Repr

/-- Go `contains`. -/
def contains (slice : List String) (item : String) : Bool :=
  match slice with
  | [] => false
  | s :: rest => if s = item then true else contains rest item

/-- The two maps filled by `getTopicSizes`: `topicSizes` and
`topicPartitions`. -/
structure NativeState where
  topicSizes : List (String × Int)
  topicPartitions : List (String × List (Int × Bool))
  deriving DecidableEq, Repr

/-- Body of `for _, partitionInfo := range topicInfo.Partitions`
(lines 136-139). -/
def nativePartition (topicName : String) (st : NativeState)
    (partitionInfo : DescribeLogDirsResponsePartition) : NativeState :=
  { topicSizes := mapSet st.topicSizes topicName
      (add64 ((mapGet st.topicSizes topicName).getD 0) partitionInfo.Size)
    topicPartitions := mapModify st.topicPartitions topicName
      (fun ps => mapSet ps partitionInfo.PartitionID true) }

/-- Body of `for _, topicInfo := range logDirInfo.Topics` (lines 122-140). -/
def nativeTopic (topicFilter : List String) (st : NativeState)
    (topicInfo : DescribeLogDirsResponseTopic) : NativeState :=
  let topicName := topicInfo.Topic
  if topicFilter.length > 0 ∧ contains topicFilter topicName = false then st
  else
    let st1 : NativeState :=
      if (mapGet st.topicPartitions topicName).isNone then
        { st with topicPartitions := mapSet st.topicPartitions topicName [] }
      else st
    topicInfo.Partitions.foldl (nativePartition topicName) st1

/-- Body of `for _, logDirInfo := range response.LogDirs` (lines 115-141). -/
def nativeLogDir (topicFilter : List String) (st : NativeState)
    (logDirInfo : DescribeLogDirsResponseDirMetadata) : NativeState :=
  if logDirInfo.ErrorCode ≠ 0 then st
  else logDirInfo.Topics.foldl (nativeTopic topicFilter) st

/-- Body of `for _, broker := range brokerIDs` (lines 84-142). -/
def nativeBroker (topicFilter : List String) (st : NativeState) (broker : BrokerQuery) :
    NativeState :=
  if broker.connected = false ∧ broker.openFails = true then st
  else
    match broker.response with
    | none => st
    | some logDirs =>
      if logDirs.length = 0 then st
      else logDirs.foldl (nativeLogDir topicFilter) st

/-- The query loop of `getTopicSizes` from empty maps. -/
def nativeAggregate (brokerIDs : List BrokerQuery) (topicFilter : List String) : NativeState :=
  brokerIDs.foldl (nativeBroker topicFilter) { topicSizes := [], topicPartitions := [] }

/-- One step of the loop "Convert map to slice and sort" (lines 156-165). -/
def nativeReportStep (topicPartitions : List (String × List (Int × Bool)))
    (report : TopicSizesReport) (e : String × Int) : TopicSizesReport :=
  let n := ((mapGet topicPartitions e.1).getD []).length
  { report with
    Topics := report.Topics ++
      [{ Topic := e.1, TotalSize := e.2, TotalSizeStr := formatBytes e.2, Partitions := n }]
    TotalSize := add64 report.TotalSize e.2
    TotalPartitions := report.TotalPartitions + n }

/-- Go `getTopicSizes`.  `client` is the outcome of `sarama.NewClient` (the
brokers of the metadata view with their answers, or an error); `rnd 0` picks
the iteration order of the `range` over `topicSizes`, `rnd 1` the order
`sort.Slice` leaves among equal sizes. -/
def getTopicSizes (brokers : List String) (client : Except String (List BrokerQuery))
    (topicFilter : List String) (now : String) (rnd : Nat → Nat) :
    Except String TopicSizesReport :=
  match client with
  | .error err => .error ("error creating client: " ++ err)
  | .ok brokerIDs =>
    let st := nativeAggregate brokerIDs topicFilter
    if st.topicSizes.length = 0 then .error "no topic size data retrieved"
    else
      let report0 : TopicSizesReport :=
        { Timestamp := now
          Cluster := ",".intercalate brokers
          Topics := []
          TotalSize := 0
          TotalSizeStr := ""
          TotalTopics := 0
          TotalPartitions := 0 }
      let report1 :=
        (mapRange (rnd 0) st.topicSizes).foldl (nativeReportStep st.topicPartitions) report0
      let topics := sortSlice (rnd 1) sizeLess report1.Topics
      .ok { report1 with
            Topics := topics
            TotalTopics := topics.length
            TotalSizeStr := formatBytes report1.TotalSize }

/-! ## Cluster topology: broker metrics (`src/main.go`, lines 58-112 and 278-412) -/

/-- Go `BrokerInfo`. -/
structure BrokerInfo where
  ID : Int
  Address : String
  Version : String
  Partitions : Nat
  Leaders : Nat
  UnderReplicated : Nat
  deriving DecidableEq, Repr

/-- Go `TopicInfo`. -/
structure TopicInfo where
  Name : String
  Partitions : Int
  ReplicationFactor : Int
  TotalMessages : Int
  Configs : List (String × String)
  deriving DecidableEq, Repr

/-- Go `ConsumerGroupInfo`. -/
structure ConsumerGroupInfo where
  Name : String
  Topics : List String
  Members : Nat
  State : String
  deriving DecidableEq, Repr

/-- Go `KafkaClusterInfo`. -/
structure KafkaClusterInfo where
  Timestamp : String
  Brokers : List String
  BrokerDetails : List BrokerInfo
  Topics : List TopicInfo
  ConsumerGroups : List ConsumerGroupInfo
  TotalTopics : Nat
  TotalConsumerGroups : Nat
  TotalPartitions : Int
  TotalMessages : Int
  TotalURPs : Nat
  deriving DecidableEq, Repr

/-- The sarama type `PartitionMetadata` (fields read by the tool). -/
structure PartitionMetadata where
  ID : Int
  Leader : Int
  Replicas : List Int
  Isr : List Int
  deriving DecidableEq, Repr

/-- The sarama type `TopicMetadata` (fields read by the tool). -/
structure TopicMetadata where
  Name : String
  Partitions : List PartitionMetadata
  deriving DecidableEq, Repr

/-- The sarama type `TopicDetail` (fields read by the tool). -/
structure TopicDetail where
  NumPartitions : Int
  ReplicationFactor : Int
  deriving DecidableEq, Repr

/-- The literal `clusterInfo := KafkaClusterInfo{Timestamp: ..., Brokers: brokerList}`
of `main` (lines 278-281): every other field has its zero value. -/
def newClusterInfo (now : String) (brokerList : List String) : KafkaClusterInfo :=
  { Timestamp := now
    Brokers := brokerList
    BrokerDetails := []
    Topics := []
    ConsumerGroups := []
    TotalTopics := 0
    TotalConsumerGroups := 0
    TotalPartitions := 0
    TotalMessages := 0
    TotalURPs := 0 }

/-- The broker list of the snapshot (lines 290-305): `metadata` holds the id
and address of every broker of the metadata answer, `none` when
`GetMetadata` fails, in which case `BrokerDetails` stays empty. -/
def collectBrokers (clusterInfo : KafkaClusterInfo) (metadata : Option (List (Int × String))) :
    KafkaClusterInfo :=
  match metadata with
  | none => clusterInfo
  | some bs =>
    { clusterInfo with
      BrokerDetails := bs.map fun b =>
        { ID := b.1, Address := b.2, Version := "", Partitions := 0, Leaders := 0,
          UnderReplicated := 0 } }

/-- The three counter maps of the metrics block and the tally
`clusterInfo.TotalURPs`. -/
structure MetricsState where
  brokerPartitions : List (Int × Nat)
  brokerLeaders : List (Int × Nat)
  brokerURPs : List (Int × Nat)
  TotalURPs : Nat
  deriving DecidableEq, Repr

/-- Body of `for _, partition := range topicMeta.Partitions` (lines 366-384). -/
def countPartition (st : MetricsState) (partition : PartitionMetadata) : MetricsState :=
  let st1 : MetricsState :=
    { st with brokerPartitions := partition.Replicas.foldl mapIncr st.brokerPartitions }
  let st2 : MetricsState :=
    if partition.Leader ≥ 0 then
      { st1 with brokerLeaders := mapIncr st1.brokerLeaders partition.Leader }
    else st1
  if partition.Isr.length < partition.Replicas.length then
    { st2 with
      brokerURPs := partition.Replicas.foldl mapIncr st2.brokerURPs
      TotalURPs := st2.TotalURPs + 1 }
  else st2

/-- Body of `for topicName := range topics` (lines 359-386): a topic whose
`admin.DescribeTopics` call fails (`none`) is skipped. -/
def countTopic (describeTopics : String → Option (List TopicMetadata)) (st : MetricsState)
    (topicName : String) : MetricsState :=
  match describeTopics topicName with
  | none => st
  | some partitions =>
    partitions.foldl (fun st topicMeta => topicMeta.Partitions.foldl countPartition st) st

/-- The loop over `clusterInfo.BrokerDetails` (lines 389-411): the counters
are copied from the maps (a missing key reads as 0); `apiVersions addr` tells
whether the version probe of the broker at `addr` succeeds. -/
def fillBroker (st : MetricsState) (apiVersions : String → Bool) (b : BrokerInfo) : BrokerInfo :=
  let v := if apiVersions b.Address then "Kafka detected" else b.Version
  { b with
    Partitions := (mapGet st.brokerPartitions b.ID).getD 0
    Leaders := (mapGet st.brokerLeaders b.ID).getD 0
    UnderReplicated := (mapGet st.brokerURPs b.ID).getD 0
    Version := if v = "" then "Unknown" else v }

/-- The block "Calculate partition and leader distribution across brokers" of
`main` (lines 351-412).  `topics` is the map returned by `admin.ListTopics`,
`describeTopics` the answers of `admin.DescribeTopics`, and `rnd 0` picks the
iteration order of the `range` over `topics`. -/
def brokerMetrics (clusterInfo : KafkaClusterInfo) (topics : List (String × TopicDetail))
    (describeTopics : String → Option (List TopicMetadata)) (apiVersions : String → Bool)
    (rnd : Nat → Nat) : KafkaClusterInfo :=
  if clusterInfo.BrokerDetails.length > 0 then
    let st0 : MetricsState :=
      { brokerPartitions := [], brokerLeaders := [], brokerURPs := [],
        TotalURPs := clusterInfo.TotalURPs }
    let st := ((mapRange (rnd 0) topics).map Prod.fst).foldl (countTopic describeTopics) st0
    { clusterInfo with
      BrokerDetails := clusterInfo.BrokerDetails.map (fillBroker st apiVersions)
      TotalURPs := st.TotalURPs }
  else clusterInfo

/-- Go `getTotalPartitions`: the total is a Go `int` (64 bits), added with
wrap-around. -/
def getTotalPartitions (topics : List TopicInfo) : Int :=
  topics.foldl (fun total topic => add64 total topic.Partitions) 0

/-- Go `getTotalMessages`. -/
def getTotalMessages (topics : List TopicInfo) : Int :=
  topics.foldl (fun total topic => add64 total topic.TotalMessages) 0

/-- The assignments of lines 346-349 of `main`. -/
def withTopics (clusterInfo : KafkaClusterInfo) (topicInfos : List TopicInfo) :
    KafkaClusterInfo :=
  { clusterInfo with
    Topics := topicInfos
    TotalTopics := topicInfos.length
    TotalPartitions := getTotalPartitions topicInfos
    TotalMessages := getTotalMessages topicInfos }

/-- The snapshot of `main` after the metrics block (lines 278-412): the
literal, the broker list, the topic list and totals, then the broker metrics.
`topicInfos` is the sorted topic list built in lines 314-344. -/
def topologySnapshot (now : String) (brokerList : List String)
    (metadata : Option (List (Int × String))) (topicInfos : List TopicInfo)
    (topics : List (String × TopicDetail))
    (describeTopics : String → Option (List TopicMetadata)) (apiVersions : String → Bool)
    (rnd : Nat → Nat) : KafkaClusterInfo :=
  brokerMetrics (withTopics (collectBrokers (newClusterInfo now brokerList) metadata) topicInfos)
    topics describeTopics apiVersions rnd

/-! ## Reference notions used in the statements -/

/-- The longest trailing run of digits of a text. -/
def trailingDigits (s : List Char) : List Char :=
  (s.reverse.takeWhile isDigit).reverse

/-- Everything before the last hyphen of a text. -/
def beforeLastHyphen (s : List Char) : List Char :=
  ((s.reverse.dropWhile (fun c => decide (c ≠ '-'))).drop 1).reverse

/-- A replica size record: one partition replica of a topic as reported by one
log dir of one broker. -/
structure SizeRecord where
  topic : String
  partition : Int
  size : Int
  deriving DecidableEq, Repr

/-- The records of a parsed `kafka-log-dirs` response: one for every decodable
partition entry of every error-free log dir of every broker. -/
def convertRecords (kafkaResponse : KafkaLogDirsResponse) : List SizeRecord :=
  kafkaResponse.Brokers.flatMap fun broker =>
    broker.LogDirs.flatMap fun logDir =>
      if logDir.Error.isSome then []
      else logDir.Partitions.flatMap fun partition =>
        match decodePartition partition.Partition with
        | none => []
        | some d => [{ topic := d.1, partition := d.2, size := partition.Size }]

/-- The records the native collector receives: one for every partition entry
of every accepted topic of every error-free log dir of every broker that
answered with at least one log dir. -/
def nativeRecords (brokerIDs : List BrokerQuery) (topicFilter : List String) : List SizeRecord :=
  brokerIDs.flatMap fun broker =>
    if broker.connected = false ∧ broker.openFails = true then []
    else
      (broker.response.getD []).flatMap fun logDirInfo =>
        if logDirInfo.ErrorCode ≠ 0 then []
        else logDirInfo.Topics.flatMap fun topicInfo =>
          if topicFilter.length > 0 ∧ contains topicFilter topicInfo.Topic = false then []
          else topicInfo.Partitions.map fun p =>
            { topic := topicInfo.Topic, partition := p.PartitionID, size := p.Size }

/-- The `int64` sum of the sizes of the records of topic `t`, every replica
counted. -/
def topicBytes (recs : List SizeRecord) (t : String) : Int :=
  sumInt64 ((recs.filter fun r => r.topic = t).map fun r => r.size)

/-- The number of distinct partition numbers among the records of topic `t`. -/
def distinctPartitions (recs : List SizeRecord) (t : String) : Nat :=
  ((recs.filter fun r => r.topic = t).map fun r => r.partition).dedup.length

/-- A partition is under-replicated when its ISR is smaller than its replica
list. -/
def isURP (p : PartitionMetadata) : Bool := decide (p.Isr.length < p.Replicas.length)

/-- The partitions of the successfully described topics, in the order of the
topic map. -/
def describedPartitions (topics : List (String × TopicDetail))
    (describeTopics : String → Option (List TopicMetadata)) : List PartitionMetadata :=
  topics.flatMap fun e =>
    ((describeTopics e.1).getD []).flatMap fun topicMeta => topicMeta.Partitions

/-- Number of occurrences of broker `id` in the replica lists of the
partitions `ps`. -/
def replicaOccurrences (ps : List PartitionMetadata) (id : Int) : Nat :=
  (ps.map fun p => p.Replicas.count id).sum

/-- The per-topic record that aggregating `recs` yields for topic `t`. -/
def expectedTopic (recs : List SizeRecord) (t : String) : TopicSize :=
  { Topic := t
    TotalSize := topicBytes recs t
    TotalSizeStr := formatBytes (topicBytes recs t)
    Partitions := distinctPartitions recs t }

/-- The per-topic records that aggregating `recs` yields: one for each topic
that has a record. -/
def aggregatedTopics (recs : List SizeRecord) : List TopicSize :=
  ((recs.map fun r => r.topic).dedup).map (expectedTopic recs)

/-- An `int64` value. -/
def fitsInt64 (x : Int) : Prop := -(2 ^ 63) ≤ x ∧ x < 2 ^ 63

instance (x : Int) : Decidable (fitsInt64 x) := by
  unfold fitsInt64
  infer_instance

/-- A sample `kafka-log-dirs` response: partitions 0 and 1 of `events` on
three brokers, `orders-0` on one broker, one entry that does not decode and
one log dir in error. -/
def sampleResponse : KafkaLogDirsResponse :=
  { Version := 1
    Brokers :=
      [{ Broker := 1
         LogDirs :=
           [{ LogDir := "/data1", Error := none
              Partitions :=
                [{ Partition := "events-0", Size := 100, OffsetLag := 0, IsFuture := false },
                 { Partition := "events-1", Size := 50, OffsetLag := 0, IsFuture := false },
                 { Partition := "orders-0", Size := 2048, OffsetLag := 0, IsFuture := false }] },
            { LogDir := "/data2", Error := some "offline"
              Partitions :=
                [{ Partition := "events-7", Size := 999, OffsetLag := 0,
                   IsFuture := false }] }] },
       { Broker := 2
         LogDirs :=
           [{ LogDir := "/data1", Error := none
              Partitions :=
                [{ Partition := "events-0", Size := 100, OffsetLag := 0, IsFuture := false },
                 { Partition := "no-digits-here-", Size := 5, OffsetLag := 0,
                   IsFuture := false },
                 { Partition := "events-1", Size := 50, OffsetLag := 0,
                   IsFuture := false }] }] },
       { Broker := 3
         LogDirs :=
           [{ LogDir := "/data1", Error := none
              Partitions :=
                [{ Partition := "events-0", Size := 100, OffsetLag := 0, IsFuture := false },
                 { Partition := "events-1", Size := 50, OffsetLag := 0,
                   IsFuture := false }] }] }] }

/-- The report of the fallback collector for `sampleResponse`. -/
def sampleReport : TopicSizesReport :=
  { Timestamp := "2024-01-01T00:00:00Z"
    Cluster := "b1:9092,b2:9092"
    Topics :=
      [{ Topic := "orders", TotalSize := 2048, TotalSizeStr := "2.00 KiB", Partitions := 1 },
       { Topic := "events", TotalSize := 450, TotalSizeStr := "450 B", Partitions := 2 }]
    TotalSize := 2498
    TotalSizeStr := "2.44 KiB"
    TotalTopics := 2
    TotalPartitions := 3 }

/-- The entry of topic `events` in `sampleReport`: three replicas of two
partitions. -/
def sampleEvents : TopicSize :=
  { Topic := "events", TotalSize := 450, TotalSizeStr := "450 B", Partitions := 2 }

/-- Sample answers to the native collector: the same replicas as in
`sampleResponse`, the third broker being unreachable. -/
def sampleClient : Except String (List BrokerQuery) :=
  .ok
    [{ ID := 1, Addr := "b1:9092", connected := true, openFails := false
       response := some
         [{ ErrorCode := 0, Path := "/data1"
            Topics :=
              [{ Topic := "events"
                 Partitions :=
                   [{ PartitionID := 0, Size := 100, OffsetLag := 0, IsTemporary := false },
                    { PartitionID := 1, Size := 50, OffsetLag := 0, IsTemporary := false }] },
               { Topic := "orders"
                 Partitions :=
                   [{ PartitionID := 0, Size := 2048, OffsetLag := 0,
                      IsTemporary := false }] }] }] },
     { ID := 2, Addr := "b2:9092", connected := false, openFails := false
       response := some
         [{ ErrorCode := 0, Path := "/data1"
            Topics :=
              [{ Topic := "events"
                 Partitions :=
                   [{ PartitionID := 0, Size := 100, OffsetLag := 0, IsTemporary := false },
                    { PartitionID := 1, Size := 50, OffsetLag := 0,
                      IsTemporary := false }] }] }] },
     { ID := 3, Addr := "b3:9092", connected := false, openFails := true, response := none }]

/-- The report of the native collector for `sampleClient`. -/
def sampleNativeReport : TopicSizesReport :=
  { Timestamp := "2024-01-01T00:00:00Z"
    Cluster := "b1:9092,b2:9092"
    Topics :=
      [{ Topic := "orders", TotalSize := 2048, TotalSizeStr := "2.00 KiB", Partitions := 1 },
       { Topic := "events", TotalSize := 300, TotalSizeStr := "300 B", Partitions := 2 }]
    TotalSize := 2348
    TotalSizeStr := "2.29 KiB"
    TotalTopics := 2
    TotalPartitions := 3 }

/-- Invariant of the counters of the metrics block after the partitions
`parts` were counted, the tally having started at `base`. -/
def MetricsInv (base : Nat) (parts : List PartitionMetadata) (st : MetricsState) : Prop :=
  (∀ id, (mapGet st.brokerPartitions id).getD 0 = replicaOccurrences parts id) ∧
    (∀ id, (mapGet st.brokerLeaders id).getD 0 =
      (parts.filter fun p => decide (p.Leader ≥ 0 ∧ p.Leader = id)).length) ∧
    (∀ id, (mapGet st.brokerURPs id).getD 0 = replicaOccurrences (parts.filter isURP) id) ∧
    st.TotalURPs = base + (parts.filter isURP).length

/-- The scenario of the specification: three brokers and the topic `events`
with four partitions of replication factor 3, partition 2 having an ISR of
size 2. -/
def scenarioMetadata : Option (List (Int × String)) :=
  some [(1, "b1:9092"), (2, "b2:9092"), (3, "b3:9092")]

/-- The topic map of the scenario. -/
def scenarioTopics : List (String × TopicDetail) :=
  [("events", { NumPartitions := 4, ReplicationFactor := 3 })]

/-- The answers of `DescribeTopics` in the scenario. -/
def scenarioDescribe (topicName : String) : Option (List TopicMetadata) :=
  if topicName = "events" then
    some [{ Name := "events"
            Partitions :=
              [{ ID := 0, Leader := 1, Replicas := [1, 2, 3], Isr := [1, 2, 3] },
               { ID := 1, Leader := 2, Replicas := [2, 3, 1], Isr := [2, 3, 1] },
               { ID := 2, Leader := 3, Replicas := [3, 1, 2], Isr := [3, 1] },
               { ID := 3, Leader := 1, Replicas := [1, 3, 2], Isr := [1, 3, 2] }] }]
  else none

/-- The snapshot of the scenario. -/
def scenarioSnapshot (rnd : Nat → Nat) : KafkaClusterInfo :=
  topologySnapshot "2024-01-01T00:00:00Z" ["b1:9092"] scenarioMetadata
    [{ Name := "events", Partitions := 4, ReplicationFactor := 3, TotalMessages := 225,
       Configs := [] }]
    scenarioTopics scenarioDescribe (fun _ => false) rnd

/-- The scenario with a failed broker metadata request: the broker list of
the snapshot stays empty while the cluster is the same. -/
def scenarioWithoutBrokers (rnd : Nat → Nat) : KafkaClusterInfo :=
  topologySnapshot "2024-01-01T00:00:00Z" ["b1:9092"] none
    [{ Name := "events", Partitions := 4, ReplicationFactor := 3, TotalMessages := 225,
       Configs := [] }]
    scenarioTopics scenarioDescribe (fun _ => false) rnd

/-- Invariant of a topic-to-partition-set map after the records `recs` went
in: keys are unique, every record's topic is a key, and the set stored under a
topic holds exactly the partition numbers of that topic's records. -/
def PartInv (recs : List SizeRecord) (pc : List (String × List (Int × Bool))) : Prop :=
  (pc.map Prod.fst).Nodup ∧ (∀ r ∈ recs, r.topic ∈ pc.map Prod.fst) ∧
    ∀ t ps, mapGet pc t = some ps →
      (ps.map Prod.fst).Nodup ∧
        ∀ n, n ∈ ps.map Prod.fst ↔ ∃ r ∈ recs, r.topic = t ∧ r.partition = n

/-- Invariant of the maps of `convertKafkaLogDirsToReport` after the records
`recs` went in. -/
def ConvertInv (recs : List SizeRecord) (st : ConvertState) : Prop :=
  st.topicSizes.map Prod.fst = st.partitionCounts.map Prod.fst ∧
    PartInv recs st.partitionCounts ∧
    (∀ t, t ∈ st.topicSizes.map Prod.fst → ∃ r ∈ recs, r.topic = t) ∧
    ∀ t ts, mapGet st.topicSizes t = some ts →
      ts = { Topic := t, TotalSize := topicBytes recs t, TotalSizeStr := "", Partitions := 0 }

/-- Invariant of the maps of `getTopicSizes` after the records `recs` went in. -/
def NativeInv (recs : List SizeRecord) (st : NativeState) : Prop :=
  PartInv recs st.topicPartitions ∧ (st.topicSizes.map Prod.fst).Nodup ∧
    (∀ t, t ∈ st.topicSizes.map Prod.fst ↔ ∃ r ∈ recs, r.topic = t) ∧
    ∀ t v, mapGet st.topicSizes t = some v → v = topicBytes recs t

/-- The counter maps of the metrics block after the loop over the topics
(lines 354-386), the tally having started at `base`: the state from which
`brokerMetrics` fills the broker list. -/
def metricsCounters (base : Nat) (topics : List (String × TopicDetail))
    (describeTopics : String → Option (List TopicMetadata)) (rnd : Nat → Nat) : MetricsState :=
  ((mapRange (rnd 0) topics).map Prod.fst).foldl (countTopic describeTopics)
    { brokerPartitions := [], brokerLeaders := [], brokerURPs := [], TotalURPs := base }

/-! ## Consumer offsets: `fetchConsumerOffsets` (`src/consumer_offsets.go`, lines 16-68) -/

/-- Go `PartitionOffset`. -/
structure PartitionOffset where
  Partition : Int
  Offset : Int
  Timestamp : Int
  Lag : Int
  deriving DecidableEq, Repr

/-- Go `ConsumerGroupOffsets`; `Topics` is the map from topic to offset list. -/
structure ConsumerGroupOffsets where
  Group : String
  Topics : List (String × List PartitionOffset)
  Timestamp : String
  deriving DecidableEq, Repr

/-- Go `ConsumerOffsetsBackup`. -/
structure ConsumerOffsetsBackup where
  Timestamp : String
  Cluster : String
  ConsumerGroups : List ConsumerGroupOffsets
  deriving DecidableEq, Repr

/-- One entry of `OffsetFetchResponse.Blocks`: the Go map from partition to
the committed offset of its `OffsetFetchResponseBlock`.  Being a map, it has
one entry per partition. -/
structure OffsetBlock where
  entries : List (Int × Int)
  nodup : (entries.map Prod.fst).Nodup

/-- The comparison passed to `sort.Slice` in `fetchConsumerOffsets`: smaller
partition number first. -/
def partitionLess (a b : PartitionOffset) : Bool := decide (a.Partition < b.Partition)

/-- The slice built from one offset block and sorted (lines 43-54): the block
is visited in the order picked by `seedRange`, the sort is `sort.Slice`. -/
def sortedPartitionOffsets (seedRange seedSort : Nat) (block : OffsetBlock) :
    List PartitionOffset :=
  sortSlice seedSort partitionLess
    ((mapRange seedRange block.entries).map fun e =>
      { Partition := e.1, Offset := e.2, Timestamp := 0, Lag := 0 })

/-- Body of `for _, topic := range group.Topics` (lines 35-60).
`listOffsets group topic` is the answer of
`admin.ListConsumerGroupOffsets(group, map[string][]int32{topic: nil})`: `none`
for an error, otherwise the `Blocks` of the response. -/
def fetchTopic (listOffsets : String → String → Option (List (String × OffsetBlock)))
    (groupName : String) (seedRange seedSort : Nat)
    (topicsMap : List (String × List PartitionOffset)) (topic : String) :
    List (String × List PartitionOffset) :=
  match listOffsets groupName topic with
  | none => topicsMap
  | some blocks =>
    match mapGet blocks topic with
    | none => topicsMap
    | some block =>
      let partitionOffsets := sortedPartitionOffsets seedRange seedSort block
      if partitionOffsets.length > 0 then mapSet topicsMap topic partitionOffsets
      else topicsMap

/-- The loop over `group.Topics` for the group at position `i`; `j` is the
position of the next topic and `rnd i j 0`, `rnd i j 1` pick the orders of the
`range` over its block and of its sort. -/
def fetchTopics (listOffsets : String → String → Option (List (String × OffsetBlock)))
    (rnd : Nat → Nat → Nat → Nat) (groupName : String) (i : Nat) :
    Nat → List String → List (String × List PartitionOffset) →
      List (String × List PartitionOffset)
  | _, [], topicsMap => topicsMap
  | j, topic :: rest, topicsMap =>
    fetchTopics listOffsets rnd groupName i (j + 1) rest
      (fetchTopic listOffsets groupName (rnd i j 0) (rnd i j 1) topicsMap topic)

/-- The loop `for _, group := range groups` (lines 23-65); `i` is the position
of the next group and `clock (i + 1)` the time read when its
`ConsumerGroupOffsets` is created. -/
def fetchGroups (listOffsets : String → String → Option (List (String × OffsetBlock)))
    (clock : Nat → String) (rnd : Nat → Nat → Nat → Nat) :
    Nat → List ConsumerGroupInfo → List ConsumerGroupOffsets → List ConsumerGroupOffsets
  | _, [], acc => acc
  | i, group :: rest, acc =>
    if group.Topics.length = 0 then fetchGroups listOffsets clock rnd (i + 1) rest acc
    else
      let groupOffsets : ConsumerGroupOffsets :=
        { Group := group.Name
          Topics := fetchTopics listOffsets rnd group.Name i 0 group.Topics []
          Timestamp := clock (i + 1) }
      if groupOffsets.Topics.length > 0 then
        fetchGroups listOffsets clock rnd (i + 1) rest (acc ++ [groupOffsets])
      else fetchGroups listOffsets clock rnd (i + 1) rest acc

/-- Go `fetchConsumerOffsets`.  `clock 0` is the time read for the backup. -/
def fetchConsumerOffsets (listOffsets : String → String → Option (List (String × OffsetBlock)))
    (groups : List ConsumerGroupInfo) (cluster : String) (clock : Nat → String)
    (rnd : Nat → Nat → Nat → Nat) : Except String ConsumerOffsetsBackup :=
  .ok
    { Timestamp := clock 0
      Cluster := cluster
      ConsumerGroups := fetchGroups listOffsets clock rnd 0 groups [] }

/-- A topic of a group is fetched when the offset listing returns no error
and its block holds at least one partition. -/
def topicFetched (listOffsets : String → String → Option (List (String × OffsetBlock)))
    (groupName topic : String) : Bool :=
  match listOffsets groupName topic with
  | none => false
  | some blocks =>
    match mapGet blocks topic with
    | none => false
    | some block => decide (block.entries ≠ [])

/-- A group is kept when at least one of its topics is fetched. -/
def groupKept (listOffsets : String → String → Option (List (String × OffsetBlock)))
    (group : ConsumerGroupInfo) : Bool :=
  group.Topics.any fun topic => topicFetched listOffsets group.Name topic

/-- The topic map of a group, computed with fixed orders. -/
def expectedTopics (listOffsets : String → String → Option (List (String × OffsetBlock)))
    (group : ConsumerGroupInfo) : List (String × List PartitionOffset) :=
  group.Topics.foldl (fetchTopic listOffsets group.Name 0 0) []

/-- A backup without its time stamps. -/
def eraseTimestamps (backup : ConsumerOffsetsBackup) : ConsumerOffsetsBackup :=
  { backup with
    Timestamp := ""
    ConsumerGroups := backup.ConsumerGroups.map fun g => { g with Timestamp := "" } }

/-- The offset listing of the scenario: group `svc` on topic `events` with
committed offsets 0:100, 1:50, 2:75, 3:0 (in the order of the response). -/
def scenarioOffsets (groupName topic : String) : Option (List (String × OffsetBlock)) :=
  if groupName = "svc" ∧ topic = "events" then
    some [("events", { entries := [(2, 75), (0, 100), (3, 0), (1, 50)], nodup := by decide })]
  else none

/-- The consumer groups of the scenario: `svc` subscribed to `events`, and a
group without assignment. -/
def scenarioGroups : List ConsumerGroupInfo :=
  [{ Name := "idle", Topics := [], Members := 0, State := "Empty" },
   { Name := "svc", Topics := ["events"], Members := 1, State := "Stable" }]

/-- The offset block the client returns for a topic of a group, if any. -/
def offsetBlockOf (listOffsets : String → String → Option (List (String × OffsetBlock)))
    (groupName topic : String) : Option OffsetBlock :=
  match listOffsets groupName topic with
  | none => none
  | some blocks => mapGet blocks topic

/-- The groups of the snapshot without time stamps: the kept groups in input
order, each with its topic map. -/
def expectedGroups (listOffsets : String → String → Option (List (String × OffsetBlock)))
    (groups : List ConsumerGroupInfo) : List ConsumerGroupOffsets :=
  (groups.filter (groupKept listOffsets)).map fun g =>
    { Group := g.Name, Topics := expectedTopics listOffsets g, Timestamp := "" }

/-! ## Offset restore script: `generateRestoreOffsetsScript`
(`src/consumer_offsets.go`, lines 85-192) -/

/-- The text written by a sequence of writes: the pieces one after the other. -/
def concatAll (pieces : List String) : String :=
  pieces.foldr (fun a b => a ++ b) ""

/-- The script header written by the first `Fprintf` (lines 96-128). -/
def restoreHeader (backup : ConsumerOffsetsBackup) (filename : String) : String :=
  "#!/bin/bash\n"
  ++ "# Consumer Group Offsets Restore Script\n"
  ++ "# Generated: " ++ backup.Timestamp ++ "\n"
  ++ "# Source Cluster: " ++ backup.Cluster ++ "\n"
  ++ "# Total Consumer Groups: " ++ toString backup.ConsumerGroups.length ++ "\n"
  ++ "#\n"
  ++ "# Usage:\n"
  ++ "#   1. Edit BOOTSTRAP_SERVERS to point to your target cluster\n"
  ++ "#   2. Add authentication flags if needed (--command-config, etc.)\n"
  ++ "#   3. Run: chmod +x " ++ filename ++ " && ./" ++ filename ++ "\n"
  ++ "#\n"
  ++ "\n"
  ++ "set -e  # Exit on error\n"
  ++ "\n"
  ++ "# Target cluster configuration\n"
  ++ "BOOTSTRAP_SERVERS=\"localhost:9092\"  # CHANGE THIS\n"
  ++ "# Uncomment and configure if authentication is needed:\n"
  ++ "# COMMAND_CONFIG=\"--command-config client.properties\"\n"
  ++ "COMMAND_CONFIG=\"\"\n"
  ++ "\n"
  ++ "# Kafka consumer groups command (adjust path if needed)\n"
  ++ "KAFKA_CONSUMER_GROUPS=\"kafka-consumer-groups.sh\"\n"
  ++ "\n"
  ++ "echo \"========================================\"\n"
  ++ "echo \"Restoring offsets for " ++ toString backup.ConsumerGroups.length
    ++ " consumer groups\"\n"
  ++ "echo \"Target: $BOOTSTRAP_SERVERS\"\n"
  ++ "echo \"========================================\"\n"
  ++ "echo \"\"\n"
  ++ "\n"
  ++ "RESTORED=0\n"
  ++ "FAILED=0\n"
  ++ "\n"

/-- The summary written by the last `Fprintf` (lines 177-185). -/
def restoreSummary : String :=
  "echo \"========================================\"\n"
  ++ "echo \"Offset Restore Summary:\"\n"
  ++ "echo \"  Successfully restored: $RESTORED topics\"\n"
  ++ "echo \"  Failed: $FAILED topics\"\n"
  ++ "echo \"========================================\"\n"
  ++ "echo \"\"\n"
  ++ "echo \"Note: Verify offsets were restored correctly:\"\n"
  ++ "echo \"  $KAFKA_CONSUMER_GROUPS --bootstrap-server \\\"$BOOTSTRAP_SERVERS\\\" $COMMAND_CONFIG --group <group-name> --describe\"\n"

/-- The loop `for i, partition := range partitions` (lines 143-150) from
position `i`, for a list of `n` partitions: one payload entry per partition,
followed by a comma unless it is the last one. -/
def payloadLoop (topic : String) (n : Nat) : Nat → List PartitionOffset → List String
  | _, [] => []
  | i, partition :: rest =>
    let comma := if i = n - 1 then "" else ","
    ("    \x7b\"topic\": \"" ++ topic ++ "\", \"partition\": "
        ++ toString partition.Partition ++ ", \"offset\": " ++ toString partition.Offset
        ++ "\x7d" ++ comma ++ "\n") ::
      payloadLoop topic n (i + 1) rest

/-- Body of `for topic, partitions := range group.Topics` (lines 136-170):
the texts written by the `Fprintf` calls, in order. -/
def restoreBlock (group topic : String) (partitions : List PartitionOffset) : List String :=
  ["echo \"  Topic: " ++ topic ++ " (" ++ toString partitions.length ++ " partitions)\"\n",
   "cat > /tmp/offsets_" ++ group ++ "_" ++ topic ++ ".json << \x27OFFSET_EOF\x27\n",
   "\x7b\n",
   "  \"partitions\": [\n"] ++
  payloadLoop topic partitions.length 0 partitions ++
  ["  ]\n",
   "\x7d\n",
   "OFFSET_EOF\n\n",
   "if $KAFKA_CONSUMER_GROUPS --bootstrap-server \"$BOOTSTRAP_SERVERS\" $COMMAND_CONFIG \\\n",
   "  --group \"" ++ group ++ "\" \\\n",
   "  --topic \"" ++ topic ++ "\" \\\n",
   "  --reset-offsets \\\n",
   "  --from-json-file /tmp/offsets_" ++ group ++ "_" ++ topic ++ ".json \\\n",
   "  --execute; then\n",
   "  echo \"    ✓ Restored " ++ toString partitions.length ++ " partitions\"\n",
   "  ((RESTORED++))\n",
   "else\n",
   "  echo \"    ✗ Failed to restore offsets\"\n",
   "  ((FAILED++))\n",
   "fi\n",
   "rm -f /tmp/offsets_" ++ group ++ "_" ++ topic ++ ".json\n",
   "\n"]

/-- The loop `for groupIdx, group := range backup.ConsumerGroups`
(lines 131-174) from position `groupIdx`, `total` being the number of groups;
`rnd groupIdx` picks the order of the `range` over the topic map of the
group. -/
def restoreGroups (rnd : Nat → Nat) (total : Nat) :
    Nat → List ConsumerGroupOffsets → List String
  | _, [] => []
  | groupIdx, group :: rest =>
    ["# Consumer Group " ++ toString (groupIdx + 1) ++ "/" ++ toString total ++ ": " ++ group.Group ++ "\n",
     "echo \"[" ++ toString (groupIdx + 1) ++ "/" ++ toString total ++ "] Restoring offsets for consumer group: " ++ group.Group ++ "\"\n"] ++
    ((mapRange (rnd groupIdx) group.Topics).flatMap fun e =>
      restoreBlock group.Group e.1 e.2) ++
    ["\n"] ++ restoreGroups rnd total (groupIdx + 1) rest

/-- The texts written to the script file by `generateRestoreOffsetsScript`, in
order. -/
def restorePieces (backup : ConsumerOffsetsBackup) (filename : String) (rnd : Nat → Nat) :
    List String :=
  [restoreHeader backup filename] ++
    restoreGroups rnd backup.ConsumerGroups.length 0 backup.ConsumerGroups ++ [restoreSummary]

/-- Go `generateRestoreOffsetsScript`: the content of the script file (`none`
when `os.Create` fails with `createErr`) and the returned error (`chmodErr`
is the outcome of `os.Chmod`). -/
def generateRestoreOffsetsScript (backup : ConsumerOffsetsBackup) (filename : String)
    (createErr chmodErr : Option String) (rnd : Nat → Nat) : Option String × Option String :=
  match createErr with
  | some err => (none, some ("failed to create file: " ++ err))
  | none =>
    (some (concatAll (restorePieces backup filename rnd)),
      chmodErr.map fun err => "failed to make script executable: " ++ err)


/-! ## Topic recreation script (`src/main.go`, lines 980-1095) -/

/-- Go `strings.HasPrefix`. -/
def HasPrefix (s pre : String) : Bool := pre.data.isPrefixOf s.data

/-- Go `countInternalTopics`. -/
def countInternalTopics (topics : List TopicInfo) : Nat :=
  topics.foldl (fun count topic => if HasPrefix topic.Name "__" then count + 1 else count) 0

/-- The script header: the texts of the `WriteString` calls of lines 994-1027. -/
def recreateHeader (info : KafkaClusterInfo) (filename : String) : List String :=
  ["#!/bin/bash\n",
   "# Kafka Topic Recreation Script\n",
   "# Generated: " ++ info.Timestamp ++ "\n",
   "# Source Cluster: " ++ ", ".intercalate info.Brokers ++ "\n",
   "# Total Topics: " ++ toString info.TotalTopics ++ "\n",
   "#\n",
   "# Usage:\n",
   "#   1. Edit BOOTSTRAP_SERVERS to point to your target cluster\n",
   "#   2. Add authentication flags if needed (--command-config, etc.)\n",
   "#   3. Run: chmod +x " ++ filename ++ " && ./" ++ filename ++ "\n",
   "#\n\n",
   "set -e  # Exit on error\n\n",
   "# Target cluster configuration\n",
   "BOOTSTRAP_SERVERS=\"localhost:9092\"  # CHANGE THIS\n",
   "# Uncomment and configure if authentication is needed:\n",
   "# COMMAND_CONFIG=\"--command-config client.properties\"\n",
   "COMMAND_CONFIG=\"\"\n\n",
   "# Kafka topics command (adjust path if needed)\n",
   "KAFKA_TOPICS=\"kafka-topics.sh\"\n\n",
   "echo \"========================================\"\n",
   "echo \"Recreating topics from source cluster\"\n",
   "echo \"Note: Skipping " ++ toString (countInternalTopics info.Topics)
     ++ " internal topics (starting with __)\\n\"\n",
   "echo \"Target: $BOOTSTRAP_SERVERS\"\n",
   "echo \"========================================\"\n",
   "echo \"\"\n\n",
   "CREATED=0\n",
   "FAILED=0\n",
   "SKIPPED=0\n",
   "FAILED_TOPICS=()\n\n"]

/-- The summary: the texts of the `WriteString` calls of lines 1078-1092. -/
def recreateSummary (info : KafkaClusterInfo) : List String :=
  ["echo \"========================================\"\n",
   "echo \"Topic Recreation Summary:\"\n",
   "echo \"  Successfully created: $CREATED\"\n",
   "echo \"  Failed/Skipped: $FAILED\"\n",
   "echo \"  Internal topics skipped: " ++ toString (countInternalTopics info.Topics) ++ "\"\n",
   "if [ $FAILED -gt 0 ]; then\n",
   "  echo \"\"\n",
   "  echo \"Failed/Skipped Topics:\"\n",
   "  printf \x27%s\\n\x27 \"$\x7bFAILED_TOPICS[@]\x7d\"\n",
   "fi\n",
   "echo \"========================================\"\n\n",
   "# Note: To verify topics were created correctly:\n",
   "# $KAFKA_TOPICS --bootstrap-server \"$BOOTSTRAP_SERVERS\" $COMMAND_CONFIG --list\n",
   "# $KAFKA_TOPICS --bootstrap-server \"$BOOTSTRAP_SERVERS\" $COMMAND_CONFIG"
     ++ " --describe --topic <topic-name>\n"]

/-- The comparison of `sort.Strings`. -/
def stringLess (a b : String) : Bool := decide (a < b)

/-- The loop `for j, config := range configs` (lines 1056-1061) from position
`j`, for `n` configs: the text appended to `cmd`. -/
def configArgs (n : Nat) : Nat → List String → String
  | _, [] => ""
  | j, config :: rest =>
    "  --config \"" ++ config ++ "\"" ++ (if j < n - 1 then " \\\n" else "") ++
      configArgs n (j + 1) rest

/-- The part of `cmd` for the configurations of a topic (lines 1049-1062):
`seedRange` picks the order of the `range` over the config map, `seedSort`
the choices of `sort.Strings`. -/
def recreateConfigs (seedRange seedSort : Nat) (topic : TopicInfo) : String :=
  if topic.Configs.length > 0 then
    let configs := sortSlice seedSort stringLess
      ((mapRange seedRange topic.Configs).map fun e => e.1 ++ "=" ++ e.2)
    " \\\n" ++ configArgs configs.length 0 configs
  else ""

/-- The string `cmd` built for a topic (lines 1042-1071). -/
def recreateCmd (seedRange seedSort : Nat) (topic : TopicInfo) : String :=
  "if $KAFKA_TOPICS --bootstrap-server \"$BOOTSTRAP_SERVERS\" $COMMAND_CONFIG \\\n"
  ++ "  --create \\\n"
  ++ "  --topic \"" ++ topic.Name ++ "\" \\\n"
  ++ "  --partitions " ++ toString topic.Partitions ++ " \\\n"
  ++ "  --replication-factor " ++ toString topic.ReplicationFactor
  ++ recreateConfigs seedRange seedSort topic
  ++ "; then\n"
  ++ "  echo \"  ‚úì Created successfully\"\n"
  ++ "  ((CREATED++))\n"
  ++ "else\n"
  ++ "  echo \"  ‚úó Failed to create (may already exist)\"\n"
  ++ "  FAILED_TOPICS+=(\"  - " ++ topic.Name ++ "\")\n"
  ++ "  ((FAILED++))\n"
  ++ "fi\n"

/-- The texts written for one topic that is not internal (lines 1037-1074),
`topicIndex` being its number. -/
def recreateBlock (seedRange seedSort : Nat) (topicIndex : Nat) (topic : TopicInfo) :
    List String :=
  ["# Topic " ++ toString topicIndex ++ ": " ++ topic.Name ++ "\n",
   "echo \"[" ++ toString topicIndex ++ "] Creating topic: " ++ topic.Name ++ "\"\n",
   recreateCmd seedRange seedSort topic,
   "echo \"\"\n\n"]

/-- The loop `for _, topic := range info.Topics` (lines 1031-1075): `i` is the
position of the next topic, `topicIndex` the number of blocks written so far;
`rnd i 0` and `rnd i 1` pick the orders used for the configs of the topic at
position `i`. -/
def recreateTopics (rnd : Nat → Nat → Nat) : Nat → Nat → List TopicInfo → List String
  | _, _, [] => []
  | i, topicIndex, topic :: rest =>
    if HasPrefix topic.Name "__" then recreateTopics rnd (i + 1) topicIndex rest
    else
      recreateBlock (rnd i 0) (rnd i 1) (topicIndex + 1) topic ++
        recreateTopics rnd (i + 1) (topicIndex + 1) rest

/-- The texts appended to `script` by `generateRecreateScript`, in order. -/
def recreatePieces (info : KafkaClusterInfo) (filename : String) (rnd : Nat → Nat → Nat) :
    List String :=
  recreateHeader info filename ++ recreateTopics rnd 0 0 info.Topics ++ recreateSummary info

/-- Go `generateRecreateScript`: the text passed to `os.WriteFile` and the
error it returns (`writeErr`). -/
def generateRecreateScript (info : KafkaClusterInfo) (filename : String)
    (writeErr : Option String) (rnd : Nat → Nat → Nat) : String × Option String :=
  (concatAll (recreatePieces info filename rnd), writeErr)


/-- The path of the transient payload file of a group and topic. -/
def offsetsPath (group topic : String) : String :=
  "/tmp/offsets_" ++ group ++ "_" ++ topic ++ ".json"

/-- One entry of the payload: topic, partition and offset of one partition,
followed by `comma`. -/
def payloadEntry (topic : String) (po : PartitionOffset) (comma : String) : String :=
  "    \x7b\"topic\": \"" ++ topic ++ "\", \"partition\": " ++ toString po.Partition
    ++ ", \"offset\": " ++ toString po.Offset ++ "\x7d" ++ comma ++ "\n"

/-- The offset list of the scenario. -/
def scenarioOffsetList : List PartitionOffset :=
  [{ Partition := 0, Offset := 100, Timestamp := 0, Lag := 0 },
   { Partition := 1, Offset := 50, Timestamp := 0, Lag := 0 },
   { Partition := 2, Offset := 75, Timestamp := 0, Lag := 0 },
   { Partition := 3, Offset := 0, Timestamp := 0, Lag := 0 }]

/-- The reset command of a block and what follows it: the `if ... then ...
else ... fi` statement around `--reset-offsets`, then the removal of the
payload file and an empty line (`n` is the number of partitions). -/
def resetCommand (group topic : String) (n : Nat) : List String :=
  ["if $KAFKA_CONSUMER_GROUPS --bootstrap-server \"$BOOTSTRAP_SERVERS\" $COMMAND_CONFIG \\\n",
   "  --group \"" ++ group ++ "\" \\\n",
   "  --topic \"" ++ topic ++ "\" \\\n",
   "  --reset-offsets \\\n",
   "  --from-json-file " ++ offsetsPath group topic ++ " \\\n",
   "  --execute; then\n",
   "  echo \"    ✓ Restored " ++ toString n ++ " partitions\"\n",
   "  ((RESTORED++))\n",
   "else\n",
   "  echo \"    ✗ Failed to restore offsets\"\n",
   "  ((FAILED++))\n",
   "fi\n",
   "rm -f " ++ offsetsPath group topic ++ "\n",
   "\n"]

/-- The two lines that open the section of the group at position `groupIdx`
(counted from 0) of `total` groups in the restore script. -/
def groupHeading (total groupIdx : Nat) (group : String) : List String :=
  ["# Consumer Group " ++ toString (groupIdx + 1) ++ "/" ++ toString total ++ ": " ++ group ++ "\n",
   "echo \"[" ++ toString (groupIdx + 1) ++ "/" ++ toString total ++ "] Restoring offsets for consumer group: " ++ group ++ "\"\n"]

/-- The sections of the restore script, one per group from position
`groupIdx`: the heading of the group and its blocks, one block per topic in
the order the `range` over the topic map visits them. -/
def restoreSections (rnd : Nat → Nat) (total : Nat) :
    Nat → List ConsumerGroupOffsets → List (List String × List (List String))
  | _, [] => []
  | groupIdx, group :: rest =>
    (groupHeading total groupIdx group.Group,
      (mapRange (rnd groupIdx) group.Topics).map fun e => restoreBlock group.Group e.1 e.2) ::
    restoreSections rnd total (groupIdx + 1) rest

/-- A backup with one group of two topics. -/
def sampleBackup : ConsumerOffsetsBackup :=
  { Timestamp := "2024-01-01T00:00:00Z", Cluster := "b1:9092",
    ConsumerGroups :=
      [{ Group := "svc",
         Topics := [("events", scenarioOffsetList),
                    ("audit", [{ Partition := 0, Offset := 7, Timestamp := 0, Lag := 0 }])],
         Timestamp := "2024-01-01T00:00:00Z" }] }

/-- Whether the recreation script skips the topic: its name begins with the
marker of internal topics. -/
def isInternal (t : TopicInfo) : Bool := HasPrefix t.Name "__"

/-- The creation blocks of the recreation script for a list of topics given
with their positions in the snapshot, numbered from `topicIndex`. -/
def recreateBlocks (rnd : Nat → Nat → Nat) (topicIndex : Nat) (l : List (Nat × TopicInfo)) :
    List String :=
  (l.enumFrom topicIndex).flatMap fun q =>
    recreateBlock (rnd q.2.1 0) (rnd q.2.1 1) q.1 q.2.2

/-- A snapshot topic list with two internal topics. -/
def sampleTopicList : List TopicInfo :=
  [{ Name := "orders", Partitions := 3, ReplicationFactor := 2, TotalMessages := 0,
     Configs := [] },
   { Name := "__consumer_offsets", Partitions := 50, ReplicationFactor := 3,
     TotalMessages := 0, Configs := [] },
   { Name := "events", Partitions := 4, ReplicationFactor := 3, TotalMessages := 225,
     Configs := [("retention.ms", "1000"), ("cleanup.policy", "delete")] },
   { Name := "__transaction_state", Partitions := 50, ReplicationFactor := 3,
     TotalMessages := 0, Configs := [] }]

/-- The rest of the command of a creation block after its `--topic` line. -/
def recreateCmdTail (seedRange seedSort : Nat) (topic : TopicInfo) : String :=
  "  --partitions " ++ toString topic.Partitions ++ " \\\n"
  ++ "  --replication-factor " ++ toString topic.ReplicationFactor
  ++ recreateConfigs seedRange seedSort topic
  ++ "; then\n"
  ++ "  echo \"  ‚úì Created successfully\"\n"
  ++ "  ((CREATED++))\n"
  ++ "else\n"
  ++ "  echo \"  ‚úó Failed to create (may already exist)\"\n"
  ++ "  FAILED_TOPICS+=(\"  - " ++ topic.Name ++ "\")\n"
  ++ "  ((FAILED++))\n"
  ++ "fi\n"

/-- The response with every log dir whose `Error` is set removed. -/
def withoutErrored (kafkaResponse : KafkaLogDirsResponse) : KafkaLogDirsResponse :=
  { kafkaResponse with
    Brokers := kafkaResponse.Brokers.map fun broker =>
      { broker with LogDirs := broker.LogDirs.filter fun logDir => logDir.Error.isNone } }

/-- A response with the same partition of topic `t` written once with leading
zeros and once without. -/
def leadingZerosResponse : KafkaLogDirsResponse :=
  { Version := 1
    Brokers :=
      [{ Broker := 1
         LogDirs :=
           [{ LogDir := "/data1", Error := none
              Partitions :=
                [{ Partition := "t-007", Size := 10, OffsetLag := 0, IsFuture := false },
                 { Partition := "t-7", Size := 5, OffsetLag := 0, IsFuture := false }] }] }] }

/-- Answers to the native collector in which no broker yields a partition
entry: one broker is unreachable, one fails the request, one reports only a log
dir in error and one a topic without partitions. -/
def emptyClient : Except String (List BrokerQuery) :=
  .ok
    [{ ID := 1, Addr := "b1:9092", connected := false, openFails := true, response := none },
     { ID := 2, Addr := "b2:9092", connected := true, openFails := false, response := none },
     { ID := 3, Addr := "b3:9092", connected := true, openFails := false
       response := some [{ ErrorCode := 57, Path := "/data1", Topics := [] }] },
     { ID := 4, Addr := "b4:9092", connected := true, openFails := false
       response := some
         [{ ErrorCode := 0, Path := "/data1"
            Topics := [{ Topic := "events", Partitions := [] }] }] }]

/-- The topic map of the scenario with a second topic, `orders`, whose
description fails (`scenarioDescribe` answers for `events` only). -/
def scenarioTopicsWithFailure : List (String × TopicDetail) :=
  [("orders", { NumPartitions := 2, ReplicationFactor := 3 }),
   ("events", { NumPartitions := 4, ReplicationFactor := 3 })]

/-- Two log dirs that differ at most in the order of their partition
entries. -/
def LogDirPerm (a b : KafkaLogDir) : Prop :=
  a.LogDir = b.LogDir ∧ a.Error = b.Error ∧ a.Partitions.Perm b.Partitions

/-- Two brokers that differ at most in the order of their log dirs and of the
partition entries inside each log dir. -/
def BrokerPerm (a b : KafkaBrokerLogDirs) : Prop :=
  a.Broker = b.Broker ∧ ∃ l, a.LogDirs.Perm l ∧ List.Forall₂ LogDirPerm l b.LogDirs

/-- Two responses that differ at most in the order of the brokers, of the log
dirs inside a broker and of the partition entries inside a log dir. -/
def ResponsePerm (a b : KafkaLogDirsResponse) : Prop :=
  ∃ l, a.Brokers.Perm l ∧ List.Forall₂ BrokerPerm l b.Brokers

/-- The records of one log dir (the inner part of `convertRecords`). -/
def logDirRecords (logDir : KafkaLogDir) : List SizeRecord :=
  if logDir.Error.isSome then []
  else logDir.Partitions.flatMap fun partition =>
    match decodePartition partition.Partition with
    | none => []
    | some d => [{ topic := d.1, partition := d.2, size := partition.Size }]

/-- The sample response with the brokers, the log dirs of broker 1 and the
partition entries of its first log dir in another order. -/
def sampleResponsePermuted : KafkaLogDirsResponse :=
  { Version := 1
    Brokers :=
      [{ Broker := 3
         LogDirs :=
           [{ LogDir := "/data1", Error := none
              Partitions :=
                [{ Partition := "events-0", Size := 100, OffsetLag := 0, IsFuture := false },
                 { Partition := "events-1", Size := 50, OffsetLag := 0,
                   IsFuture := false }] }] },
       { Broker := 1
         LogDirs :=
           [{ LogDir := "/data2", Error := some "offline"
              Partitions :=
                [{ Partition := "events-7", Size := 999, OffsetLag := 0,
                   IsFuture := false }] },
            { LogDir := "/data1", Error := none
              Partitions :=
                [{ Partition := "orders-0", Size := 2048, OffsetLag := 0, IsFuture := false },
                 { Partition := "events-0", Size := 100, OffsetLag := 0, IsFuture := false },
                 { Partition := "events-1", Size := 50, OffsetLag := 0,
                   IsFuture := false }] }] },
       { Broker := 2
         LogDirs :=
           [{ LogDir := "/data1", Error := none
              Partitions :=
                [{ Partition := "events-0", Size := 100, OffsetLag := 0, IsFuture := false },
                 { Partition := "no-digits-here-", Size := 5, OffsetLag := 0,
                   IsFuture := false },
                 { Partition := "events-1", Size := 50, OffsetLag := 0,
                   IsFuture := false }] }] }] }

/-- A replica record as an entry of the `kafka-log-dirs` output: the identifier
`<topic>-<partition>` and the size. -/
def encodeRecord (r : SizeRecord) : KafkaPartitionInfo :=
  { Partition := r.topic ++ "-" ++ toString r.partition, Size := r.size, OffsetLag := 0,
    IsFuture := false }

/-- The records as a parsed `kafka-log-dirs` response: one broker with one
error-free log dir holding the encoded records. -/
def fallbackInput (recs : List SizeRecord) : KafkaLogDirsResponse :=
  { Version := 1
    Brokers :=
      [{ Broker := 1
         LogDirs := [{ LogDir := "/data", Error := none,
                       Partitions := recs.map encodeRecord }] }] }

/-- The records as answers to the native collector: one connected broker with
one error-free log dir, each record being a partition entry of its topic. -/
def nativeInput (recs : List SizeRecord) : List BrokerQuery :=
  [{ ID := 1, Addr := "b1:9092", connected := true, openFails := false
     response := some
       [{ ErrorCode := 0, Path := "/data"
          Topics := recs.map fun r =>
            { Topic := r.topic
              Partitions :=
                [{ PartitionID := r.partition, Size := r.size, OffsetLag := 0,
                   IsTemporary := false }] } }] }]

/-- Replica records of two topics, one with a hyphen and digits in its name:
two replicas each of partitions 0 and 1 of `events-2024` and one of `orders`. -/
def sampleRecords : List SizeRecord :=
  [{ topic := "events-2024", partition := 0, size := 100 },
   { topic := "orders", partition := 0, size := 2048 },
   { topic := "events-2024", partition := 1, size := 50 },
   { topic := "events-2024", partition := 0, size := 100 },
   { topic := "events-2024", partition := 1, size := 50 }]

/-! ## Fallback collector: `getTopicSizesFromKafkaCLI` (`src/topic_sizes_kafka_cli.go`, lines 20-119) -/

/-- Go `min` of line 21. -/
def minInt (a b : Nat) : Nat := if a < b then a else b

/-- Go `strings.Split(s, "\n")` on the characters of `s`: the pieces between
the newlines, one more than there are newlines. -/
def splitNewline : List Char → List (List Char)
  | [] => [[]]
  | c :: cs =>
    if c = '\n' then [] :: splitNewline cs
    else
      match splitNewline cs with
      | [] => [[c]]
      | l :: ls => (c :: l) :: ls

/-- Go `strings.Split(s, "\n")`. -/
def Split (s : String) : List String := (splitNewline s.data).map String.mk

/-- Go `unicode.IsSpace`. -/
def isSpace (c : Char) : Bool :=
  c = '\t' || c = '\n' || c.toNat = 0x0B || c.toNat = 0x0C || c = '\r' || c = ' ' ||
    c.toNat = 0x85 || c.toNat = 0xA0 || c.toNat = 0x1680 ||
    (0x2000 ≤ c.toNat && c.toNat ≤ 0x200A) || c.toNat = 0x2028 || c.toNat = 0x2029 ||
    c.toNat = 0x202F || c.toNat = 0x205F || c.toNat = 0x3000

/-- Go `strings.TrimSpace`. -/
def TrimSpace (s : String) : String :=
  String.mk ((s.data.dropWhile isSpace).reverse.dropWhile isSpace).reverse

/-- The loop of lines 99-105: the first line whose trimmed text begins with an
opening brace, the empty string when there is none. -/
def findJSONLine : List String → String
  | [] => ""
  | line :: rest =>
    if HasPrefix (TrimSpace line) "\x7b" then line else findJSONLine rest

/-- The characters of `s` that lie within its first `n` bytes (UTF-8), as in
the slice `s[:n]`.  (Go also keeps the first bytes of a character that the cut
splits; that character is left out here.) -/
def takeBytes : Nat → List Char → List Char
  | _, [] => []
  | n, c :: cs => if c.utf8Size ≤ n then c :: takeBytes (n - c.utf8Size) cs else []

/-- The argument list of the external command (lines 63-83). -/
def logDirsArgs (brokers topicList : List String) (configFile : String) : List String :=
  ["--bootstrap-server", ",".intercalate brokers, "--describe"] ++
    (if topicList.length > 0 then ["--topic-list", ",".intercalate topicList] else []) ++
    (if configFile ≠ "" then ["--command-config", configFile] else [])

/-- Go `getTopicSizesFromKafkaCLI`.  The environment is given by the outcome of
`findKafkaLogDirs` (`found`: the path or an error), the outcome of
`createKafkaConfigFile` (`configFile`: the file name, empty without
authentication, or an error), the external command (`run path args`: its
standard output, or the error of `cmd.Run` with the standard error text) and
`json.Unmarshal` into a `KafkaLogDirsResponse` (`unmarshal`); `now` and `rnd`
are those of `convertKafkaLogDirsToReport`. -/
def getTopicSizesFromKafkaCLI (brokers topicList : List String)
    (found : Except String String) (configFile : Except String String)
    (run : String → List String → Except (String × String) String)
    (unmarshal : String → Except String KafkaLogDirsResponse) (now : String)
    (rnd : Nat → Nat) : Except String TopicSizesReport :=
  match found with
  | .error err =>
    .error ("kafka-log-dirs.sh not found: " ++ err ++
      "\nPlease ensure Kafka bin directory is in your PATH")
  | .ok kafkaLogDirsPath =>
    match configFile with
    | .error err => .error ("failed to create config file: " ++ err)
    | .ok file =>
      match run kafkaLogDirsPath (logDirsArgs brokers topicList file) with
      | .error (err, stderr) =>
        .error ("kafka-log-dirs.sh failed: " ++ err ++ "\nStderr: " ++ stderr)
      | .ok output =>
        let jsonLine := findJSONLine (Split output)
        if jsonLine = "" then
          .error ("no JSON found in kafka-log-dirs.sh output: " ++ output)
        else
          match unmarshal jsonLine with
          | .error err =>
            .error ("failed to parse kafka-log-dirs.sh output: " ++ err ++ "\nJSON: " ++
              String.mk (takeBytes (minInt jsonLine.utf8ByteSize 500) jsonLine.data))
          | .ok kafkaResponse =>
            .ok (convertKafkaLogDirsToReport kafkaResponse brokers now rnd)

/-- Go `getTopicSizesViaCLI`. -/
def getTopicSizesViaCLI (brokers topicList : List String)
    (found : Except String String) (configFile : Except String String)
    (run : String → List String → Except (String × String) String)
    (unmarshal : String → Except String KafkaLogDirsResponse) (now : String)
    (rnd : Nat → Nat) : Except String TopicSizesReport :=
  getTopicSizesFromKafkaCLI brokers topicList found configFile run unmarshal now rnd

/-- An output of the external command: two status lines, then the JSON line
of a response without brokers. -/
def emptyOutput : String :=
  "Querying brokers for log directories information\n" ++
    "Received log directory information from brokers 1\n" ++
    "\x7b\"version\":1,\"brokers\":[]\x7d\n"

/-! ## Topic list of the snapshot (`src/main.go`, lines 314-349 and 891-905) -/

/-- The sarama type `ConfigEntry` (fields read by the tool). -/
structure ConfigEntry where
  Name : String
  Value : String
  Default : Bool
  deriving DecidableEq, Repr

/-- The `Configs` map built in lines 327-334 from the answer of
`admin.DescribeConfig` (`none` when the call returns an error): the map stays
nil when the call fails or returns no entry. -/
def topicConfigs (configs : Option (List ConfigEntry)) : List (String × String) :=
  match configs with
  | none => []
  | some entries =>
    if entries.length > 0 then
      entries.foldl
        (fun m entry =>
          if (!entry.Default && decide (entry.Value ≠ "")) = true then
            mapSet m entry.Name entry.Value
          else m)
        []
    else []

/-- Go `getTopicMessageCount`: the `int64` sum of the newest offsets of the
partitions `0 .. partitions - 1`; `getOffset` is `client.GetOffset` with
`sarama.OffsetNewest` (`none` when it returns an error). -/
def getTopicMessageCount (getOffset : String → Int → Option Int) (topic : String)
    (partitions : Int) : Int :=
  (List.range partitions.toNat).foldl
    (fun total partition =>
      match getOffset topic (partition : Int) with
      | none => total
      | some offset => add64 total offset)
    0

/-- Body of the loop `for name, detail := range topics` (lines 315-340). -/
def topicInfoOf (describeConfig : String → Option (List ConfigEntry))
    (getOffset : String → Int → Option Int) (e : String × TopicDetail) : TopicInfo :=
  { Name := e.1
    Partitions := e.2.NumPartitions
    ReplicationFactor := e.2.ReplicationFactor
    TotalMessages := getTopicMessageCount getOffset e.1 e.2.NumPartitions
    Configs := topicConfigs (describeConfig e.1) }

/-- The comparison of the `sort.Slice` of line 342. -/
def nameLess (a b : TopicInfo) : Bool := decide (a.Name < b.Name)

/-- The topic list `topicInfos` of `main` (lines 314-344): `rnd 0` picks the
order of the `range` over `topics`, `rnd 1` the choices of `sort.Slice`. -/
def collectTopicInfos (topics : List (String × TopicDetail))
    (describeConfig : String → Option (List ConfigEntry))
    (getOffset : String → Int → Option Int) (rnd : Nat → Nat) : List TopicInfo :=
  sortSlice (rnd 1) nameLess ((mapRange (rnd 0) topics).map (topicInfoOf describeConfig getOffset))

/-- The snapshot of `main` after the metrics block (lines 278-412), the topic
list being the one built from `topics`; `rndTopics` picks the orders of lines
314-344, `rnd` the one of the metrics block. -/
def clusterSnapshot (now : String) (brokerList : List String)
    (metadata : Option (List (Int × String))) (topics : List (String × TopicDetail))
    (describeConfig : String → Option (List ConfigEntry))
    (getOffset : String → Int → Option Int)
    (describeTopics : String → Option (List TopicMetadata)) (apiVersions : String → Bool)
    (rndTopics rnd : Nat → Nat) : KafkaClusterInfo :=
  topologySnapshot now brokerList metadata
    (collectTopicInfos topics describeConfig getOffset rndTopics) topics describeTopics
    apiVersions rnd

/-- Whether an entry is kept in `Configs`: it is not a broker default and its
value is not empty. -/
def retained (entry : ConfigEntry) : Bool := !entry.Default && decide (entry.Value ≠ "")

/-- The configuration entries of the sample topic: an entry that is not a
default but has an empty value, an overridden entry and a default. -/
def sampleEntries : List ConfigEntry :=
  [{ Name := "follower.replication.throttled.replicas", Value := "", Default := false },
   { Name := "cleanup.policy", Value := "compact", Default := false },
   { Name := "segment.bytes", Value := "1073741824", Default := true }]

/-- The answers of `DescribeConfig` in the sample: `sampleEntries` for the
topic `events`, an error for any other topic. -/
def sampleConfigs (name : String) : Option (List ConfigEntry) :=
  if name = "events" then some sampleEntries else none

/-- The snapshot of the scenario with the configuration answers of the
sample. -/
def sampleSnapshot : KafkaClusterInfo :=
  clusterSnapshot "2024-01-01T00:00:00Z" ["b1:9092"] scenarioMetadata scenarioTopics
    sampleConfigs (fun _ _ => some 25) scenarioDescribe (fun _ => false) (fun _ => 0)
    (fun _ => 0)

/-- One replica record with the partition number -1 (the native answer carries
an `int32`). -/
def negativeRecords : List SizeRecord := [{ topic := "t", partition := -1, size := 5 }]

/-- The backup of the scenario: group `svc` with the offsets of topic
`events`. -/
def scenarioBackup : ConsumerOffsetsBackup :=
  { Timestamp := "2024-01-01T00:00:00Z", Cluster := "b1:9092",
    ConsumerGroups :=
      [{ Group := "svc", Topics := [("events", scenarioOffsetList)],
         Timestamp := "2024-01-01T00:00:00Z" }] }

/-! ### Lemmas about the codec -/

/-- The decoding on a few identifiers: leading zeros are accepted, an empty
topic, a newline in the topic and a number beyond `int` are not. -/
theorem decodePartition_samples :
    decodePartition "t-007" = some ("t", 7) ∧ decodePartition "-5" = none ∧
      decodePartition "a\nb-5" = none ∧
      decodePartition "t-9223372036854775808" = none ∧
      decodePartition "t-9223372036854775807" = some ("t", 9223372036854775807) := by
  decide

/-- The byte formatting on a few sizes. -/
theorem formatBytes_samples :
    formatBytes 0 = "0 B" ∧ formatBytes 1536 = "1.50 KiB" ∧
      formatBytes 1048576 = "1.00 MiB" ∧ formatBytes (-5) = "-5 B" := by
  decide

theorem isDigit_ne_hyphen {c : Char} (h : isDigit c = true) : c ≠ '-' := by
  rintro rfl
  revert h
  decide

theorem isDigit_isDot {c : Char} (h : isDigit c = true) : isDot c = true := by
  unfold isDot
  simp only [decide_eq_true_eq]
  rintro rfl
  revert h
  decide

theorem matchTail_hyphen (d : List Char) (hd : d ≠ []) (hall : d.all isDigit = true) :
    matchTail ('-' :: d) = some d := by
  simp [matchTail, hd, hall]

theorem matchTail_eq_some {l d : List Char} (h : matchTail l = some d) :
    l = '-' :: d ∧ d ≠ [] ∧ d.all isDigit = true := by
  unfold matchTail at h
  split at h
  · split at h
    · rename_i hc
      simp only [Option.some.injEq] at h
      subst h
      exact ⟨rfl, hc.1, hc.2⟩
    · simp at h
  · simp at h

theorem matchTail_digits {l : List Char} (hall : l.all isDigit = true) :
    matchTail l = none := by
  cases h : matchTail l with
  | none => rfl
  | some d =>
    obtain ⟨rfl, -, -⟩ := matchTail_eq_some h
    simp only [List.all_cons, Bool.and_eq_true] at hall
    exact absurd rfl (isDigit_ne_hyphen hall.1)

/-- Soundness of the matcher: a match splits the text at a hyphen followed by
digits only. -/
theorem backtrack_sound (s : List Char) :
    ∀ (k : Nat) (g1 g2 : List Char), backtrack s k = some (g1, g2) →
      s = g1 ++ '-' :: g2 ∧ g2 ≠ [] ∧ g2.all isDigit = true ∧
        g1 = s.take g1.length ∧ 1 ≤ g1.length ∧ g1.length ≤ k := by
  intro k
  induction k with
  | zero => intro g1 g2 h; simp [backtrack] at h
  | succ k ih =>
    intro g1 g2 h
    unfold backtrack at h
    split at h
    · rename_i d hd
      simp only [Option.some.injEq, Prod.mk.injEq] at h
      obtain ⟨h1, h2⟩ := h
      subst h2
      obtain ⟨hdrop, hne, hall⟩ := matchTail_eq_some hd
      have hlen : k + 1 < s.length := by
        by_contra hc
        rw [List.drop_of_length_le (by omega)] at hdrop
        simp at hdrop
      have hg1 : g1.length = k + 1 := by
        rw [← h1, List.length_take]; omega
      refine ⟨?_, hne, hall, ?_, by omega, by omega⟩
      · rw [← hdrop, ← h1]; exact (List.take_append_drop _ _).symm
      · rw [hg1]; exact h1.symm
    · obtain ⟨a, b, c, d, e, f⟩ := ih g1 g2 h
      exact ⟨a, b, c, d, e, by omega⟩

/-- Completeness of the matcher: a text that ends in a hyphen and a run of
digits is split at that hyphen, whatever the number of candidates tried. -/
theorem backtrack_complete (a d : List Char) (ha : a ≠ []) (hd : d ≠ [])
    (hall : d.all isDigit = true) :
    ∀ k : Nat, a.length ≤ k → backtrack (a ++ '-' :: d) k = some (a, d) := by
  intro k
  induction k with
  | zero =>
    intro h
    exact absurd (List.length_eq_zero.mp (by omega)) ha
  | succ k ih =>
    intro h
    unfold backtrack
    by_cases hk : a.length = k + 1
    · have h1 : (a ++ '-' :: d).drop (k + 1) = '-' :: d := by
        rw [← hk]; simp
      have h2 : (a ++ '-' :: d).take (k + 1) = a := by
        rw [← hk]; simp
      rw [h1, matchTail_hyphen d hd hall, h2]
    · have hle : a.length ≤ k := by omega
      have h1 : (a ++ '-' :: d).drop (k + 1) = d.drop (k - a.length) := by
        rw [List.drop_append_eq_append_drop]
        have e1 : a.drop (k + 1) = [] := List.drop_of_length_le (by omega)
        have e2 : k + 1 - a.length = (k - a.length) + 1 := by omega
        rw [e1, e2]; simp
      have h3 : (d.drop (k - a.length)).all isDigit = true := by
        rw [List.all_eq_true] at hall ⊢
        intro x hx
        exact hall x (List.mem_of_mem_drop hx)
      rw [h1, matchTail_digits h3]
      exact ih hle

theorem takeWhile_length_ge {α : Type} (p : α → Bool) (a b : List α)
    (ha : a.all p = true) : a.length ≤ ((a ++ b).takeWhile p).length := by
  induction a with
  | nil => simp
  | cons x a ih =>
    simp only [List.all_cons, Bool.and_eq_true] at ha
    simp [List.takeWhile_cons, ha.1, ih ha.2]

theorem takeWhile_take_all {α : Type} (p : α → Bool) (s : List α) :
    ∀ k : Nat, k ≤ (s.takeWhile p).length → (s.take k).all p = true := by
  induction s with
  | nil => intro k _; simp
  | cons x s ih =>
    intro k hk
    cases k with
    | zero => simp
    | succ k =>
      by_cases hx : p x = true
      · simp only [List.takeWhile_cons, hx, if_true, List.length_cons] at hk
        simp only [List.take_succ_cons, List.all_cons, hx, Bool.true_and]
        exact ih k (by omega)
      · simp [List.takeWhile_cons, hx] at hk

theorem digitChar_isDigit (d : Nat) (h : d < 10) : isDigit (Nat.digitChar d) = true := by
  interval_cases d <;> decide

theorem digitChar_value (d : Nat) (h : d < 10) : (Nat.digitChar d).toNat - 48 = d := by
  interval_cases d <;> decide

theorem toDigitsCore_all (fuel : Nat) :
    ∀ (n : Nat) (acc : List Char), acc.all isDigit = true →
      (Nat.toDigitsCore 10 fuel n acc).all isDigit = true := by
  induction fuel with
  | zero => intro n acc h; simpa [Nat.toDigitsCore] using h
  | succ fuel ih =>
    intro n acc h
    have hd : isDigit (Nat.digitChar (n % 10)) = true :=
      digitChar_isDigit _ (Nat.mod_lt _ (by decide))
    simp only [Nat.toDigitsCore]
    split
    · simp only [List.all_cons, hd, Bool.true_and]; exact h
    · apply ih
      simp only [List.all_cons, hd, Bool.true_and]; exact h

theorem toDigitsCore_ne_nil (fuel n : Nat) (acc : List Char) :
    Nat.toDigitsCore 10 (fuel + 1) n acc ≠ [] := by
  induction fuel generalizing n acc with
  | zero =>
    simp only [Nat.toDigitsCore]
    split <;> simp
  | succ fuel ih =>
    rw [Nat.toDigitsCore]
    split
    · simp
    · exact ih _ _

theorem toDigitsCore_value (fuel : Nat) :
    ∀ (n : Nat) (acc : List Char), n < fuel →
      (Nat.toDigitsCore 10 fuel n acc).foldl (fun a c => a * 10 + (c.toNat - 48)) 0 =
        acc.foldl (fun a c => a * 10 + (c.toNat - 48)) n := by
  induction fuel with
  | zero => intro n acc h; omega
  | succ fuel ih =>
    intro n acc h
    have hv := digitChar_value (n % 10) (Nat.mod_lt _ (by decide))
    simp only [Nat.toDigitsCore]
    split
    · rename_i h0
      simp only [List.foldl_cons, hv]
      congr 1
      omega
    · rename_i h0
      rw [ih (n / 10) _ (by omega)]
      simp only [List.foldl_cons, hv]
      congr 1
      omega

/-- The decimal numeral of `n` (`toString n`) is a non-empty run of digits
whose value is `n`. -/
theorem repr_digits (n : Nat) :
    (toString n).data ≠ [] ∧ (toString n).data.all isDigit = true ∧
      digitsValue (toString n).data = n := by
  have e : (toString n).data = Nat.toDigitsCore 10 (n + 1) n [] := rfl
  rw [e]
  refine ⟨toDigitsCore_ne_nil _ _ _, toDigitsCore_all _ _ _ (by simp), ?_⟩
  unfold digitsValue
  rw [toDigitsCore_value (n + 1) n [] (by omega)]
  simp

theorem parseDigits_repr (n : Nat) : parseDigits (toString n).data = some n := by
  obtain ⟨h1, h2, h3⟩ := repr_digits n
  simp [parseDigits, h1, h2, h3]

/-- On a non-empty run of digits `Atoi` returns the value when it fits in
`int` and fails otherwise. -/
theorem Atoi_digits (d : List Char) (hd : d ≠ []) (hall : d.all isDigit = true) :
    Atoi (String.mk d) =
      if digitsValue d ≤ maxInt then some (digitsValue d : Int) else none := by
  have hp : parseDigits d = some (digitsValue d) := by simp [parseDigits, hd, hall]
  cases d with
  | nil => exact absurd rfl hd
  | cons c d =>
    have hc : isDigit c = true := by
      simp only [List.all_cons, Bool.and_eq_true] at hall; exact hall.1
    have h1 : c ≠ '-' := isDigit_ne_hyphen hc
    have h2 : c ≠ '+' := by
      rintro rfl; revert hc; decide
    unfold Atoi
    split
    · rename_i ds heq; simp at heq; exact absurd heq.1 h1
    · rename_i ds heq; simp at heq; exact absurd heq.1 h2
    · simp only [hp]

/-- Decoding succeeds on `a ++ "-" ++ d` when `a` is non-empty without newline
and `d` is a non-empty run of digits whose value fits in `int`. -/
theorem decodePartition_complete (a d : List Char) (ha : a ≠ [])
    (hdot : a.all isDot = true) (hd : d ≠ []) (hall : d.all isDigit = true)
    (hfit : digitsValue d ≤ maxInt) :
    decodePartition (String.mk (a ++ '-' :: d)) =
      some (String.mk a, (digitsValue d : Int)) := by
  have hb := backtrack_complete a d ha hd hall
    (((a ++ '-' :: d).takeWhile isDot).length) (takeWhile_length_ge _ _ _ hdot)
  simp only [decodePartition, FindStringSubmatch, hb, Atoi_digits d hd hall, hfit, if_true]

/-- Whenever decoding succeeds the identifier is `a ++ "-" ++ d` with `a`
non-empty and newline-free and `d` a non-empty run of digits fitting `int`. -/
theorem decodePartition_sound (s t : String) (n : Int) (h : decodePartition s = some (t, n)) :
    ∃ d : List Char, s.data = t.data ++ '-' :: d ∧ t.data ≠ [] ∧
      t.data.all isDot = true ∧ d ≠ [] ∧ d.all isDigit = true ∧
      digitsValue d ≤ maxInt ∧ n = (digitsValue d : Int) := by
  unfold decodePartition FindStringSubmatch at h
  cases hb : backtrack s.data (s.data.takeWhile isDot).length with
  | none => simp [hb] at h
  | some g =>
    obtain ⟨g1, g2⟩ := g
    obtain ⟨e, hne, hall, htake, h1, hk⟩ := backtrack_sound _ _ _ _ hb
    simp only [hb, Atoi_digits g2 hne hall] at h
    by_cases hfit : digitsValue g2 ≤ maxInt
    · simp only [hfit, if_true, Option.some.injEq, Prod.mk.injEq] at h
      obtain ⟨rfl, rfl⟩ := h
      refine ⟨g2, e, ?_, ?_, hne, hall, hfit, rfl⟩
      · intro h0
        simp only at h0
        rw [h0] at h1
        simp at h1
      · show g1.all isDot = true
        rw [htake]
        exact takeWhile_take_all _ _ _ hk
    · simp [hfit] at h

/-! ### Lemmas about machine integers, iteration order and sorting -/

theorem wrapInt64_add_wrap (a b : Int) : wrapInt64 (wrapInt64 a + b) = wrapInt64 (a + b) := by
  unfold wrapInt64
  omega

theorem wrapInt64_of_range (a : Int) (h1 : -(2 ^ 63) ≤ a) (h2 : a < 2 ^ 63) :
    wrapInt64 a = a := by
  unfold wrapInt64
  omega

theorem wrapInt64_range (a : Int) : -(2 ^ 63) ≤ wrapInt64 a ∧ wrapInt64 a < 2 ^ 63 := by
  unfold wrapInt64
  omega

theorem foldl_add64 (l : List Int) :
    ∀ a : Int, l.foldl add64 (wrapInt64 a) = wrapInt64 (a + l.sum) := by
  induction l with
  | nil => intro a; simp
  | cons x l ih =>
    intro a
    have e : add64 (wrapInt64 a) x = wrapInt64 (a + x) := wrapInt64_add_wrap a x
    rw [List.foldl_cons, List.sum_cons, e, ih, add_assoc]

/-- The `int64` sum is the exact sum wrapped once. -/
theorem sumInt64_eq (l : List Int) : sumInt64 l = wrapInt64 l.sum := by
  have h := foldl_add64 l 0
  have h0 : wrapInt64 0 = 0 := by decide
  rw [h0, zero_add] at h
  exact h

theorem sumInt64_perm {l1 l2 : List Int} (h : l1.Perm l2) : sumInt64 l1 = sumInt64 l2 := by
  rw [sumInt64_eq, sumInt64_eq, h.sum_eq]

theorem mapRange_perm {α : Type} (l : List α) : ∀ seed : Nat, (mapRange seed l).Perm l := by
  induction l with
  | nil => intro seed; simp [mapRange]
  | cons x xs ih =>
    intro seed
    have hp := ih (seed / (xs.length + 1))
    have hlen : seed % (xs.length + 1) ≤ (mapRange (seed / (xs.length + 1)) xs).length := by
      rw [hp.length_eq]
      exact Nat.le_of_lt_succ (Nat.mod_lt _ (Nat.succ_pos _))
    exact (List.perm_insertIdx x _ hlen).trans (hp.cons x)

/-- Every iteration order of a map is chosen by some seed. -/
theorem mapRange_surjective {α : Type} (l : List α) :
    ∀ l2 : List α, l2.Perm l → ∃ seed : Nat, mapRange seed l = l2 := by
  induction l with
  | nil =>
    intro l2 h
    exact ⟨0, by rw [List.Perm.eq_nil h]; rfl⟩
  | cons x xs ih =>
    intro l2 h
    have hx : x ∈ l2 := h.symm.subset (List.mem_cons_self x xs)
    obtain ⟨a, b, rfl⟩ := List.append_of_mem hx
    have hab : (a ++ b).Perm xs := by
      have h2 : (x :: (a ++ b)).Perm (x :: xs) := List.perm_middle.symm.trans h
      exact h2.cons_inv
    obtain ⟨s, hs⟩ := ih (a ++ b) hab
    have hlen : a.length < xs.length + 1 := by
      have := hab.length_eq
      simp only [List.length_append] at this
      omega
    refine ⟨a.length + (xs.length + 1) * s, ?_⟩
    have e1 : (a.length + (xs.length + 1) * s) / (xs.length + 1) = s := by
      rw [Nat.add_mul_div_left _ _ (Nat.succ_pos _), Nat.div_eq_of_lt hlen, zero_add]
    have e2 : (a.length + (xs.length + 1) * s) % (xs.length + 1) = a.length := by
      rw [Nat.add_mul_mod_self_left, Nat.mod_eq_of_lt hlen]
    simp only [mapRange, e1, e2, hs]
    clear hs hab hx h ih hlen e1 e2
    induction a with
    | nil => rfl
    | cons y a iha => simp [List.insertIdx_succ_cons, iha]

theorem sortSlice_perm {α : Type} (seed : Nat) (less : α → α → Bool) (l : List α) :
    (sortSlice seed less l).Perm l :=
  (List.perm_insertionSort _ _).trans (mapRange_perm l seed)

/-- The result of `sortSlice` with the comparison of the collectors is sorted
by descending `TotalSize`. -/
theorem sortSlice_sizeLess_sorted (seed : Nat) (l : List TopicSize) :
    (sortSlice seed sizeLess l).Pairwise (fun a b => a.TotalSize ≥ b.TotalSize) := by
  have hr : (fun a b : TopicSize => sizeLess b a = false) =
      (fun a b : TopicSize => a.TotalSize ≥ b.TotalSize) := by
    funext a b
    simp [sizeLess]
  haveI : IsTotal TopicSize (fun a b : TopicSize => sizeLess b a = false) := by
    rw [hr]; exact ⟨fun a b => le_total b.TotalSize a.TotalSize⟩
  haveI : IsTrans TopicSize (fun a b : TopicSize => sizeLess b a = false) := by
    rw [hr]; exact ⟨fun a b c h1 h2 => le_trans h2 h1⟩
  have h := List.sorted_insertionSort (fun a b : TopicSize => sizeLess b a = false)
    (mapRange seed l)
  unfold List.Sorted at h
  unfold sortSlice
  refine h.imp ?_
  intro a b hab
  simpa [sizeLess] using hab

/-- Every sorted permutation is a possible result of `sortSlice`. -/
theorem sortSlice_surjective (l l2 : List TopicSize) (hp : l2.Perm l)
    (hs : l2.Pairwise (fun a b => a.TotalSize ≥ b.TotalSize)) :
    ∃ seed : Nat, sortSlice seed sizeLess l = l2 := by
  obtain ⟨seed, h⟩ := mapRange_surjective l l2 hp
  refine ⟨seed, ?_⟩
  unfold sortSlice
  rw [h]
  apply List.Sorted.insertionSort_eq
  unfold List.Sorted
  refine hs.imp ?_
  intro a b hab
  simpa [sizeLess] using hab

/-! ### The loop of `formatBytes` -/

/-- The loop of `formatBytes` keeps `div = 1024 ^ (exp + 1)` without overflow
and ends with `div ≤ bytes < 1024 * div`. -/
theorem formatBytesLoop_spec (bytes : Int) (hb : bytes < 2 ^ 63) :
    ∀ (fuel : Nat) (n div : Int) (exp : Nat), 1 ≤ n → n.toNat ≤ fuel → 0 < div →
      div * n ≤ bytes → bytes < div * (n + 1) → div = 1024 ^ (exp + 1) →
      (formatBytesLoop fuel n div exp).1 = 1024 ^ ((formatBytesLoop fuel n div exp).2 + 1) ∧
        (formatBytesLoop fuel n div exp).1 ≤ bytes ∧
        bytes < 1024 * (formatBytesLoop fuel n div exp).1 := by
  intro fuel
  induction fuel with
  | zero =>
    intro n div exp h1 h2 _ _ _ _
    omega
  | succ fuel ih =>
    intro n div exp h1 h2 hdiv hle hlt hpow
    unfold formatBytesLoop
    by_cases hn : n ≥ 1024
    · simp only [hn, if_true]
      have hdn : div * 1024 ≤ div * n := Int.mul_le_mul_of_nonneg_left hn (le_of_lt hdiv)
      have hw : wrapInt64 (div * 1024) = div * 1024 := by
        apply wrapInt64_of_range
        · have : (0 : Int) ≤ div * 1024 := by positivity
          omega
        · omega
      rw [hw]
      have hq1 : 1 ≤ n / 1024 := by omega
      have hq2 : (n / 1024).toNat ≤ fuel := by omega
      have hq3 : 1024 * (n / 1024) ≤ n := by omega
      have hq4 : n + 1 ≤ 1024 * (n / 1024 + 1) := by omega
      apply ih (n / 1024) (div * 1024) (exp + 1) hq1 hq2 (by positivity)
      · calc div * 1024 * (n / 1024) = div * (1024 * (n / 1024)) := by ring
          _ ≤ div * n := Int.mul_le_mul_of_nonneg_left hq3 (le_of_lt hdiv)
          _ ≤ bytes := hle
      · calc bytes < div * (n + 1) := hlt
          _ ≤ div * (1024 * (n / 1024 + 1)) :=
            Int.mul_le_mul_of_nonneg_left hq4 (le_of_lt hdiv)
          _ = div * 1024 * (n / 1024 + 1) := by ring
      · rw [hpow]; ring
    · simp only [hn, if_false]
      have hlt2 : n + 1 ≤ 1024 := by omega
      refine ⟨hpow, ?_, ?_⟩
      · calc div = div * 1 := by ring
          _ ≤ div * n := Int.mul_le_mul_of_nonneg_left h1 (le_of_lt hdiv)
          _ ≤ bytes := hle
      · calc bytes < div * (n + 1) := hlt
          _ ≤ div * 1024 := Int.mul_le_mul_of_nonneg_left hlt2 (le_of_lt hdiv)
          _ = 1024 * div := by ring

/-- For every `int64` value of at least 1024 the exponent computed by
`formatBytes` is at most 5, so the lookup in the six-entry unit table is in
range. -/
theorem formatBytesLoop_exp_le (bytes : Int) (h1 : 1024 ≤ bytes) (h2 : bytes < 2 ^ 63) :
    (formatBytesLoop (bytes / 1024).toNat (bytes / 1024) 1024 0).2 ≤ 5 := by
  obtain ⟨hp, hle, -⟩ := formatBytesLoop_spec bytes h2 (bytes / 1024).toNat (bytes / 1024)
    1024 0 (by omega) (le_refl _) (by norm_num) (by omega) (by omega) (by norm_num)
  by_contra hc
  have h6 : 6 ≤ (formatBytesLoop (bytes / 1024).toNat (bytes / 1024) 1024 0).2 := by omega
  have hpow : (1024 : Int) ^ 7 ≤
      1024 ^ ((formatBytesLoop (bytes / 1024).toNat (bytes / 1024) 1024 0).2 + 1) :=
    pow_le_pow_right₀ (by norm_num) (by omega)
  rw [← hp] at hpow
  have : (1024 : Int) ^ 7 ≤ bytes := le_trans hpow hle
  norm_num at this h2
  omega

/-! ### Lemmas about maps -/

section MapLemmas

variable {K V : Type} [DecidableEq K]

theorem mapGet_eq_none_iff (m : List (K × V)) (k : K) :
    mapGet m k = none ↔ k ∉ m.map Prod.fst := by
  induction m with
  | nil => simp [mapGet]
  | cons e m ih =>
    obtain ⟨k1, v1⟩ := e
    by_cases h : k1 = k
    · simp [mapGet, h]
    · have h2 : ¬ k = k1 := fun e => h e.symm
      simp [mapGet, h, h2, ih]

theorem mapGet_isSome_iff (m : List (K × V)) (k : K) :
    (mapGet m k).isSome = true ↔ k ∈ m.map Prod.fst := by
  rw [← not_iff_not, ← mapGet_eq_none_iff]
  cases mapGet m k <;> simp

theorem mem_of_mapGet {m : List (K × V)} {k : K} {v : V} (h : mapGet m k = some v) :
    (k, v) ∈ m := by
  induction m with
  | nil => simp [mapGet] at h
  | cons e m ih =>
    obtain ⟨k1, v1⟩ := e
    by_cases hk : k1 = k
    · simp only [mapGet, hk, if_true, Option.some.injEq] at h
      simp [hk, h]
    · simp only [mapGet, hk, if_false] at h
      exact List.mem_cons_of_mem _ (ih h)

theorem mapGet_of_mem {m : List (K × V)} (hnd : (m.map Prod.fst).Nodup) {k : K} {v : V}
    (h : (k, v) ∈ m) : mapGet m k = some v := by
  induction m with
  | nil => simp at h
  | cons e m ih =>
    obtain ⟨k1, v1⟩ := e
    simp only [List.map_cons, List.nodup_cons] at hnd
    rcases List.mem_cons.mp h with h1 | h1
    · simp only [Prod.mk.injEq] at h1
      simp [mapGet, h1.1, h1.2]
    · have hk : k1 ≠ k := by
        rintro rfl
        exact hnd.1 (List.mem_map.mpr ⟨(k1, v), h1, rfl⟩)
      simp only [mapGet, hk, if_false]
      exact ih hnd.2 h1

/-- Lookup does not depend on the order of the entries of a map. -/
theorem mapGet_perm {m1 m2 : List (K × V)} (hp : m1.Perm m2)
    (hnd : (m2.map Prod.fst).Nodup) (k : K) : mapGet m1 k = mapGet m2 k := by
  have hnd1 : (m1.map Prod.fst).Nodup := (hp.map Prod.fst).nodup_iff.mpr hnd
  cases h : mapGet m1 k with
  | none =>
    have h1 := (mapGet_eq_none_iff m1 k).mp h
    have h2 : k ∉ m2.map Prod.fst := fun hc => h1 ((hp.map Prod.fst).symm.subset hc)
    exact ((mapGet_eq_none_iff m2 k).mpr h2).symm
  | some v =>
    exact (mapGet_of_mem hnd (hp.subset (mem_of_mapGet h))).symm

theorem mapGet_mapSet (m : List (K × V)) (k k2 : K) (v : V) :
    mapGet (mapSet m k v) k2 = if k = k2 then some v else mapGet m k2 := by
  induction m with
  | nil => simp [mapSet, mapGet]
  | cons e m ih =>
    obtain ⟨k1, v1⟩ := e
    by_cases h : k1 = k
    · subst h
      by_cases h2 : k1 = k2 <;> simp [mapSet, mapGet, h2]
    · by_cases h2 : k1 = k2
      · subst h2
        have h3 : ¬ k = k1 := fun e => h e.symm
        simp [mapSet, mapGet, h, h3]
      · simp [mapSet, mapGet, h, h2, ih]

theorem keys_mapSet (m : List (K × V)) (k : K) (v : V) :
    (mapSet m k v).map Prod.fst =
      if k ∈ m.map Prod.fst then m.map Prod.fst else m.map Prod.fst ++ [k] := by
  induction m with
  | nil => simp [mapSet]
  | cons e m ih =>
    obtain ⟨k1, v1⟩ := e
    by_cases h : k1 = k
    · subst h
      simp [mapSet]
    · have h3 : ¬ k = k1 := fun e => h e.symm
      simp only [mapSet, h, if_false, List.map_cons, ih, List.mem_cons, h3, false_or]
      split <;> simp

theorem mem_keys_mapSet (m : List (K × V)) (k k2 : K) (v : V) :
    k2 ∈ (mapSet m k v).map Prod.fst ↔ k2 = k ∨ k2 ∈ m.map Prod.fst := by
  rw [keys_mapSet]
  split
  · rename_i h
    constructor
    · intro h2; exact Or.inr h2
    · rintro (rfl | h2)
      · exact h
      · exact h2
  · simp only [List.mem_append, List.mem_singleton]
    tauto

theorem nodup_keys_mapSet (m : List (K × V)) (k : K) (v : V)
    (hnd : (m.map Prod.fst).Nodup) : ((mapSet m k v).map Prod.fst).Nodup := by
  rw [keys_mapSet]
  split
  · exact hnd
  · rename_i h
    rw [List.nodup_append]
    refine ⟨hnd, List.nodup_singleton k, ?_⟩
    intro a ha hb
    rw [List.mem_singleton] at hb
    subst hb
    exact h ha

theorem mapGet_mapModify (m : List (K × V)) (k k2 : K) (f : V → V) :
    mapGet (mapModify m k f) k2 = if k = k2 then (mapGet m k).map f else mapGet m k2 := by
  induction m with
  | nil => simp [mapModify, mapGet]
  | cons e m ih =>
    obtain ⟨k1, v1⟩ := e
    by_cases h : k1 = k
    · subst h
      by_cases h2 : k1 = k2 <;> simp [mapModify, mapGet, h2]
    · by_cases h2 : k1 = k2
      · subst h2
        have h3 : ¬ k = k1 := fun e => h e.symm
        simp [mapModify, mapGet, h, h3]
      · simp [mapModify, mapGet, h, h2, ih]

theorem keys_mapModify (m : List (K × V)) (k : K) (f : V → V) :
    (mapModify m k f).map Prod.fst = m.map Prod.fst := by
  induction m with
  | nil => simp [mapModify]
  | cons e m ih =>
    obtain ⟨k1, v1⟩ := e
    by_cases h : k1 = k <;> simp [mapModify, h, ih]

end MapLemmas

/-! ### Invariants of the aggregation loops -/

/-- An invariant that each step extends by the records of the step holds
after a whole loop for the records of the whole list. -/
theorem foldl_invariant {S X R : Type} (Inv : List R → S → Prop) (f : S → X → S)
    (g : X → List R) (h : ∀ recs st x, Inv recs st → Inv (recs ++ g x) (f st x)) :
    ∀ (l : List X) (recs : List R) (st : S), Inv recs st →
      Inv (recs ++ l.flatMap g) (l.foldl f st) := by
  intro l
  induction l with
  | nil => intro recs st hi; simpa using hi
  | cons x l ih =>
    intro recs st hi
    have h2 := ih (recs ++ g x) (f st x) (h recs st x hi)
    simpa [List.flatMap_cons, List.append_assoc] using h2

theorem topicBytes_append_same (recs : List SizeRecord) (t : String) (n sz : Int) :
    topicBytes (recs ++ [{ topic := t, partition := n, size := sz }]) t =
      add64 (topicBytes recs t) sz := by
  simp [topicBytes, sumInt64, List.filter_append, List.filter_cons]

theorem topicBytes_append_other (recs : List SizeRecord) (t t2 : String) (n sz : Int)
    (h : t ≠ t2) :
    topicBytes (recs ++ [{ topic := t, partition := n, size := sz }]) t2 =
      topicBytes recs t2 := by
  simp [topicBytes, List.filter_append, List.filter_cons, h]

theorem topicBytes_of_absent (recs : List SizeRecord) (t : String)
    (h : ∀ r ∈ recs, r.topic ≠ t) : topicBytes recs t = 0 := by
  have e : (recs.filter fun r => decide (r.topic = t)) = [] := by
    rw [List.filter_eq_nil_iff]
    intro r hr
    simpa using h r hr
  simp [topicBytes, e, sumInt64]

theorem PartInv_init {recs : List SizeRecord} {pc : List (String × List (Int × Bool))}
    (hi : PartInv recs pc) (t : String) (hnone : mapGet pc t = none) :
    PartInv recs (mapSet pc t []) := by
  obtain ⟨h1, h2, h3⟩ := hi
  refine ⟨nodup_keys_mapSet _ _ _ h1, ?_, ?_⟩
  · intro r hr
    exact (mem_keys_mapSet _ _ _ _).mpr (Or.inr (h2 r hr))
  · intro t2 ps hg
    rw [mapGet_mapSet] at hg
    split at hg
    · rename_i heq
      subst heq
      simp only [Option.some.injEq] at hg
      subst hg
      refine ⟨by simp, ?_⟩
      intro n
      simp only [List.map_nil, List.not_mem_nil, false_iff, not_exists, not_and]
      intro r hr ht _
      have := h2 r hr
      rw [ht] at this
      exact (mapGet_eq_none_iff pc t).mp hnone this
    · exact h3 t2 ps hg

theorem PartInv_add {recs : List SizeRecord} {pc : List (String × List (Int × Bool))}
    (hi : PartInv recs pc) (t : String) (n sz : Int) (hk : t ∈ pc.map Prod.fst) :
    PartInv (recs ++ [{ topic := t, partition := n, size := sz }])
      (mapModify pc t (fun ps => mapSet ps n true)) := by
  obtain ⟨h1, h2, h3⟩ := hi
  refine ⟨by rw [keys_mapModify]; exact h1, ?_, ?_⟩
  · intro r hr
    rw [keys_mapModify]
    rcases List.mem_append.mp hr with h | h
    · exact h2 r h
    · rw [List.mem_singleton] at h
      subst h
      exact hk
  · intro t2 ps hg
    rw [mapGet_mapModify] at hg
    split at hg
    · rename_i heq
      subst heq
      cases hold : mapGet pc t with
      | none => simp [hold] at hg
      | some ps0 =>
        simp only [hold, Option.map_some', Option.some.injEq] at hg
        subst hg
        obtain ⟨hnd, hmem⟩ := h3 t ps0 hold
        refine ⟨nodup_keys_mapSet _ _ _ hnd, ?_⟩
        intro m
        rw [mem_keys_mapSet, hmem]
        constructor
        · rintro (rfl | ⟨r, hr, h4, h5⟩)
          · exact ⟨_, List.mem_append_right _ (List.mem_singleton_self _), rfl, rfl⟩
          · exact ⟨r, List.mem_append_left _ hr, h4, h5⟩
        · rintro ⟨r, hr, h4, h5⟩
          rcases List.mem_append.mp hr with h | h
          · exact Or.inr ⟨r, h, h4, h5⟩
          · rw [List.mem_singleton] at h
            subst h
            exact Or.inl h5.symm
    · rename_i hne
      obtain ⟨hnd, hmem⟩ := h3 t2 ps hg
      refine ⟨hnd, ?_⟩
      intro m
      rw [hmem]
      constructor
      · rintro ⟨r, hr, h4, h5⟩
        exact ⟨r, List.mem_append_left _ hr, h4, h5⟩
      · rintro ⟨r, hr, h4, h5⟩
        rcases List.mem_append.mp hr with h | h
        · exact ⟨r, h, h4, h5⟩
        · rw [List.mem_singleton] at h
          subst h
          exact absurd h4 hne

/-- Under the invariant the size of the set stored for a topic is the number
of distinct partition numbers of the topic's records. -/
theorem PartInv_length {recs : List SizeRecord} {pc : List (String × List (Int × Bool))}
    (hi : PartInv recs pc) (t : String) (ps : List (Int × Bool)) (hg : mapGet pc t = some ps) :
    ps.length = distinctPartitions recs t := by
  obtain ⟨hnd, hmem⟩ := hi.2.2 t ps hg
  have hperm : (ps.map Prod.fst).Perm
      ((recs.filter fun r => r.topic = t).map fun r => r.partition).dedup := by
    rw [List.perm_ext_iff_of_nodup hnd (List.nodup_dedup _)]
    intro n
    rw [hmem, List.mem_dedup, List.mem_map]
    constructor
    · rintro ⟨r, hr, h4, h5⟩
      exact ⟨r, List.mem_filter.mpr ⟨hr, by simpa using h4⟩, h5⟩
    · rintro ⟨r, hr, h5⟩
      obtain ⟨h6, h7⟩ := List.mem_filter.mp hr
      exact ⟨r, h6, by simpa using h7, h5⟩
  have := hperm.length_eq
  simpa [distinctPartitions] using this

theorem ConvertInv_record {recs : List SizeRecord} {st : ConvertState}
    (hi : ConvertInv recs st) (t : String) (n sz : Int) :
    ConvertInv (recs ++ [{ topic := t, partition := n, size := sz }])
      (convertRecord st t n sz) := by
  obtain ⟨hkeys, hpart, hsub, hsize⟩ := hi
  -- the state after the initialisation of the topic
  have hst1 : ∃ st1 : ConvertState,
      convertRecord st t n sz =
        { topicSizes := mapModify st1.topicSizes t
            (fun ts => { ts with TotalSize := add64 ts.TotalSize sz })
          partitionCounts := mapModify st1.partitionCounts t
            (fun ps => mapSet ps n true) } ∧
      st1.topicSizes.map Prod.fst = st1.partitionCounts.map Prod.fst ∧
      PartInv recs st1.partitionCounts ∧
      t ∈ st1.topicSizes.map Prod.fst ∧
      (∀ t2, t2 ∈ st1.topicSizes.map Prod.fst → t2 = t ∨ ∃ r ∈ recs, r.topic = t2) ∧
      ∀ t2 ts, mapGet st1.topicSizes t2 = some ts →
        ts = { Topic := t2, TotalSize := topicBytes recs t2, TotalSizeStr := "",
               Partitions := 0 } := by
    by_cases hnone : (mapGet st.topicSizes t).isNone = true
    · have hn : mapGet st.topicSizes t = none := by
        cases h : mapGet st.topicSizes t with
        | none => rfl
        | some v => simp [h] at hnone
      have hnk : t ∉ st.topicSizes.map Prod.fst := (mapGet_eq_none_iff _ _).mp hn
      have hn2 : mapGet st.partitionCounts t = none := by
        rw [mapGet_eq_none_iff, ← hkeys]; exact hnk
      refine ⟨{ topicSizes := mapSet st.topicSizes t
                  { Topic := t, TotalSize := 0, TotalSizeStr := "", Partitions := 0 }
                partitionCounts := mapSet st.partitionCounts t [] }, ?_, ?_, ?_, ?_, ?_, ?_⟩
      · simp [convertRecord, hnone]
      · simp only [keys_mapSet, hkeys]
      · exact PartInv_init hpart t hn2
      · exact (mem_keys_mapSet _ _ _ _).mpr (Or.inl rfl)
      · intro t2 h2
        rcases (mem_keys_mapSet _ _ _ _).mp h2 with h | h
        · exact Or.inl h
        · exact Or.inr (hsub t2 h)
      · intro t2 ts hg
        simp only [mapGet_mapSet] at hg
        split at hg
        · rename_i heq
          subst heq
          simp only [Option.some.injEq] at hg
          subst hg
          have h0 : topicBytes recs t = 0 := by
            apply topicBytes_of_absent
            intro r hr hrt
            have := hpart.2.1 r hr
            rw [hrt, ← hkeys] at this
            exact hnk this
          rw [h0]
        · exact hsize t2 ts hg
    · refine ⟨st, ?_, hkeys, hpart, ?_, ?_, hsize⟩
      · simp [convertRecord, hnone]
      · rw [← mapGet_isSome_iff]
        cases h : mapGet st.topicSizes t with
        | none => simp [h] at hnone
        | some v => rfl
      · intro t2 h2
        exact Or.inr (hsub t2 h2)
  obtain ⟨st1, heq, hk1, hp1, hmem1, hsub1, hsize1⟩ := hst1
  rw [heq]
  refine ⟨?_, ?_, ?_, ?_⟩
  · simp only [keys_mapModify, hk1]
  · exact PartInv_add hp1 t n sz (hk1 ▸ hmem1)
  · intro t2 h2
    simp only [keys_mapModify] at h2
    rcases hsub1 t2 h2 with h | ⟨r, hr, h⟩
    · exact ⟨_, List.mem_append_right _ (List.mem_singleton_self _), h.symm⟩
    · exact ⟨r, List.mem_append_left _ hr, h⟩
  · intro t2 ts hg
    simp only [mapGet_mapModify] at hg
    split at hg
    · rename_i heq2
      subst heq2
      cases hold : mapGet st1.topicSizes t with
      | none => simp [hold] at hg
      | some ts0 =>
        simp only [hold, Option.map_some', Option.some.injEq] at hg
        subst hg
        rw [hsize1 t ts0 hold, topicBytes_append_same]
    · rename_i hne
      rw [topicBytes_append_other recs t t2 n sz hne]
      exact hsize1 t2 ts hg

theorem ConvertInv_partition (recs : List SizeRecord) (st : ConvertState)
    (p : KafkaPartitionInfo) (hi : ConvertInv recs st) :
    ConvertInv
      (recs ++ (match decodePartition p.Partition with
        | none => []
        | some d => [{ topic := d.1, partition := d.2, size := p.Size }]))
      (convertPartition st p) := by
  unfold convertPartition
  cases h : decodePartition p.Partition with
  | none => simpa using hi
  | some d =>
    obtain ⟨t, n⟩ := d
    exact ConvertInv_record hi t n p.Size

theorem ConvertInv_logDir (recs : List SizeRecord) (st : ConvertState)
    (logDir : KafkaLogDir) (hi : ConvertInv recs st) :
    ConvertInv
      (recs ++ (if logDir.Error.isSome then []
        else logDir.Partitions.flatMap fun partition =>
          match decodePartition partition.Partition with
          | none => []
          | some d => [{ topic := d.1, partition := d.2, size := partition.Size }]))
      (convertLogDir st logDir) := by
  unfold convertLogDir
  split
  · simpa using hi
  · exact foldl_invariant ConvertInv convertPartition _ ConvertInv_partition _ _ _ hi

/-- The maps built by the aggregation loop satisfy the invariant for the
records of the response. -/
theorem ConvertInv_aggregate (kafkaResponse : KafkaLogDirsResponse) :
    ConvertInv (convertRecords kafkaResponse) (convertAggregate kafkaResponse) := by
  have hb : ∀ recs st (broker : KafkaBrokerLogDirs), ConvertInv recs st →
      ConvertInv (recs ++ broker.LogDirs.flatMap fun logDir =>
        if logDir.Error.isSome then []
        else logDir.Partitions.flatMap fun partition =>
          match decodePartition partition.Partition with
          | none => []
          | some d => [{ topic := d.1, partition := d.2, size := partition.Size }])
        (convertBroker st broker) := by
    intro recs st broker hi
    exact foldl_invariant ConvertInv convertLogDir _ ConvertInv_logDir _ _ _ hi
  have h0 : ConvertInv [] { topicSizes := [], partitionCounts := [] } := by
    refine ⟨rfl, ⟨by simp, by simp, ?_⟩, by simp, ?_⟩
    · intro t ps h; simp [mapGet] at h
    · intro t ts h; simp [mapGet] at h
  have := foldl_invariant ConvertInv convertBroker _ hb kafkaResponse.Brokers [] _ h0
  simpa [convertRecords, convertAggregate] using this

/-! ### The report of the fallback collector -/

theorem updatePartitionCounts_keys (order : List (String × List (Int × Bool))) :
    ∀ m : List (String × TopicSize),
      (updatePartitionCounts m order).map Prod.fst = m.map Prod.fst := by
  induction order with
  | nil => intro m; rfl
  | cons e order ih =>
    intro m
    simp only [updatePartitionCounts, List.foldl_cons] at ih ⊢
    rw [ih, keys_mapModify]

theorem updatePartitionCounts_get (order : List (String × List (Int × Bool)))
    (hnd : (order.map Prod.fst).Nodup) (t : String) :
    ∀ m : List (String × TopicSize),
      mapGet (updatePartitionCounts m order) t =
        match mapGet order t with
        | some ps => (mapGet m t).map fun ts => { ts with Partitions := ps.length }
        | none => mapGet m t := by
  induction order with
  | nil => intro m; simp [updatePartitionCounts, mapGet]
  | cons e order ih =>
    intro m
    obtain ⟨k, ps⟩ := e
    simp only [List.map_cons, List.nodup_cons] at hnd
    simp only [updatePartitionCounts, List.foldl_cons] at ih ⊢
    rw [ih hnd.2]
    by_cases hk : k = t
    · subst hk
      have hn : mapGet order k = none := (mapGet_eq_none_iff _ _).mpr hnd.1
      simp [hn, mapGet, mapGet_mapModify]
    · simp only [mapGet, hk, if_false, mapGet_mapModify]

theorem foldl_reportStep (l : List (String × TopicSize)) :
    ∀ r : TopicSizesReport,
      l.foldl reportStep r =
        { r with
          Topics := r.Topics ++
            l.map fun e => { e.2 with TotalSizeStr := formatBytes e.2.TotalSize }
          TotalSize := (l.map fun e => e.2.TotalSize).foldl add64 r.TotalSize
          TotalPartitions := r.TotalPartitions + (l.map fun e => e.2.Partitions).sum } := by
  induction l with
  | nil => intro r; simp
  | cons e l ih =>
    intro r
    rw [List.foldl_cons, ih]
    simp [reportStep, List.append_assoc, Nat.add_assoc]

/-- The topic map of the fallback collector after the loop "Update partition
counts": unique keys, one per topic with a record, each holding the size sum
and the number of distinct partitions of that topic. -/
theorem convert_topicSizes (kafkaResponse : KafkaLogDirsResponse) (seed : Nat) :
    let st := convertAggregate kafkaResponse
    let m := updatePartitionCounts st.topicSizes (mapRange seed st.partitionCounts)
    (m.map Prod.fst).Nodup ∧
      (∀ t, t ∈ m.map Prod.fst ↔ t ∈ (convertRecords kafkaResponse).map fun r => r.topic) ∧
      ∀ e ∈ m, ({ e.2 with TotalSizeStr := formatBytes e.2.TotalSize } : TopicSize) =
        expectedTopic (convertRecords kafkaResponse) e.1 := by
  intro st m
  obtain ⟨hkeys, hpart, hsub, hsize⟩ := ConvertInv_aggregate kafkaResponse
  have hperm := mapRange_perm st.partitionCounts seed
  have hnd : (st.topicSizes.map Prod.fst).Nodup := hkeys ▸ hpart.1
  have hndo : ((mapRange seed st.partitionCounts).map Prod.fst).Nodup :=
    (hperm.map Prod.fst).nodup_iff.mpr hpart.1
  have hmk : m.map Prod.fst = st.topicSizes.map Prod.fst := updatePartitionCounts_keys _ _
  refine ⟨hmk ▸ hnd, ?_, ?_⟩
  · intro t
    rw [hmk]
    constructor
    · intro h
      obtain ⟨r, hr, h2⟩ := hsub t h
      exact List.mem_map.mpr ⟨r, hr, h2⟩
    · intro h
      obtain ⟨r, hr, h2⟩ := List.mem_map.mp h
      rw [hkeys, ← h2]
      exact hpart.2.1 r hr
  · rintro ⟨t, ts2⟩ he
    have hg : mapGet m t = some ts2 := mapGet_of_mem (hmk ▸ hnd) he
    have hg2 := updatePartitionCounts_get (mapRange seed st.partitionCounts) hndo t st.topicSizes
    rw [mapGet_perm hperm hpart.1] at hg2
    have hin : t ∈ st.topicSizes.map Prod.fst := by
      rw [← hmk]; exact List.mem_map.mpr ⟨(t, ts2), he, rfl⟩
    cases hts : mapGet st.topicSizes t with
    | none => exact absurd hin ((mapGet_eq_none_iff _ _).mp hts)
    | some ts =>
      cases hps : mapGet st.partitionCounts t with
      | none =>
        exact absurd (hkeys ▸ hin) ((mapGet_eq_none_iff _ _).mp hps)
      | some ps =>
        have hlen := PartInv_length hpart t ps hps
        have hts2 := hsize t ts hts
        rw [show mapGet (updatePartitionCounts st.topicSizes (mapRange seed st.partitionCounts)) t
          = mapGet m t from rfl, hg, hps, hts] at hg2
        simp only [Option.map_some', Option.some.injEq] at hg2
        subst hg2
        subst hts2
        simp [expectedTopic, hlen]

theorem keys_perm_dedup {m : List String} (recs : List SizeRecord) (hnd : m.Nodup)
    (hmem : ∀ t, t ∈ m ↔ t ∈ recs.map fun r => r.topic) :
    m.Perm (recs.map fun r => r.topic).dedup := by
  rw [List.perm_ext_iff_of_nodup hnd (List.nodup_dedup _)]
  intro t
  rw [hmem, List.mem_dedup]

/-- The fallback report in closed form: the topics are a sorted permutation of
the aggregated per-topic records and the totals are their sums. -/
theorem convert_report (kafkaResponse : KafkaLogDirsResponse) (brokers : List String)
    (now : String) (rnd : Nat → Nat) :
    let R := convertKafkaLogDirsToReport kafkaResponse brokers now rnd
    R.Topics.Perm (aggregatedTopics (convertRecords kafkaResponse)) ∧
      R.Topics.Pairwise (fun a b => a.TotalSize ≥ b.TotalSize) ∧
      R.TotalSize = sumInt64 (R.Topics.map fun t => t.TotalSize) ∧
      R.TotalPartitions = (R.Topics.map fun t => t.Partitions).sum ∧
      R.TotalTopics = R.Topics.length := by
  intro R
  obtain ⟨hnd, hmem, hval⟩ := convert_topicSizes kafkaResponse (rnd 0)
  generalize hm : updatePartitionCounts (convertAggregate kafkaResponse).topicSizes
    (mapRange (rnd 0) (convertAggregate kafkaResponse).partitionCounts) = m at hnd hmem hval
  have hR : R = convertKafkaLogDirsToReport kafkaResponse brokers now rnd := rfl
  simp only [convertKafkaLogDirsToReport, hm, foldl_reportStep] at hR
  have hrange := mapRange_perm m (rnd 1)
  have hsort := sortSlice_perm (rnd 2) sizeLess
    ((mapRange (rnd 1) m).map fun e =>
      ({ e.2 with TotalSizeStr := formatBytes e.2.TotalSize } : TopicSize))
  have hT : R.Topics.Perm ((mapRange (rnd 1) m).map fun e =>
      ({ e.2 with TotalSizeStr := formatBytes e.2.TotalSize } : TopicSize)) := by
    rw [hR]; simpa using hsort
  refine ⟨?_, ?_, ?_, ?_, ?_⟩
  · refine hT.trans ((hrange.map _).trans ?_)
    have e1 : (m.map fun e =>
        ({ e.2 with TotalSizeStr := formatBytes e.2.TotalSize } : TopicSize)) =
        (m.map Prod.fst).map (expectedTopic (convertRecords kafkaResponse)) := by
      rw [List.map_map]
      apply List.map_congr_left
      intro e he
      exact hval e he
    rw [e1]
    exact (keys_perm_dedup _ hnd hmem).map _
  · rw [hR]
    simpa using sortSlice_sizeLess_sorted (rnd 2) _
  · have e2 : R.TotalSize = sumInt64 (((mapRange (rnd 1) m).map fun e =>
        ({ e.2 with TotalSizeStr := formatBytes e.2.TotalSize } : TopicSize)).map
          fun t => t.TotalSize) := by
      rw [hR]; simp [sumInt64, List.map_map, Function.comp_def]
    rw [e2]
    exact sumInt64_perm (hT.map _).symm
  · have e3 : R.TotalPartitions = (((mapRange (rnd 1) m).map fun e =>
        ({ e.2 with TotalSizeStr := formatBytes e.2.TotalSize } : TopicSize)).map
          fun t => t.Partitions).sum := by
      rw [hR]; simp [List.map_map, Function.comp_def]
    rw [e3]
    exact ((hT.map _).sum_eq).symm
  · rw [hR]

/-! ### The report of the native collector -/

theorem NativeInv_partition (t : String) (recs : List SizeRecord) (st : NativeState)
    (p : DescribeLogDirsResponsePartition)
    (hi : NativeInv recs st ∧ t ∈ st.topicPartitions.map Prod.fst) :
    NativeInv (recs ++ [{ topic := t, partition := p.PartitionID, size := p.Size }])
        (nativePartition t st p) ∧
      t ∈ (nativePartition t st p).topicPartitions.map Prod.fst := by
  obtain ⟨⟨hpart, hnd, hkeys, hsize⟩, hk⟩ := hi
  refine ⟨⟨PartInv_add hpart t p.PartitionID p.Size hk, nodup_keys_mapSet _ _ _ hnd, ?_, ?_⟩, ?_⟩
  · intro t2
    simp only [nativePartition, mem_keys_mapSet, hkeys]
    constructor
    · rintro (rfl | ⟨r, hr, h⟩)
      · exact ⟨_, List.mem_append_right _ (List.mem_singleton_self _), rfl⟩
      · exact ⟨r, List.mem_append_left _ hr, h⟩
    · rintro ⟨r, hr, h⟩
      rcases List.mem_append.mp hr with h1 | h1
      · exact Or.inr ⟨r, h1, h⟩
      · rw [List.mem_singleton] at h1
        subst h1
        exact Or.inl h.symm
  · intro t2 v hg
    simp only [nativePartition, mapGet_mapSet] at hg
    split at hg
    · rename_i heq
      subst heq
      simp only [Option.some.injEq] at hg
      subst hg
      rw [topicBytes_append_same]
      cases hold : mapGet st.topicSizes t with
      | none =>
        have hnk : t ∉ st.topicSizes.map Prod.fst := (mapGet_eq_none_iff _ _).mp hold
        have h0 : topicBytes recs t = 0 := by
          apply topicBytes_of_absent
          intro r hr hrt
          exact hnk ((hkeys t).mpr ⟨r, hr, hrt⟩)
        simp [h0]
      | some v0 =>
        simp [hsize t v0 hold]
    · rename_i hne
      rw [topicBytes_append_other recs t t2 _ _ hne]
      exact hsize t2 v hg
  · simp only [nativePartition, keys_mapModify]
    exact hk

theorem flatMap_singleton_eq_map {α β : Type} (f : α → β) (l : List α) :
    (l.flatMap fun x => [f x]) = l.map f := by
  induction l with
  | nil => rfl
  | cons x l ih => simp [List.flatMap_cons, ih]

theorem NativeInv_topic (topicFilter : List String) (recs : List SizeRecord)
    (st : NativeState) (topicInfo : DescribeLogDirsResponseTopic) (hi : NativeInv recs st) :
    NativeInv
      (recs ++ (if topicFilter.length > 0 ∧ contains topicFilter topicInfo.Topic = false then []
        else topicInfo.Partitions.map fun p =>
          { topic := topicInfo.Topic, partition := p.PartitionID, size := p.Size }))
      (nativeTopic topicFilter st topicInfo) := by
  unfold nativeTopic
  simp only []
  split
  · simpa using hi
  · obtain ⟨hpart, hnd, hkeys, hsize⟩ := hi
    have h1 : ∃ st1 : NativeState,
        (if (mapGet st.topicPartitions topicInfo.Topic).isNone = true then
          { st with topicPartitions := mapSet st.topicPartitions topicInfo.Topic [] }
          else st) = st1 ∧ NativeInv recs st1 ∧
          topicInfo.Topic ∈ st1.topicPartitions.map Prod.fst := by
      by_cases hnone : (mapGet st.topicPartitions topicInfo.Topic).isNone = true
      · have hn : mapGet st.topicPartitions topicInfo.Topic = none := by
          cases h : mapGet st.topicPartitions topicInfo.Topic with
          | none => rfl
          | some v => simp [h] at hnone
        refine ⟨{ st with topicPartitions := mapSet st.topicPartitions topicInfo.Topic [] },
          by simp [hnone], ⟨PartInv_init hpart _ hn, hnd, hkeys, hsize⟩, ?_⟩
        exact (mem_keys_mapSet _ _ _ _).mpr (Or.inl rfl)
      · refine ⟨st, by simp [hnone], ⟨hpart, hnd, hkeys, hsize⟩, ?_⟩
        rw [← mapGet_isSome_iff]
        cases h : mapGet st.topicPartitions topicInfo.Topic with
        | none => simp [h] at hnone
        | some v => rfl
    obtain ⟨st1, heq, hinv1, hk1⟩ := h1
    rw [heq]
    have := foldl_invariant
      (fun recs st => NativeInv recs st ∧ topicInfo.Topic ∈ st.topicPartitions.map Prod.fst)
      (nativePartition topicInfo.Topic)
      (fun p => [{ topic := topicInfo.Topic, partition := p.PartitionID, size := p.Size }])
      (NativeInv_partition topicInfo.Topic) topicInfo.Partitions recs st1 ⟨hinv1, hk1⟩
    rw [flatMap_singleton_eq_map] at this
    exact this.1

theorem NativeInv_logDir (topicFilter : List String) (recs : List SizeRecord)
    (st : NativeState) (logDirInfo : DescribeLogDirsResponseDirMetadata)
    (hi : NativeInv recs st) :
    NativeInv
      (recs ++ (if logDirInfo.ErrorCode ≠ 0 then []
        else logDirInfo.Topics.flatMap fun topicInfo =>
          if topicFilter.length > 0 ∧ contains topicFilter topicInfo.Topic = false then []
          else topicInfo.Partitions.map fun p =>
            { topic := topicInfo.Topic, partition := p.PartitionID, size := p.Size }))
      (nativeLogDir topicFilter st logDirInfo) := by
  unfold nativeLogDir
  split
  · simpa using hi
  · exact foldl_invariant NativeInv (nativeTopic topicFilter) _
      (NativeInv_topic topicFilter) _ _ _ hi

theorem NativeInv_broker (topicFilter : List String) (recs : List SizeRecord)
    (st : NativeState) (broker : BrokerQuery) (hi : NativeInv recs st) :
    NativeInv
      (recs ++ (if broker.connected = false ∧ broker.openFails = true then []
        else (broker.response.getD []).flatMap fun logDirInfo =>
          if logDirInfo.ErrorCode ≠ 0 then []
          else logDirInfo.Topics.flatMap fun topicInfo =>
            if topicFilter.length > 0 ∧ contains topicFilter topicInfo.Topic = false then []
            else topicInfo.Partitions.map fun p =>
              { topic := topicInfo.Topic, partition := p.PartitionID, size := p.Size }))
      (nativeBroker topicFilter st broker) := by
  unfold nativeBroker
  split
  · simpa using hi
  · cases hr : broker.response with
    | none => simpa using hi
    | some logDirs =>
      simp only [Option.getD_some]
      split
      · rename_i h0
        have : logDirs = [] := List.length_eq_zero.mp h0
        subst this
        simpa using hi
      · exact foldl_invariant NativeInv (nativeLogDir topicFilter) _
          (NativeInv_logDir topicFilter) _ _ _ hi

/-- The maps built by the query loop of `getTopicSizes` satisfy the invariant
for the records received. -/
theorem NativeInv_aggregate (brokerIDs : List BrokerQuery) (topicFilter : List String) :
    NativeInv (nativeRecords brokerIDs topicFilter) (nativeAggregate brokerIDs topicFilter) := by
  have h0 : NativeInv [] { topicSizes := [], topicPartitions := [] } := by
    refine ⟨⟨by simp, by simp, ?_⟩, by simp, by simp, ?_⟩
    · intro t ps h; simp [mapGet] at h
    · intro t v h; simp [mapGet] at h
  have := foldl_invariant NativeInv (nativeBroker topicFilter) _
    (NativeInv_broker topicFilter) brokerIDs [] _ h0
  simpa [nativeRecords, nativeAggregate] using this

theorem foldl_nativeReportStep (tp : List (String × List (Int × Bool)))
    (l : List (String × Int)) :
    ∀ r : TopicSizesReport,
      l.foldl (nativeReportStep tp) r =
        { r with
          Topics := r.Topics ++ l.map fun e =>
            ({ Topic := e.1, TotalSize := e.2, TotalSizeStr := formatBytes e.2,
               Partitions := ((mapGet tp e.1).getD []).length } : TopicSize)
          TotalSize := (l.map fun e => e.2).foldl add64 r.TotalSize
          TotalPartitions := r.TotalPartitions +
            (l.map fun e => ((mapGet tp e.1).getD []).length).sum } := by
  induction l with
  | nil => intro r; simp
  | cons e l ih =>
    intro r
    rw [List.foldl_cons, ih]
    simp [nativeReportStep, List.append_assoc, Nat.add_assoc]

/-- Each entry of the size map of the native collector becomes the aggregated
record of its topic. -/
theorem native_topicSizes (brokerIDs : List BrokerQuery) (topicFilter : List String) :
    let st := nativeAggregate brokerIDs topicFilter
    (st.topicSizes.map Prod.fst).Nodup ∧
      (∀ t, t ∈ st.topicSizes.map Prod.fst ↔
        t ∈ (nativeRecords brokerIDs topicFilter).map fun r => r.topic) ∧
      ∀ e ∈ st.topicSizes,
        ({ Topic := e.1, TotalSize := e.2, TotalSizeStr := formatBytes e.2,
           Partitions := ((mapGet st.topicPartitions e.1).getD []).length } : TopicSize) =
          expectedTopic (nativeRecords brokerIDs topicFilter) e.1 := by
  intro st
  obtain ⟨hpart, hnd, hkeys, hsize⟩ := NativeInv_aggregate brokerIDs topicFilter
  refine ⟨hnd, ?_, ?_⟩
  · intro t
    rw [hkeys t]
    constructor
    · rintro ⟨r, hr, h⟩
      exact List.mem_map.mpr ⟨r, hr, h⟩
    · intro h
      obtain ⟨r, hr, h2⟩ := List.mem_map.mp h
      exact ⟨r, hr, h2⟩
  · rintro ⟨t, v⟩ he
    have hg : mapGet st.topicSizes t = some v := mapGet_of_mem hnd he
    have hv := hsize t v hg
    have hin : t ∈ st.topicSizes.map Prod.fst := List.mem_map.mpr ⟨(t, v), he, rfl⟩
    obtain ⟨r, hr, hrt⟩ := (hkeys t).mp hin
    have hk : t ∈ st.topicPartitions.map Prod.fst := hrt ▸ hpart.2.1 r hr
    cases hps : mapGet st.topicPartitions t with
    | none => exact absurd hk ((mapGet_eq_none_iff _ _).mp hps)
    | some ps =>
      have hlen := PartInv_length hpart t ps hps
      simp only [hps, Option.getD_some, expectedTopic, hlen, hv]

/-- The native report in closed form: the topics are a sorted permutation of
the aggregated per-topic records and the totals are their sums. -/
theorem native_report (brokers : List String) (client : Except String (List BrokerQuery))
    (topicFilter : List String) (now : String) (rnd : Nat → Nat) (R : TopicSizesReport)
    (h : getTopicSizes brokers client topicFilter now rnd = .ok R) :
    ∃ brokerIDs, client = .ok brokerIDs ∧
      R.Topics.Perm (aggregatedTopics (nativeRecords brokerIDs topicFilter)) ∧
      R.Topics.Pairwise (fun a b => a.TotalSize ≥ b.TotalSize) ∧
      R.TotalSize = sumInt64 (R.Topics.map fun t => t.TotalSize) ∧
      R.TotalPartitions = (R.Topics.map fun t => t.Partitions).sum ∧
      R.TotalTopics = R.Topics.length := by
  cases client with
  | error e => simp [getTopicSizes] at h
  | ok brokerIDs =>
    refine ⟨brokerIDs, rfl, ?_⟩
    obtain ⟨hnd, hmem, hval⟩ := native_topicSizes brokerIDs topicFilter
    generalize hst : nativeAggregate brokerIDs topicFilter = st at hnd hmem hval
    simp only [getTopicSizes, hst, foldl_nativeReportStep] at h
    split at h
    · simp at h
    · simp only [Except.ok.injEq] at h
      have hR := h.symm
      clear h
      have hrange := mapRange_perm st.topicSizes (rnd 0)
      have hsort := sortSlice_perm (rnd 1) sizeLess
        ((mapRange (rnd 0) st.topicSizes).map fun e =>
          ({ Topic := e.1, TotalSize := e.2, TotalSizeStr := formatBytes e.2,
             Partitions := ((mapGet st.topicPartitions e.1).getD []).length } : TopicSize))
      have hT : R.Topics.Perm ((mapRange (rnd 0) st.topicSizes).map fun e =>
          ({ Topic := e.1, TotalSize := e.2, TotalSizeStr := formatBytes e.2,
             Partitions := ((mapGet st.topicPartitions e.1).getD []).length } : TopicSize)) := by
        rw [hR]; simpa using hsort
      refine ⟨?_, ?_, ?_, ?_, ?_⟩
      · refine hT.trans ((hrange.map _).trans ?_)
        have e1 : (st.topicSizes.map fun e =>
            ({ Topic := e.1, TotalSize := e.2, TotalSizeStr := formatBytes e.2,
               Partitions := ((mapGet st.topicPartitions e.1).getD []).length } : TopicSize)) =
            (st.topicSizes.map Prod.fst).map
              (expectedTopic (nativeRecords brokerIDs topicFilter)) := by
          rw [List.map_map]
          apply List.map_congr_left
          intro e he
          exact hval e he
        rw [e1]
        exact (keys_perm_dedup _ hnd hmem).map _
      · rw [hR]
        simpa using sortSlice_sizeLess_sorted (rnd 1) _
      · have e2 : R.TotalSize = sumInt64 (((mapRange (rnd 0) st.topicSizes).map fun e =>
            ({ Topic := e.1, TotalSize := e.2, TotalSizeStr := formatBytes e.2,
               Partitions := ((mapGet st.topicPartitions e.1).getD []).length } :
                TopicSize)).map fun t => t.TotalSize) := by
          rw [hR]; simp [sumInt64, List.map_map, Function.comp_def]
        rw [e2]
        exact sumInt64_perm (hT.map _).symm
      · have e3 : R.TotalPartitions = (((mapRange (rnd 0) st.topicSizes).map fun e =>
            ({ Topic := e.1, TotalSize := e.2, TotalSizeStr := formatBytes e.2,
               Partitions := ((mapGet st.topicPartitions e.1).getD []).length } :
                TopicSize)).map fun t => t.Partitions).sum := by
          rw [hR]; simp [List.map_map, Function.comp_def]
        rw [e3]
        exact ((hT.map _).sum_eq).symm
      · rw [hR]

/-! ### The counters of the metrics block -/

theorem mapIncr_getD {K : Type} [DecidableEq K] (m : List (K × Nat)) (k k2 : K) :
    (mapGet (mapIncr m k) k2).getD 0 =
      (mapGet m k2).getD 0 + if k = k2 then 1 else 0 := by
  unfold mapIncr
  rw [mapGet_mapSet]
  by_cases h : k = k2
  · subst h; simp
  · simp [h]

theorem foldl_mapIncr_getD {K : Type} [DecidableEq K] (l : List K) (k : K) :
    ∀ m : List (K × Nat),
      (mapGet (l.foldl mapIncr m) k).getD 0 = (mapGet m k).getD 0 + l.count k := by
  induction l with
  | nil => intro m; simp
  | cons x l ih =>
    intro m
    rw [List.foldl_cons, ih, mapIncr_getD, List.count_cons]
    by_cases h : x = k
    · subst h; simp [Nat.add_assoc, Nat.add_comm]
    · have h2 : (x == k) = false := by simpa using h
      simp [h, h2]

theorem replicaOccurrences_append (a b : List PartitionMetadata) (id : Int) :
    replicaOccurrences (a ++ b) id = replicaOccurrences a id + replicaOccurrences b id := by
  simp [replicaOccurrences]

theorem MetricsInv_partition (base : Nat) (parts : List PartitionMetadata)
    (st : MetricsState) (p : PartitionMetadata) (hi : MetricsInv base parts st) :
    MetricsInv base (parts ++ [p]) (countPartition st p) := by
  obtain ⟨hP, hL, hU, hT⟩ := hi
  have hone : ∀ id, replicaOccurrences [p] id = p.Replicas.count id := by
    intro id; simp [replicaOccurrences]
  by_cases hl : p.Leader ≥ 0 <;> by_cases hu : p.Isr.length < p.Replicas.length
  all_goals
    have hu2 : isURP p = decide (p.Isr.length < p.Replicas.length) := rfl
    refine ⟨?_, ?_, ?_, ?_⟩
    · intro id
      simp only [countPartition, hl, hu, if_true, if_false]
      rw [foldl_mapIncr_getD, hP, replicaOccurrences_append, hone]
    · intro id
      simp only [countPartition, hl, hu, if_true, if_false, List.filter_append, List.filter_cons,
        List.filter_nil, List.length_append]
      first
        | (rw [mapIncr_getD, hL]
           by_cases h : p.Leader = id <;> simp [h, hl])
        | (rw [hL]; simp [hl])
    · intro id
      simp only [countPartition, hl, hu, if_true, if_false, List.filter_append, List.filter_cons,
        List.filter_nil, hu2, decide_True, decide_False]
      first
        | (rw [foldl_mapIncr_getD, hU, replicaOccurrences_append, hone])
        | (rw [hU]; simp)
    · simp only [countPartition, hl, hu, if_true, if_false, List.filter_append, List.filter_cons,
        List.filter_nil, hu2, decide_True, decide_False, List.length_append, hT]
      rfl

theorem flatMap_singleton_id {α : Type} (l : List α) : (l.flatMap fun x => [x]) = l := by
  induction l with
  | nil => rfl
  | cons x l ih => simp [List.flatMap_cons, ih]

theorem MetricsInv_topic (base : Nat) (describeTopics : String → Option (List TopicMetadata))
    (parts : List PartitionMetadata) (st : MetricsState) (topicName : String)
    (hi : MetricsInv base parts st) :
    MetricsInv base
      (parts ++ ((describeTopics topicName).getD []).flatMap fun topicMeta => topicMeta.Partitions)
      (countTopic describeTopics st topicName) := by
  unfold countTopic
  cases h : describeTopics topicName with
  | none => simpa using hi
  | some metas =>
    simp only [Option.getD_some]
    refine foldl_invariant (MetricsInv base)
      (fun st (topicMeta : TopicMetadata) => topicMeta.Partitions.foldl countPartition st)
      (fun topicMeta => topicMeta.Partitions) ?_ metas parts st hi
    intro recs st2 topicMeta hi2
    have := foldl_invariant (MetricsInv base) countPartition (fun p => [p])
      (MetricsInv_partition base) topicMeta.Partitions recs st2 hi2
    rwa [flatMap_singleton_id] at this

/-- The counters after the loop over the topics, in whatever order the topic
map is visited. -/
theorem MetricsInv_topics (base : Nat) (topics : List (String × TopicDetail))
    (describeTopics : String → Option (List TopicMetadata)) (seed : Nat) :
    MetricsInv base (describedPartitions (mapRange seed topics) describeTopics)
      (((mapRange seed topics).map Prod.fst).foldl (countTopic describeTopics)
        { brokerPartitions := [], brokerLeaders := [], brokerURPs := [], TotalURPs := base }) := by
  have h0 : MetricsInv base []
      { brokerPartitions := [], brokerLeaders := [], brokerURPs := [], TotalURPs := base } := by
    refine ⟨?_, ?_, ?_, ?_⟩ <;> simp [mapGet, replicaOccurrences]
  have := foldl_invariant (MetricsInv base) (countTopic describeTopics) _
    (MetricsInv_topic base describeTopics) ((mapRange seed topics).map Prod.fst) [] _ h0
  simpa [describedPartitions, List.flatMap_map] using this

theorem describedPartitions_perm (topics : List (String × TopicDetail))
    (describeTopics : String → Option (List TopicMetadata)) (seed : Nat) :
    (describedPartitions (mapRange seed topics) describeTopics).Perm
      (describedPartitions topics describeTopics) :=
  List.Perm.flatMap_right _ (mapRange_perm topics seed)

theorem replicaOccurrences_perm {a b : List PartitionMetadata} (h : a.Perm b) (id : Int) :
    replicaOccurrences a id = replicaOccurrences b id :=
  (h.map _).sum_eq

/-! ## Claims about the identifier codec -/

theorem takeWhile_append_stop {α : Type} (p : α → Bool) (a : List α) (x : α) (b : List α)
    (ha : a.all p = true) (hx : p x = false) : (a ++ x :: b).takeWhile p = a := by
  induction a with
  | nil => simp [List.takeWhile_cons, hx]
  | cons y a ih =>
    simp only [List.all_cons, Bool.and_eq_true] at ha
    simp [List.takeWhile_cons, ha.1, ih ha.2]

theorem dropWhile_append_stop {α : Type} (p : α → Bool) (a : List α) (x : α) (b : List α)
    (ha : a.all p = true) (hx : p x = false) : (a ++ x :: b).dropWhile p = x :: b := by
  induction a with
  | nil => simp [List.dropWhile_cons, hx]
  | cons y a ih =>
    simp only [List.all_cons, Bool.and_eq_true] at ha
    simp [List.dropWhile_cons, ha.1, ih ha.2]

theorem string_data_ne_nil {t : String} (ht : t ≠ "") : t.data ≠ [] := by
  intro h
  apply ht
  cases t
  simp only at h
  subst h
  rfl

/-- C1. Identifier round trip: for every non-empty topic name `t` without a
newline (hyphens and a trailing `-<digits>` inside `t` allowed) and every
partition number `0 ≤ n ≤ max int`, decoding `t ++ "-" ++ decimal(n)` with the
decoding of `convertKafkaLogDirsToReport` yields topic `t` and partition `n`;
in particular "orders-7" decodes to ("orders", 7). -/
theorem C1_identifier_round_trip (t : String) (n : Nat) (ht : t ≠ "")
    (hnl : '\n' ∉ t.data) (hn : n ≤ maxInt) :
    decodePartition (t ++ "-" ++ toString n) = some (t, (n : Int)) ∧
      decodePartition "orders-7" = some ("orders", 7) := by
  refine ⟨?_, by decide⟩
  obtain ⟨h1, h2, h3⟩ := repr_digits n
  have hdot : t.data.all isDot = true := by
    rw [List.all_eq_true]
    intro c hc
    unfold isDot
    simp only [decide_eq_true_eq]
    rintro rfl
    exact hnl hc
  have e : t ++ "-" ++ toString n = String.mk (t.data ++ '-' :: (toString n).data) := by
    apply String.ext
    simp [String.data_append]
  have := decodePartition_complete t.data (toString n).data (string_data_ne_nil ht) hdot h1 h2
    (by rw [h3]; exact hn)
  rw [e, this, h3]

/-- Witness of C1 at topic "orders", partition 7. -/
theorem C1_identifier_round_trip_witness :
    ("orders" ≠ "" ∧ '\n' ∉ "orders".data ∧ 7 ≤ maxInt) ∧
      decodePartition ("orders" ++ "-" ++ toString 7) = some ("orders", ((7 : Nat) : Int)) :=
  ⟨⟨by decide, by decide, by decide⟩,
    (C1_identifier_round_trip "orders" 7 (by decide) (by decide) (by decide)).1⟩

/-- C3. Whenever decoding an identifier `s` succeeds, the partition number is
the value of the longest trailing run of digits of `s`, that run is preceded
by a hyphen, and the topic name is everything before that hyphen, which is the
last hyphen of `s`; so "events-5-3" decodes to topic "events-5" and
partition 3. -/
theorem C3_split_at_last_hyphen (s t : String) (n : Int)
    (h : decodePartition s = some (t, n)) :
    n = (digitsValue (trailingDigits s.data) : Int) ∧
      s.data = t.data ++ '-' :: trailingDigits s.data ∧
      t.data = beforeLastHyphen s.data ∧
      '-' ∉ trailingDigits s.data ∧
      decodePartition "events-5-3" = some ("events-5", 3) := by
  obtain ⟨d, hs, -, -, hne, hall, -, hn⟩ := decodePartition_sound s t n h
  have hrev : s.data.reverse = d.reverse ++ '-' :: t.data.reverse := by
    rw [hs]; simp
  have hallr : d.reverse.all isDigit = true := by
    rw [List.all_eq_true] at hall ⊢
    intro c hc
    exact hall c (List.mem_reverse.mp hc)
  have htd : trailingDigits s.data = d := by
    unfold trailingDigits
    rw [hrev, takeWhile_append_stop isDigit _ _ _ hallr (by decide), List.reverse_reverse]
  have hnh : d.reverse.all (fun c => decide (c ≠ '-')) = true := by
    rw [List.all_eq_true] at hallr ⊢
    intro c hc
    simpa using isDigit_ne_hyphen (hallr c hc)
  refine ⟨by rw [htd]; exact hn, by rw [htd]; exact hs, ?_, ?_, by decide⟩
  · unfold beforeLastHyphen
    rw [hrev, dropWhile_append_stop _ _ _ _ hnh (by decide)]
    simp
  · rw [htd]
    intro hmem
    rw [List.all_eq_true] at hall
    exact isDigit_ne_hyphen (hall _ hmem) rfl

/-- Witness of C3 at the identifier "events-5-3". -/
theorem C3_split_at_last_hyphen_witness :
    decodePartition "events-5-3" = some ("events-5", 3) ∧
      ((3 : Int) = (digitsValue (trailingDigits "events-5-3".data) : Int) ∧
        "events-5-3".data = "events-5".data ++ '-' :: trailingDigits "events-5-3".data ∧
        "events-5".data = beforeLastHyphen "events-5-3".data ∧
        '-' ∉ trailingDigits "events-5-3".data ∧
        decodePartition "events-5-3" = some ("events-5", 3)) :=
  ⟨by decide, C3_split_at_last_hyphen "events-5-3" "events-5" 3 (by decide)⟩

theorem convertPartition_skip (st : ConvertState) (e : KafkaPartitionInfo)
    (h : decodePartition e.Partition = none) : convertPartition st e = st := by
  simp [convertPartition, h]

/-- The clock only determines the `Timestamp` field of the fallback report. -/
theorem convert_timestamp (kafkaResponse : KafkaLogDirsResponse) (brokers : List String)
    (now1 now2 : String) (rnd : Nat → Nat) :
    { convertKafkaLogDirsToReport kafkaResponse brokers now1 rnd with Timestamp := now2 } =
      convertKafkaLogDirsToReport kafkaResponse brokers now2 rnd := by
  simp only [convertKafkaLogDirsToReport, foldl_reportStep]

/-- C2. An identifier without a trailing `-<digits>` suffix fails to decode
(so it is never decoded as partition 0), and `convertKafkaLogDirsToReport`
skips such an entry: apart from the timestamp, the report equals the report
for the same response with that partition entry removed, for the same choices
of the unspecified orders.  "no-digits-here-" is such an identifier. -/
theorem C2_undecodable_entry_skipped (e : KafkaPartitionInfo)
    (h : ¬ ∃ p d : List Char, e.Partition.data = p ++ '-' :: d ∧ d ≠ [] ∧
      d.all isDigit = true)
    (version : Int) (bpre bpost : List KafkaBrokerLogDirs) (broker : Int)
    (lpre lpost : List KafkaLogDir) (dir : String) (err : Option String)
    (ps1 ps2 : List KafkaPartitionInfo) (brokers : List String) (now1 now2 : String)
    (rnd : Nat → Nat) :
    decodePartition e.Partition = none ∧
      (∀ t : String, decodePartition e.Partition ≠ some (t, 0)) ∧
      { convertKafkaLogDirsToReport
          { Version := version
            Brokers := bpre ++
              { Broker := broker
                LogDirs := lpre ++
                  { LogDir := dir, Error := err, Partitions := ps1 ++ e :: ps2 } :: lpost } ::
              bpost }
          brokers now1 rnd with Timestamp := now2 } =
        convertKafkaLogDirsToReport
          { Version := version
            Brokers := bpre ++
              { Broker := broker
                LogDirs := lpre ++
                  { LogDir := dir, Error := err, Partitions := ps1 ++ ps2 } :: lpost } ::
              bpost }
          brokers now2 rnd ∧
      decodePartition "no-digits-here-" = none := by
  have hnone : decodePartition e.Partition = none := by
    cases hd : decodePartition e.Partition with
    | none => rfl
    | some r =>
      obtain ⟨t, n⟩ := r
      obtain ⟨d, hs, -, -, hne, hall, -, -⟩ := decodePartition_sound _ t n hd
      exact absurd ⟨t.data, d, hs, hne, hall⟩ h
  refine ⟨hnone, by simp [hnone], ?_, by decide⟩
  rw [convert_timestamp]
  have hagg :
      convertAggregate
        { Version := version
          Brokers := bpre ++
            { Broker := broker
              LogDirs := lpre ++
                { LogDir := dir, Error := err, Partitions := ps1 ++ e :: ps2 } :: lpost } ::
            bpost } =
      convertAggregate
        { Version := version
          Brokers := bpre ++
            { Broker := broker
              LogDirs := lpre ++
                { LogDir := dir, Error := err, Partitions := ps1 ++ ps2 } :: lpost } ::
            bpost } := by
    simp only [convertAggregate, convertBroker, convertLogDir, List.foldl_append,
      List.foldl_cons, convertPartition_skip _ e hnone]
  simp only [convertKafkaLogDirsToReport, hagg]

/-- Witness of C2: the entry "no-digits-here-" between two entries of topic
`orders`. -/
theorem C2_undecodable_entry_skipped_witness :
    (¬ ∃ p d : List Char, "no-digits-here-".data = p ++ '-' :: d ∧ d ≠ [] ∧
      d.all isDigit = true) ∧
    { convertKafkaLogDirsToReport
        { Version := 1
          Brokers := [] ++
            { Broker := 1
              LogDirs := [] ++
                { LogDir := "/d", Error := none
                  Partitions :=
                    [{ Partition := "orders-0", Size := 10, OffsetLag := 0, IsFuture := false }] ++
                    { Partition := "no-digits-here-", Size := 5, OffsetLag := 0,
                      IsFuture := false } ::
                    [{ Partition := "orders-1", Size := 7, OffsetLag := 0,
                       IsFuture := false }] } :: [] } :: [] }
        ["b:9092"] "t1" (fun _ => 0) with Timestamp := "t2" } =
      convertKafkaLogDirsToReport
        { Version := 1
          Brokers := [] ++
            { Broker := 1
              LogDirs := [] ++
                { LogDir := "/d", Error := none
                  Partitions :=
                    [{ Partition := "orders-0", Size := 10, OffsetLag := 0, IsFuture := false }] ++
                    [{ Partition := "orders-1", Size := 7, OffsetLag := 0,
                       IsFuture := false }] } :: [] } :: [] }
        ["b:9092"] "t2" (fun _ => 0) := by
  have hno : ¬ ∃ p d : List Char, "no-digits-here-".data = p ++ '-' :: d ∧ d ≠ [] ∧
      d.all isDigit = true := by
    rintro ⟨p, d, h1, h2, h3⟩
    have hlast : ("no-digits-here-".data).getLast? = some '-' := by decide
    rw [h1] at hlast
    cases d with
    | nil => exact h2 rfl
    | cons c d =>
      have hmem : (c :: d).getLast (by simp) ∈ c :: d := List.getLast_mem _
      have hd : isDigit ((c :: d).getLast (by simp)) = true :=
        (List.all_eq_true.mp h3) _ hmem
      have hl2 : (p ++ '-' :: c :: d).getLast? = some ((c :: d).getLast (by simp)) := by
        rw [List.getLast?_append_cons, List.getLast?_cons_cons, List.getLast?_eq_getLast]
      rw [hl2] at hlast
      simp only [Option.some.injEq] at hlast
      exact isDigit_ne_hyphen hd hlast
  exact ⟨hno, (C2_undecodable_entry_skipped
    { Partition := "no-digits-here-", Size := 5, OffsetLag := 0, IsFuture := false } hno
    1 [] [] 1 [] [] "/d" none
    [{ Partition := "orders-0", Size := 10, OffsetLag := 0, IsFuture := false }]
    [{ Partition := "orders-1", Size := 7, OffsetLag := 0, IsFuture := false }]
    ["b:9092"] "t1" "t2" (fun _ => 0)).2.2.1⟩

/-! ## Claims about the size reports -/

theorem sample_convert :
    convertKafkaLogDirsToReport sampleResponse ["b1:9092", "b2:9092"] "2024-01-01T00:00:00Z"
      (fun _ => 0) = sampleReport := by
  decide

theorem sample_native :
    getTopicSizes ["b1:9092", "b2:9092"] sampleClient [] "2024-01-01T00:00:00Z" (fun _ => 0) =
      .ok sampleNativeReport := by
  rfl

theorem sumInt64_exact (l : List Int) (h : fitsInt64 l.sum) : sumInt64 l = l.sum := by
  rw [sumInt64_eq]
  exact wrapInt64_of_range _ h.1 h.2

/-- C4. For every report `R` returned by either size collector (the fallback
`convertKafkaLogDirsToReport` and the native `getTopicSizes`), `R.TotalSize`
equals the sum of `TotalSize` over all entries of `R.Topics`: the `int64` sum
as Go computes it, which is the exact sum whenever the exact sum is an
`int64`. -/
theorem C4_total_size_is_sum (kafkaResponse : KafkaLogDirsResponse) (brokers : List String)
    (now : String) (rnd : Nat → Nat) (brokers2 : List String)
    (client : Except String (List BrokerQuery)) (topicFilter : List String) (now2 : String)
    (rnd2 : Nat → Nat) (R : TopicSizesReport)
    (h : getTopicSizes brokers2 client topicFilter now2 rnd2 = .ok R) :
    (convertKafkaLogDirsToReport kafkaResponse brokers now rnd).TotalSize =
        sumInt64 ((convertKafkaLogDirsToReport kafkaResponse brokers now rnd).Topics.map
          fun t => t.TotalSize) ∧
      R.TotalSize = sumInt64 (R.Topics.map fun t => t.TotalSize) ∧
      (fitsInt64 ((convertKafkaLogDirsToReport kafkaResponse brokers now rnd).Topics.map
          fun t => t.TotalSize).sum →
        (convertKafkaLogDirsToReport kafkaResponse brokers now rnd).TotalSize =
          ((convertKafkaLogDirsToReport kafkaResponse brokers now rnd).Topics.map
            fun t => t.TotalSize).sum) ∧
      (fitsInt64 (R.Topics.map fun t => t.TotalSize).sum →
        R.TotalSize = (R.Topics.map fun t => t.TotalSize).sum) := by
  obtain ⟨-, -, hc, -, -⟩ := convert_report kafkaResponse brokers now rnd
  obtain ⟨_, -, -, -, hn, -, -⟩ := native_report brokers2 client topicFilter now2 rnd2 R h
  refine ⟨hc, hn, ?_, ?_⟩
  · intro hfit
    exact hc.trans (sumInt64_exact _ hfit)
  · intro hfit
    exact hn.trans (sumInt64_exact _ hfit)

/-- Witness of C4 on the sample inputs. -/
theorem C4_total_size_is_sum_witness :
    getTopicSizes ["b1:9092", "b2:9092"] sampleClient [] "2024-01-01T00:00:00Z" (fun _ => 0) =
        .ok sampleNativeReport ∧
      fitsInt64 (sampleNativeReport.Topics.map fun t => t.TotalSize).sum ∧
      sampleNativeReport.TotalSize = (sampleNativeReport.Topics.map fun t => t.TotalSize).sum ∧
      (convertKafkaLogDirsToReport sampleResponse ["b1:9092", "b2:9092"]
          "2024-01-01T00:00:00Z" (fun _ => 0)).TotalSize =
        sumInt64 ((convertKafkaLogDirsToReport sampleResponse ["b1:9092", "b2:9092"]
          "2024-01-01T00:00:00Z" (fun _ => 0)).Topics.map fun t => t.TotalSize) :=
  ⟨sample_native, by decide,
    (C4_total_size_is_sum sampleResponse ["b1:9092", "b2:9092"] "2024-01-01T00:00:00Z"
      (fun _ => 0) ["b1:9092", "b2:9092"] sampleClient [] "2024-01-01T00:00:00Z" (fun _ => 0)
      sampleNativeReport sample_native).2.2.2 (by decide),
    (C4_total_size_is_sum sampleResponse ["b1:9092", "b2:9092"] "2024-01-01T00:00:00Z"
      (fun _ => 0) ["b1:9092", "b2:9092"] sampleClient [] "2024-01-01T00:00:00Z" (fun _ => 0)
      sampleNativeReport sample_native).1⟩

/-- C5. For every report `R` returned by either size collector, `R.Topics` is
sorted descending by `TotalSize`: for all indices `i < j`,
`R.Topics[i].TotalSize ≥ R.Topics[j].TotalSize`; and `R.Topics` is a
permutation of the per-topic records that were aggregated, one per topic that
has a size record: no topic is lost or duplicated by the sort. -/
theorem C5_topics_sorted_permutation (kafkaResponse : KafkaLogDirsResponse)
    (brokers : List String) (now : String) (rnd : Nat → Nat) (brokers2 : List String)
    (client : Except String (List BrokerQuery)) (topicFilter : List String) (now2 : String)
    (rnd2 : Nat → Nat) (R : TopicSizesReport)
    (h : getTopicSizes brokers2 client topicFilter now2 rnd2 = .ok R) :
    ((∀ i j : Fin (convertKafkaLogDirsToReport kafkaResponse brokers now rnd).Topics.length,
        i < j →
          ((convertKafkaLogDirsToReport kafkaResponse brokers now rnd).Topics.get i).TotalSize ≥
            ((convertKafkaLogDirsToReport kafkaResponse brokers now rnd).Topics.get
              j).TotalSize) ∧
      (convertKafkaLogDirsToReport kafkaResponse brokers now rnd).Topics.Perm
        (aggregatedTopics (convertRecords kafkaResponse))) ∧
      ((∀ i j : Fin R.Topics.length, i < j →
          (R.Topics.get i).TotalSize ≥ (R.Topics.get j).TotalSize) ∧
        ∃ brokerIDs, client = .ok brokerIDs ∧
          R.Topics.Perm (aggregatedTopics (nativeRecords brokerIDs topicFilter))) := by
  obtain ⟨hp, hs, -, -, -⟩ := convert_report kafkaResponse brokers now rnd
  obtain ⟨ids, hid, hp2, hs2, -, -, -⟩ :=
    native_report brokers2 client topicFilter now2 rnd2 R h
  exact ⟨⟨List.pairwise_iff_get.mp hs, hp⟩, List.pairwise_iff_get.mp hs2, ids, hid, hp2⟩

/-- Witness of C5 on the sample inputs. -/
theorem C5_topics_sorted_permutation_witness :
    getTopicSizes ["b1:9092", "b2:9092"] sampleClient [] "2024-01-01T00:00:00Z" (fun _ => 0) =
        .ok sampleNativeReport ∧
      (∀ i j : Fin sampleNativeReport.Topics.length, i < j →
        (sampleNativeReport.Topics.get i).TotalSize ≥
          (sampleNativeReport.Topics.get j).TotalSize) ∧
      (convertKafkaLogDirsToReport sampleResponse ["b1:9092", "b2:9092"]
        "2024-01-01T00:00:00Z" (fun _ => 0)).Topics.Perm
        (aggregatedTopics (convertRecords sampleResponse)) :=
  ⟨sample_native,
    (C5_topics_sorted_permutation sampleResponse ["b1:9092", "b2:9092"] "2024-01-01T00:00:00Z"
      (fun _ => 0) ["b1:9092", "b2:9092"] sampleClient [] "2024-01-01T00:00:00Z" (fun _ => 0)
      sampleNativeReport sample_native).2.1,
    (C5_topics_sorted_permutation sampleResponse ["b1:9092", "b2:9092"] "2024-01-01T00:00:00Z"
      (fun _ => 0) ["b1:9092", "b2:9092"] sampleClient [] "2024-01-01T00:00:00Z" (fun _ => 0)
      sampleNativeReport sample_native).1.2⟩

theorem mem_aggregatedTopics {recs : List SizeRecord} {T : TopicSize}
    (h : T ∈ aggregatedTopics recs) :
    T = expectedTopic recs T.Topic ∧ ∃ r ∈ recs, r.topic = T.Topic := by
  unfold aggregatedTopics at h
  obtain ⟨t, ht, rfl⟩ := List.mem_map.mp h
  rw [List.mem_dedup] at ht
  obtain ⟨r, hr, hrt⟩ := List.mem_map.mp ht
  exact ⟨rfl, r, hr, hrt⟩

/-- C6. For every report `R` returned by either size collector,
`R.TotalPartitions` equals the sum of `Partitions` over all entries of
`R.Topics`, and each topic's `Partitions` is the number of distinct partition
numbers among the topic's size records, however many replicas report them. -/
theorem C6_total_partitions_is_sum (kafkaResponse : KafkaLogDirsResponse)
    (brokers : List String) (now : String) (rnd : Nat → Nat) (brokers2 : List String)
    (client : Except String (List BrokerQuery)) (topicFilter : List String) (now2 : String)
    (rnd2 : Nat → Nat) (R : TopicSizesReport)
    (h : getTopicSizes brokers2 client topicFilter now2 rnd2 = .ok R) :
    ((convertKafkaLogDirsToReport kafkaResponse brokers now rnd).TotalPartitions =
        ((convertKafkaLogDirsToReport kafkaResponse brokers now rnd).Topics.map
          fun t => t.Partitions).sum ∧
      ∀ T ∈ (convertKafkaLogDirsToReport kafkaResponse brokers now rnd).Topics,
        T.Partitions = distinctPartitions (convertRecords kafkaResponse) T.Topic) ∧
      (R.TotalPartitions = (R.Topics.map fun t => t.Partitions).sum ∧
        ∃ brokerIDs, client = .ok brokerIDs ∧
          ∀ T ∈ R.Topics,
            T.Partitions = distinctPartitions (nativeRecords brokerIDs topicFilter) T.Topic) := by
  obtain ⟨hp, -, -, hc, -⟩ := convert_report kafkaResponse brokers now rnd
  obtain ⟨ids, hid, hp2, -, -, hn, -⟩ :=
    native_report brokers2 client topicFilter now2 rnd2 R h
  refine ⟨⟨hc, ?_⟩, hn, ids, hid, ?_⟩
  · intro T hT
    have := (mem_aggregatedTopics (hp.subset hT)).1
    rw [this]
    rfl
  · intro T hT
    have := (mem_aggregatedTopics (hp2.subset hT)).1
    rw [this]
    rfl

/-- Witness of C6 on the sample inputs. -/
theorem C6_total_partitions_is_sum_witness :
    getTopicSizes ["b1:9092", "b2:9092"] sampleClient [] "2024-01-01T00:00:00Z" (fun _ => 0) =
        .ok sampleNativeReport ∧
      sampleNativeReport.TotalPartitions =
        (sampleNativeReport.Topics.map fun t => t.Partitions).sum :=
  ⟨sample_native,
    (C6_total_partitions_is_sum sampleResponse ["b1:9092", "b2:9092"] "2024-01-01T00:00:00Z"
      (fun _ => 0) ["b1:9092", "b2:9092"] sampleClient [] "2024-01-01T00:00:00Z" (fun _ => 0)
      sampleNativeReport sample_native).2.1⟩

/-- C7. For every topic `T` in the report of `convertKafkaLogDirsToReport`,
`T.TotalSize` is the sum of `Size` over every decodable partition entry of
that topic in every error-free log dir of every broker, each replica counted
(the `int64` sum, exact whenever the exact sum is an `int64`), and
`T.Partitions` is the number of distinct partition numbers among those
entries, not the number of entries.  In the sample response the two
partitions of `events` reported by three brokers count three times in the
size (450 = 3 * (100 + 50)) and twice in the partition count. -/
theorem C7_topic_size_and_partitions (kafkaResponse : KafkaLogDirsResponse)
    (brokers : List String) (now : String) (rnd : Nat → Nat) (T : TopicSize)
    (hT : T ∈ (convertKafkaLogDirsToReport kafkaResponse brokers now rnd).Topics) :
    T.TotalSize = topicBytes (convertRecords kafkaResponse) T.Topic ∧
      (fitsInt64 (((convertRecords kafkaResponse).filter fun r => r.topic = T.Topic).map
          fun r => r.size).sum →
        T.TotalSize = (((convertRecords kafkaResponse).filter fun r => r.topic = T.Topic).map
          fun r => r.size).sum) ∧
      T.Partitions = distinctPartitions (convertRecords kafkaResponse) T.Topic ∧
      (∃ r ∈ convertRecords kafkaResponse, r.topic = T.Topic) ∧
      (convertKafkaLogDirsToReport sampleResponse ["b1:9092", "b2:9092"]
        "2024-01-01T00:00:00Z" (fun _ => 0)).Topics =
        [{ Topic := "orders", TotalSize := 2048, TotalSizeStr := "2.00 KiB", Partitions := 1 },
         { Topic := "events", TotalSize := 450, TotalSizeStr := "450 B", Partitions := 2 }] := by
  obtain ⟨hp, -, -, -, -⟩ := convert_report kafkaResponse brokers now rnd
  obtain ⟨h1, h2⟩ := mem_aggregatedTopics (hp.subset hT)
  have hsize : T.TotalSize = topicBytes (convertRecords kafkaResponse) T.Topic := by
    conv_lhs => rw [h1]
    rfl
  refine ⟨hsize, ?_, ?_, h2, ?_⟩
  · intro hfit
    rw [hsize]
    exact sumInt64_exact _ hfit
  · conv_lhs => rw [h1]
    rfl
  · rw [sample_convert]
    rfl

/-- Witness of C7: the topic `events` of the sample report. -/
theorem C7_topic_size_and_partitions_witness :
    sampleEvents ∈
      (convertKafkaLogDirsToReport sampleResponse ["b1:9092", "b2:9092"]
        "2024-01-01T00:00:00Z" (fun _ => 0)).Topics ∧
      sampleEvents.TotalSize = topicBytes (convertRecords sampleResponse) sampleEvents.Topic ∧
      sampleEvents.Partitions =
        distinctPartitions (convertRecords sampleResponse) sampleEvents.Topic := by
  have hmem : sampleEvents ∈
      (convertKafkaLogDirsToReport sampleResponse ["b1:9092", "b2:9092"]
        "2024-01-01T00:00:00Z" (fun _ => 0)).Topics := by
    rw [sample_convert]; decide
  exact ⟨hmem,
    (C7_topic_size_and_partitions sampleResponse ["b1:9092", "b2:9092"]
      "2024-01-01T00:00:00Z" (fun _ => 0) sampleEvents hmem).1,
    (C7_topic_size_and_partitions sampleResponse ["b1:9092", "b2:9092"]
      "2024-01-01T00:00:00Z" (fun _ => 0) sampleEvents hmem).2.2.1⟩

/-! ## Claims about the broker metrics -/

/-- The metrics block when the broker list is not empty: the counters of the
brokers are read from maps that satisfy the invariant for the described
partitions. -/
theorem brokerMetrics_nonempty (clusterInfo : KafkaClusterInfo)
    (topics : List (String × TopicDetail))
    (describeTopics : String → Option (List TopicMetadata)) (apiVersions : String → Bool)
    (rnd : Nat → Nat) (hne : clusterInfo.BrokerDetails ≠ []) :
    ∃ st : MetricsState,
      MetricsInv clusterInfo.TotalURPs (describedPartitions (mapRange (rnd 0) topics)
        describeTopics) st ∧
      brokerMetrics clusterInfo topics describeTopics apiVersions rnd =
        { clusterInfo with
          BrokerDetails := clusterInfo.BrokerDetails.map (fillBroker st apiVersions)
          TotalURPs := st.TotalURPs } := by
  have hlen : clusterInfo.BrokerDetails.length > 0 := List.length_pos.mpr hne
  refine ⟨_, MetricsInv_topics clusterInfo.TotalURPs topics describeTopics (rnd 0), ?_⟩
  simp only [brokerMetrics, hlen, if_true]

theorem brokerMetrics_empty (clusterInfo : KafkaClusterInfo)
    (topics : List (String × TopicDetail))
    (describeTopics : String → Option (List TopicMetadata)) (apiVersions : String → Bool)
    (rnd : Nat → Nat) (he : clusterInfo.BrokerDetails = []) :
    brokerMetrics clusterInfo topics describeTopics apiVersions rnd = clusterInfo := by
  simp [brokerMetrics, he]

theorem brokerMetrics_details_eq_nil (clusterInfo : KafkaClusterInfo)
    (topics : List (String × TopicDetail))
    (describeTopics : String → Option (List TopicMetadata)) (apiVersions : String → Bool)
    (rnd : Nat → Nat) :
    (brokerMetrics clusterInfo topics describeTopics apiVersions rnd).BrokerDetails = [] ↔
      clusterInfo.BrokerDetails = [] := by
  by_cases he : clusterInfo.BrokerDetails = []
  · rw [brokerMetrics_empty _ _ _ _ _ he]
  · obtain ⟨st, -, heq⟩ := brokerMetrics_nonempty clusterInfo topics describeTopics
      apiVersions rnd he
    rw [heq]
    simp

theorem mapRange_singleton {α : Type} (seed : Nat) (x : α) : mapRange seed [x] = [x] := by
  simp [mapRange, Nat.mod_one]

theorem scenarioSnapshot_eq (rnd : Nat → Nat) :
    scenarioSnapshot rnd = scenarioSnapshot (fun _ => 0) := by
  simp only [scenarioSnapshot, topologySnapshot, brokerMetrics, scenarioTopics,
    mapRange_singleton]

theorem filter_isURP_perm (topics : List (String × TopicDetail))
    (describeTopics : String → Option (List TopicMetadata)) (seed : Nat) :
    ((describedPartitions (mapRange seed topics) describeTopics).filter isURP).Perm
      ((describedPartitions topics describeTopics).filter isURP) :=
  (describedPartitions_perm topics describeTopics seed).filter _

/-- C8 as stated fails: with an empty broker list (failed metadata request)
the tally stays 0 although the topic `events`, whose describe call would
succeed, has one under-replicated partition. -/
theorem C8_total_urps_counterexample :
    (scenarioWithoutBrokers (fun _ => 0)).TotalURPs = 0 ∧
      ((describedPartitions scenarioTopics scenarioDescribe).filter isURP).length = 1 ∧
      (scenarioWithoutBrokers (fun _ => 0)).TotalURPs ≠
        ((describedPartitions scenarioTopics scenarioDescribe).filter isURP).length := by
  decide

/-- C8 (amended). When the broker list of the snapshot is not empty, the
cluster-wide tally `TotalURPs` equals the number of partitions `p` of the
topics whose describe call succeeds with `|p.Isr| < |p.Replicas|`, each
counted once whatever the number of brokers holding it; when the broker list
is empty the metrics block is skipped and `TotalURPs` is 0.  In the scenario
of the specification `TotalURPs = 1`. -/
theorem C8_total_urps (now : String) (brokerList : List String)
    (metadata : Option (List (Int × String))) (topicInfos : List TopicInfo)
    (topics : List (String × TopicDetail))
    (describeTopics : String → Option (List TopicMetadata)) (apiVersions : String → Bool)
    (rnd : Nat → Nat) :
    ((topologySnapshot now brokerList metadata topicInfos topics describeTopics apiVersions
          rnd).BrokerDetails ≠ [] →
        (topologySnapshot now brokerList metadata topicInfos topics describeTopics apiVersions
          rnd).TotalURPs =
          ((describedPartitions topics describeTopics).filter isURP).length) ∧
      ((topologySnapshot now brokerList metadata topicInfos topics describeTopics apiVersions
          rnd).BrokerDetails = [] →
        (topologySnapshot now brokerList metadata topicInfos topics describeTopics apiVersions
          rnd).TotalURPs = 0) ∧
      ∀ rnd2, (scenarioSnapshot rnd2).TotalURPs = 1 := by
  refine ⟨?_, ?_, ?_⟩
  · intro hne
    unfold topologySnapshot at hne ⊢
    rw [Ne, brokerMetrics_details_eq_nil] at hne
    obtain ⟨st, hinv, heq⟩ := brokerMetrics_nonempty _ topics describeTopics apiVersions rnd hne
    rw [heq]
    have hT := hinv.2.2.2
    have h0 : (withTopics (collectBrokers (newClusterInfo now brokerList) metadata)
        topicInfos).TotalURPs = 0 := by
      cases metadata <;> rfl
    rw [h0, Nat.zero_add] at hT
    rw [show ({ withTopics (collectBrokers (newClusterInfo now brokerList) metadata)
        topicInfos with
        BrokerDetails := (withTopics (collectBrokers (newClusterInfo now brokerList) metadata)
          topicInfos).BrokerDetails.map (fillBroker st apiVersions)
        TotalURPs := st.TotalURPs } : KafkaClusterInfo).TotalURPs = st.TotalURPs from rfl, hT]
    exact (filter_isURP_perm topics describeTopics (rnd 0)).length_eq
  · intro he
    unfold topologySnapshot at he ⊢
    rw [brokerMetrics_details_eq_nil] at he
    rw [brokerMetrics_empty _ _ _ _ _ he]
    cases metadata <;> rfl
  · intro rnd2
    rw [scenarioSnapshot_eq]
    decide

/-- Witness of C8 (amended): the scenario, with and without broker list. -/
theorem C8_total_urps_witness :
    ((scenarioSnapshot (fun _ => 0)).BrokerDetails ≠ [] ∧
        (scenarioSnapshot (fun _ => 0)).TotalURPs =
          ((describedPartitions scenarioTopics scenarioDescribe).filter isURP).length) ∧
      ((scenarioWithoutBrokers (fun _ => 0)).BrokerDetails = [] ∧
        (scenarioWithoutBrokers (fun _ => 0)).TotalURPs = 0) :=
  ⟨⟨by decide,
      (C8_total_urps "2024-01-01T00:00:00Z" ["b1:9092"] scenarioMetadata
        [{ Name := "events", Partitions := 4, ReplicationFactor := 3, TotalMessages := 225,
           Configs := [] }]
        scenarioTopics scenarioDescribe (fun _ => false) (fun _ => 0)).1 (by decide)⟩,
    ⟨by decide,
      (C8_total_urps "2024-01-01T00:00:00Z" ["b1:9092"] none
        [{ Name := "events", Partitions := 4, ReplicationFactor := 3, TotalMessages := 225,
           Configs := [] }]
        scenarioTopics scenarioDescribe (fun _ => false) (fun _ => 0)).2.1 (by decide)⟩⟩

/-- Every broker of the snapshot carries the counters of the metrics maps,
which satisfy the invariant for the described partitions. -/
theorem topologySnapshot_broker (now : String) (brokerList : List String)
    (metadata : Option (List (Int × String))) (topicInfos : List TopicInfo)
    (topics : List (String × TopicDetail))
    (describeTopics : String → Option (List TopicMetadata)) (apiVersions : String → Bool)
    (rnd : Nat → Nat) (b : BrokerInfo)
    (hb : b ∈ (topologySnapshot now brokerList metadata topicInfos topics describeTopics
      apiVersions rnd).BrokerDetails) :
    ∃ st : MetricsState,
      MetricsInv 0 (describedPartitions (mapRange (rnd 0) topics) describeTopics) st ∧
      b.Partitions = (mapGet st.brokerPartitions b.ID).getD 0 ∧
      b.Leaders = (mapGet st.brokerLeaders b.ID).getD 0 ∧
      b.UnderReplicated = (mapGet st.brokerURPs b.ID).getD 0 := by
  unfold topologySnapshot at hb
  have hne : (withTopics (collectBrokers (newClusterInfo now brokerList) metadata)
      topicInfos).BrokerDetails ≠ [] := by
    intro he
    rw [(brokerMetrics_details_eq_nil _ topics describeTopics apiVersions rnd).mpr he] at hb
    simp at hb
  obtain ⟨st, hinv, heq⟩ := brokerMetrics_nonempty _ topics describeTopics apiVersions rnd hne
  have h0 : (withTopics (collectBrokers (newClusterInfo now brokerList) metadata)
      topicInfos).TotalURPs = 0 := by
    cases metadata <;> rfl
  rw [h0] at hinv
  rw [heq] at hb
  obtain ⟨b0, -, rfl⟩ := List.mem_map.mp hb
  exact ⟨st, hinv, rfl, rfl, rfl⟩

/-- C9. For every broker `b` in the snapshot's broker list, `b.UnderReplicated`
equals the number of occurrences of `b.ID` in the replica lists of the
under-replicated partitions (`|Isr| < |Replicas|`) of the described topics,
whether or not `b` is in the ISR; in the scenario of the specification each
of the three replica brokers has `UnderReplicated = 1`. -/
theorem C9_broker_under_replicated (now : String) (brokerList : List String)
    (metadata : Option (List (Int × String))) (topicInfos : List TopicInfo)
    (topics : List (String × TopicDetail))
    (describeTopics : String → Option (List TopicMetadata)) (apiVersions : String → Bool)
    (rnd : Nat → Nat) (b : BrokerInfo)
    (hb : b ∈ (topologySnapshot now brokerList metadata topicInfos topics describeTopics
      apiVersions rnd).BrokerDetails) :
    b.UnderReplicated =
        replicaOccurrences ((describedPartitions topics describeTopics).filter isURP) b.ID ∧
      ∀ rnd2, (scenarioSnapshot rnd2).BrokerDetails.map (fun x => (x.ID, x.UnderReplicated)) =
        [(1, 1), (2, 1), (3, 1)] := by
  obtain ⟨st, hinv, -, -, hU⟩ := topologySnapshot_broker now brokerList metadata topicInfos
    topics describeTopics apiVersions rnd b hb
  refine ⟨?_, ?_⟩
  · rw [hU, hinv.2.2.1]
    exact replicaOccurrences_perm (filter_isURP_perm topics describeTopics (rnd 0)) b.ID
  · intro rnd2
    rw [scenarioSnapshot_eq]
    decide

/-- Witness of C9: broker 2 of the scenario, which is not in the ISR of the
under-replicated partition. -/
theorem C9_broker_under_replicated_witness :
    ({ ID := 2, Address := "b2:9092", Version := "Unknown", Partitions := 4, Leaders := 1,
       UnderReplicated := 1 } : BrokerInfo) ∈ (scenarioSnapshot (fun _ => 0)).BrokerDetails ∧
      (1 : Nat) =
        replicaOccurrences ((describedPartitions scenarioTopics scenarioDescribe).filter isURP)
          2 :=
  ⟨by decide,
    (C9_broker_under_replicated "2024-01-01T00:00:00Z" ["b1:9092"] scenarioMetadata
      [{ Name := "events", Partitions := 4, ReplicationFactor := 3, TotalMessages := 225,
         Configs := [] }]
      scenarioTopics scenarioDescribe (fun _ => false) (fun _ => 0)
      { ID := 2, Address := "b2:9092", Version := "Unknown", Partitions := 4, Leaders := 1,
        UnderReplicated := 1 } (by decide)).1⟩

/-- C10. For every broker `b` in the snapshot's broker list, `b.Partitions`
equals the total number of occurrences of `b.ID` in the replica lists of all
partitions of all successfully described topics, so a partition with
replication factor 3 on three distinct brokers adds 1 to each of them; in the
scenario each broker hosts the four partitions. -/
theorem C10_broker_partitions (now : String) (brokerList : List String)
    (metadata : Option (List (Int × String))) (topicInfos : List TopicInfo)
    (topics : List (String × TopicDetail))
    (describeTopics : String → Option (List TopicMetadata)) (apiVersions : String → Bool)
    (rnd : Nat → Nat) (b : BrokerInfo)
    (hb : b ∈ (topologySnapshot now brokerList metadata topicInfos topics describeTopics
      apiVersions rnd).BrokerDetails) :
    b.Partitions = replicaOccurrences (describedPartitions topics describeTopics) b.ID ∧
      (∀ (p : PartitionMetadata) (x y z : Int), p.Replicas = [x, y, z] → x ≠ y → x ≠ z →
        y ≠ z → replicaOccurrences [p] x = 1 ∧ replicaOccurrences [p] y = 1 ∧
          replicaOccurrences [p] z = 1) ∧
      ∀ rnd2, (scenarioSnapshot rnd2).BrokerDetails.map (fun x => (x.ID, x.Partitions)) =
        [(1, 4), (2, 4), (3, 4)] := by
  obtain ⟨st, hinv, hP, -, -⟩ := topologySnapshot_broker now brokerList metadata topicInfos
    topics describeTopics apiVersions rnd b hb
  refine ⟨?_, ?_, ?_⟩
  · rw [hP, hinv.1]
    exact replicaOccurrences_perm (describedPartitions_perm topics describeTopics (rnd 0)) b.ID
  · intro p x y z hp hxy hxz hyz
    simp [replicaOccurrences, hp, List.count_cons, hxy, hxz, hyz, Ne.symm hxy, Ne.symm hxz,
      Ne.symm hyz]
  · intro rnd2
    rw [scenarioSnapshot_eq]
    decide

/-- Witness of C10: broker 3 of the scenario. -/
theorem C10_broker_partitions_witness :
    ({ ID := 3, Address := "b3:9092", Version := "Unknown", Partitions := 4, Leaders := 1,
       UnderReplicated := 1 } : BrokerInfo) ∈ (scenarioSnapshot (fun _ => 0)).BrokerDetails ∧
      (4 : Nat) = replicaOccurrences (describedPartitions scenarioTopics scenarioDescribe) 3 :=
  ⟨by decide,
    (C10_broker_partitions "2024-01-01T00:00:00Z" ["b1:9092"] scenarioMetadata
      [{ Name := "events", Partitions := 4, ReplicationFactor := 3, TotalMessages := 225,
         Configs := [] }]
      scenarioTopics scenarioDescribe (fun _ => false) (fun _ => 0)
      { ID := 3, Address := "b3:9092", Version := "Unknown", Partitions := 4, Leaders := 1,
        UnderReplicated := 1 } (by decide)).1⟩

/-! ## Claims about the leader counters -/

theorem mapIncr_sum {K : Type} [DecidableEq K] (m : List (K × Nat)) (k : K) :
    ((mapIncr m k).map Prod.snd).sum = (m.map Prod.snd).sum + 1 := by
  induction m with
  | nil => simp [mapIncr, mapSet, mapGet]
  | cons e m ih =>
    obtain ⟨k1, v1⟩ := e
    by_cases h : k1 = k
    · simp [mapIncr, mapSet, mapGet, h]
      omega
    · have e1 : mapIncr ((k1, v1) :: m) k = (k1, v1) :: mapIncr m k := by
        simp [mapIncr, mapSet, mapGet, h]
      rw [e1]
      simp only [List.map_cons, List.sum_cons, ih]
      omega

theorem countPartition_leaders_sum (parts : List PartitionMetadata) (st : MetricsState)
    (p : PartitionMetadata)
    (hi : (st.brokerLeaders.map Prod.snd).sum =
      (parts.filter fun q => decide (q.Leader ≥ 0)).length) :
    ((countPartition st p).brokerLeaders.map Prod.snd).sum =
      ((parts ++ [p]).filter fun q => decide (q.Leader ≥ 0)).length := by
  by_cases hl : p.Leader ≥ 0 <;> by_cases hu : p.Isr.length < p.Replicas.length <;>
    simp [countPartition, hl, hu, List.filter_append, List.filter_cons, mapIncr_sum, hi]

/-- The sum of all leader counters after the loop over the topics is the
number of described partitions that have a leader. -/
theorem metricsCounters_leaders_sum (base : Nat) (topics : List (String × TopicDetail))
    (describeTopics : String → Option (List TopicMetadata)) (rnd : Nat → Nat) :
    ((metricsCounters base topics describeTopics rnd).brokerLeaders.map Prod.snd).sum =
      ((describedPartitions topics describeTopics).filter
        fun q => decide (q.Leader ≥ 0)).length := by
  have hstep : ∀ (parts : List PartitionMetadata) (st : MetricsState) (topicName : String),
      (st.brokerLeaders.map Prod.snd).sum =
        (parts.filter fun q => decide (q.Leader ≥ 0)).length →
      ((countTopic describeTopics st topicName).brokerLeaders.map Prod.snd).sum =
        ((parts ++ ((describeTopics topicName).getD []).flatMap
          fun topicMeta => topicMeta.Partitions).filter
          fun q => decide (q.Leader ≥ 0)).length := by
    intro parts st topicName hi
    unfold countTopic
    cases h : describeTopics topicName with
    | none => simpa using hi
    | some metas =>
      simp only [Option.getD_some]
      refine foldl_invariant
        (fun (ps : List PartitionMetadata) (s : MetricsState) =>
          (s.brokerLeaders.map Prod.snd).sum =
            (ps.filter fun q => decide (q.Leader ≥ 0)).length)
        (fun st (topicMeta : TopicMetadata) => topicMeta.Partitions.foldl countPartition st)
        (fun topicMeta => topicMeta.Partitions) ?_ metas parts st hi
      intro recs st2 topicMeta hi2
      have := foldl_invariant
        (fun (ps : List PartitionMetadata) (s : MetricsState) =>
          (s.brokerLeaders.map Prod.snd).sum =
            (ps.filter fun q => decide (q.Leader ≥ 0)).length)
        countPartition (fun p => [p]) countPartition_leaders_sum topicMeta.Partitions recs st2 hi2
      rwa [flatMap_singleton_id] at this
  have h := foldl_invariant
    (fun (ps : List PartitionMetadata) (s : MetricsState) =>
      (s.brokerLeaders.map Prod.snd).sum =
        (ps.filter fun q => decide (q.Leader ≥ 0)).length)
    (countTopic describeTopics) _ hstep ((mapRange (rnd 0) topics).map Prod.fst) []
    { brokerPartitions := [], brokerLeaders := [], brokerURPs := [], TotalURPs := base }
    (by simp)
  have h2 : ((metricsCounters base topics describeTopics rnd).brokerLeaders.map Prod.snd).sum =
      ((describedPartitions (mapRange (rnd 0) topics) describeTopics).filter
        fun q => decide (q.Leader ≥ 0)).length := by
    simpa [describedPartitions, List.flatMap_map, metricsCounters] using h
  rw [h2]
  exact ((describedPartitions_perm topics describeTopics (rnd 0)).filter _).length_eq

/-- Every broker of the snapshot carries the leader counter of its id in the
counter map of the metrics block. -/
theorem topologySnapshot_leaders (now : String) (brokerList : List String)
    (metadata : Option (List (Int × String))) (topicInfos : List TopicInfo)
    (topics : List (String × TopicDetail))
    (describeTopics : String → Option (List TopicMetadata)) (apiVersions : String → Bool)
    (rnd : Nat → Nat) (b : BrokerInfo)
    (hb : b ∈ (topologySnapshot now brokerList metadata topicInfos topics describeTopics
      apiVersions rnd).BrokerDetails) :
    b.Leaders =
      (mapGet (metricsCounters 0 topics describeTopics rnd).brokerLeaders b.ID).getD 0 := by
  unfold topologySnapshot at hb
  have hne : (withTopics (collectBrokers (newClusterInfo now brokerList) metadata)
      topicInfos).BrokerDetails ≠ [] := by
    intro he
    rw [(brokerMetrics_details_eq_nil _ topics describeTopics apiVersions rnd).mpr he] at hb
    simp at hb
  have hlen : (withTopics (collectBrokers (newClusterInfo now brokerList) metadata)
      topicInfos).BrokerDetails.length > 0 := List.length_pos.mpr hne
  have h0 : (withTopics (collectBrokers (newClusterInfo now brokerList) metadata)
      topicInfos).TotalURPs = 0 := by
    cases metadata <;> rfl
  simp only [brokerMetrics, hlen, if_true, h0] at hb
  obtain ⟨b0, -, rfl⟩ := List.mem_map.mp hb
  rfl

/-- C11. For every broker `b` in the snapshot's broker list, `b.Leaders` is
the number of described partitions whose leader is elected (`Leader ≥ 0`) and
equal to `b.ID`; for a broker id `≥ 0` that is the number of described
partitions whose `Leader` equals `b.ID`.  A partition whose leader id is
negative changes no leader counter, and the sum of all leader counters equals
the number of described partitions with `Leader ≥ 0`. -/
theorem C11_broker_leaders (now : String) (brokerList : List String)
    (metadata : Option (List (Int × String))) (topicInfos : List TopicInfo)
    (topics : List (String × TopicDetail))
    (describeTopics : String → Option (List TopicMetadata)) (apiVersions : String → Bool)
    (rnd : Nat → Nat) (b : BrokerInfo)
    (hb : b ∈ (topologySnapshot now brokerList metadata topicInfos topics describeTopics
      apiVersions rnd).BrokerDetails) :
    b.Leaders = ((describedPartitions topics describeTopics).filter
        fun p => decide (p.Leader ≥ 0 ∧ p.Leader = b.ID)).length ∧
      (0 ≤ b.ID → b.Leaders = ((describedPartitions topics describeTopics).filter
        fun p => decide (p.Leader = b.ID)).length) ∧
      b.Leaders =
        (mapGet (metricsCounters 0 topics describeTopics rnd).brokerLeaders b.ID).getD 0 ∧
      (∀ (st : MetricsState) (p : PartitionMetadata), p.Leader < 0 →
        (countPartition st p).brokerLeaders = st.brokerLeaders) ∧
      ((metricsCounters 0 topics describeTopics rnd).brokerLeaders.map Prod.snd).sum =
        ((describedPartitions topics describeTopics).filter
          fun p => decide (p.Leader ≥ 0)).length ∧
      ∀ rnd2, (scenarioSnapshot rnd2).BrokerDetails.map (fun x => (x.ID, x.Leaders)) =
        [(1, 2), (2, 1), (3, 1)] := by
  obtain ⟨st, hinv, -, hL, -⟩ := topologySnapshot_broker now brokerList metadata topicInfos
    topics describeTopics apiVersions rnd b hb
  have h1 : b.Leaders = ((describedPartitions topics describeTopics).filter
      fun p => decide (p.Leader ≥ 0 ∧ p.Leader = b.ID)).length := by
    rw [hL, hinv.2.1]
    exact ((describedPartitions_perm topics describeTopics (rnd 0)).filter _).length_eq
  refine ⟨h1, ?_, topologySnapshot_leaders now brokerList metadata topicInfos topics
    describeTopics apiVersions rnd b hb, ?_, metricsCounters_leaders_sum 0 topics describeTopics
    rnd, ?_⟩
  · intro hid
    rw [h1]
    congr 1
    apply List.filter_congr
    intro p _
    by_cases hp : p.Leader = b.ID
    · simp [hp, hid]
    · simp [hp]
  · intro st p hp
    have hl : ¬ p.Leader ≥ 0 := by omega
    by_cases hu : p.Isr.length < p.Replicas.length <;> simp [countPartition, hl, hu]
  · intro rnd2
    rw [scenarioSnapshot_eq]
    decide

/-- Witness of C11: broker 1 of the scenario leads partitions 0 and 3. -/
theorem C11_broker_leaders_witness :
    ({ ID := 1, Address := "b1:9092", Version := "Unknown", Partitions := 4, Leaders := 2,
       UnderReplicated := 1 } : BrokerInfo) ∈ (scenarioSnapshot (fun _ => 0)).BrokerDetails ∧
      (2 : Nat) = ((describedPartitions scenarioTopics scenarioDescribe).filter
        fun p => decide (p.Leader = 1)).length :=
  ⟨by decide,
    (C11_broker_leaders "2024-01-01T00:00:00Z" ["b1:9092"] scenarioMetadata
      [{ Name := "events", Partitions := 4, ReplicationFactor := 3, TotalMessages := 225,
         Configs := [] }]
      scenarioTopics scenarioDescribe (fun _ => false) (fun _ => 0)
      { ID := 1, Address := "b1:9092", Version := "Unknown", Partitions := 4, Leaders := 2,
        UnderReplicated := 1 } (by decide)).2.1 (by decide)⟩

/-! ### The offset snapshot -/

theorem sortSlice_partitionLess_sorted (seed : Nat) (l : List PartitionOffset) :
    (sortSlice seed partitionLess l).Pairwise (fun a b => a.Partition ≤ b.Partition) := by
  have hr : (fun a b : PartitionOffset => partitionLess b a = false) =
      (fun a b : PartitionOffset => a.Partition ≤ b.Partition) := by
    funext a b
    simp [partitionLess]
  haveI : IsTotal PartitionOffset (fun a b : PartitionOffset => partitionLess b a = false) := by
    rw [hr]; exact ⟨fun a b => le_total a.Partition b.Partition⟩
  haveI : IsTrans PartitionOffset (fun a b : PartitionOffset => partitionLess b a = false) := by
    rw [hr]; exact ⟨fun a b c h1 h2 => le_trans h1 h2⟩
  have h := List.sorted_insertionSort (fun a b : PartitionOffset => partitionLess b a = false)
    (mapRange seed l)
  unfold List.Sorted at h
  unfold sortSlice
  refine h.imp ?_
  intro a b hab
  simpa [partitionLess] using hab

theorem sortedPartitionOffsets_perm (s1 s2 : Nat) (block : OffsetBlock) :
    (sortedPartitionOffsets s1 s2 block).Perm
      (block.entries.map fun e =>
        ({ Partition := e.1, Offset := e.2, Timestamp := 0, Lag := 0 } : PartitionOffset)) :=
  (sortSlice_perm _ _ _).trans ((mapRange_perm block.entries s1).map _)

/-- The offset list of a block is strictly ascending by partition number. -/
theorem sortedPartitionOffsets_strict (s1 s2 : Nat) (block : OffsetBlock) :
    (sortedPartitionOffsets s1 s2 block).Pairwise (fun a b => a.Partition < b.Partition) := by
  have hle := sortSlice_partitionLess_sorted s2
    ((mapRange s1 block.entries).map fun e =>
      ({ Partition := e.1, Offset := e.2, Timestamp := 0, Lag := 0 } : PartitionOffset))
  have hp := (sortedPartitionOffsets_perm s1 s2 block).map fun po => po.Partition
  have hnd : ((sortedPartitionOffsets s1 s2 block).map fun po => po.Partition).Nodup := by
    rw [hp.nodup_iff]
    have e : ((block.entries.map fun e =>
        ({ Partition := e.1, Offset := e.2, Timestamp := 0, Lag := 0 } : PartitionOffset)).map
          fun po => po.Partition) = block.entries.map Prod.fst := by
      rw [List.map_map]; rfl
    rw [e]
    exact block.nodup
  have hne : (sortedPartitionOffsets s1 s2 block).Pairwise
      (fun a b => a.Partition ≠ b.Partition) := List.pairwise_map.mp hnd
  exact (hle.and hne).imp fun h => lt_of_le_of_ne h.1 h.2

/-- The offset list of a block does not depend on the order in which the
block is visited nor on the choices of the sort. -/
theorem sortedPartitionOffsets_eq (s1 s2 s3 s4 : Nat) (block : OffsetBlock) :
    sortedPartitionOffsets s1 s2 block = sortedPartitionOffsets s3 s4 block := by
  haveI : IsAntisymm PartitionOffset (fun a b => a.Partition < b.Partition) :=
    ⟨fun a b h1 h2 => absurd h1 (not_lt.mpr (le_of_lt h2))⟩
  exact List.eq_of_perm_of_sorted
    ((sortedPartitionOffsets_perm s1 s2 block).trans (sortedPartitionOffsets_perm s3 s4 block).symm)
    (sortedPartitionOffsets_strict s1 s2 block) (sortedPartitionOffsets_strict s3 s4 block)

theorem sortedPartitionOffsets_length (s1 s2 : Nat) (block : OffsetBlock) :
    (sortedPartitionOffsets s1 s2 block).length = block.entries.length := by
  rw [(sortedPartitionOffsets_perm s1 s2 block).length_eq, List.length_map]

theorem fetchTopic_seed (listOffsets : String → String → Option (List (String × OffsetBlock)))
    (groupName : String) (s1 s2 : Nat) (m : List (String × List PartitionOffset))
    (topic : String) :
    fetchTopic listOffsets groupName s1 s2 m topic =
      fetchTopic listOffsets groupName 0 0 m topic := by
  unfold fetchTopic
  cases h1 : listOffsets groupName topic with
  | none => rfl
  | some blocks =>
    simp only []
    cases h2 : mapGet blocks topic with
    | none => rfl
    | some block =>
      simp only [sortedPartitionOffsets_eq s1 s2 0 0 block]

/-- The loop over the topics of a group is a fold that does not depend on the
chosen orders. -/
theorem fetchTopics_eq (listOffsets : String → String → Option (List (String × OffsetBlock)))
    (rnd : Nat → Nat → Nat → Nat) (groupName : String) (i : Nat) (topics : List String) :
    ∀ (j : Nat) (m : List (String × List PartitionOffset)),
      fetchTopics listOffsets rnd groupName i j topics m =
        topics.foldl (fetchTopic listOffsets groupName 0 0) m := by
  induction topics with
  | nil => intro j m; rfl
  | cons t rest ih =>
    intro j m
    simp only [fetchTopics, List.foldl_cons]
    rw [ih, fetchTopic_seed]

theorem fetchTopic_not_fetched
    (listOffsets : String → String → Option (List (String × OffsetBlock)))
    (groupName : String) (m : List (String × List PartitionOffset)) (topic : String)
    (h : topicFetched listOffsets groupName topic = false) :
    fetchTopic listOffsets groupName 0 0 m topic = m := by
  unfold topicFetched at h
  unfold fetchTopic
  cases h1 : listOffsets groupName topic with
  | none => rfl
  | some blocks =>
    simp only [h1] at h
    simp only []
    cases h2 : mapGet blocks topic with
    | none => rfl
    | some block =>
      simp only [h2, decide_eq_false_iff_not, not_not] at h
      have hlen : (sortedPartitionOffsets 0 0 block).length = 0 := by
        rw [sortedPartitionOffsets_length, h]; rfl
      simp [hlen]

theorem fetchTopic_fetched
    (listOffsets : String → String → Option (List (String × OffsetBlock)))
    (groupName : String) (m : List (String × List PartitionOffset)) (topic : String)
    (h : topicFetched listOffsets groupName topic = true) :
    ∃ block, offsetBlockOf listOffsets groupName topic = some block ∧ block.entries ≠ [] ∧
      fetchTopic listOffsets groupName 0 0 m topic =
        mapSet m topic (sortedPartitionOffsets 0 0 block) := by
  unfold topicFetched at h
  unfold fetchTopic offsetBlockOf
  cases h1 : listOffsets groupName topic with
  | none => simp [h1] at h
  | some blocks =>
    simp only [h1] at h
    simp only []
    cases h2 : mapGet blocks topic with
    | none => simp [h2] at h
    | some block =>
      simp only [h2, decide_eq_true_eq] at h
      refine ⟨block, rfl, h, ?_⟩
      have hlen : (sortedPartitionOffsets 0 0 block).length > 0 := by
        rw [sortedPartitionOffsets_length]
        exact List.length_pos.mpr h
      simp [hlen]

theorem topicFetched_iff (listOffsets : String → String → Option (List (String × OffsetBlock)))
    (groupName topic : String) :
    topicFetched listOffsets groupName topic = true ↔
      ∃ block, offsetBlockOf listOffsets groupName topic = some block ∧ block.entries ≠ [] := by
  unfold topicFetched offsetBlockOf
  cases h1 : listOffsets groupName topic with
  | none => simp
  | some blocks =>
    simp only []
    cases h2 : mapGet blocks topic with
    | none => simp
    | some block => simp

/-- The topic map after a run of the topic loop from the map `m`: the keys
are those of `m` and the fetched topics, and every fetched topic holds the
offset list of its block. -/
theorem foldl_fetchTopic (listOffsets : String → String → Option (List (String × OffsetBlock)))
    (groupName : String) (topics : List String) :
    ∀ m : List (String × List PartitionOffset),
      (∀ t, t ∈ (topics.foldl (fetchTopic listOffsets groupName 0 0) m).map Prod.fst ↔
        t ∈ m.map Prod.fst ∨ (t ∈ topics ∧ topicFetched listOffsets groupName t = true)) ∧
      (∀ t, mapGet (topics.foldl (fetchTopic listOffsets groupName 0 0) m) t =
        if t ∈ topics ∧ topicFetched listOffsets groupName t = true then
          (offsetBlockOf listOffsets groupName t).map (sortedPartitionOffsets 0 0)
        else mapGet m t) ∧
      ((m.map Prod.fst).Nodup →
        ((topics.foldl (fetchTopic listOffsets groupName 0 0) m).map Prod.fst).Nodup) := by
  induction topics with
  | nil => intro m; simp
  | cons x rest ih =>
    intro m
    obtain ⟨ih1, ih2, ih3⟩ := ih (fetchTopic listOffsets groupName 0 0 m x)
    simp only [List.foldl_cons]
    by_cases hx : topicFetched listOffsets groupName x = true
    · obtain ⟨block, hb, hne, hstep⟩ := fetchTopic_fetched listOffsets groupName m x hx
      rw [hstep] at ih1 ih2 ih3 ⊢
      refine ⟨?_, ?_, ?_⟩
      · intro t
        rw [ih1, mem_keys_mapSet]
        constructor
        · rintro ((rfl | h) | ⟨h1, h2⟩)
          · exact Or.inr ⟨List.mem_cons_self _ _, hx⟩
          · exact Or.inl h
          · exact Or.inr ⟨List.mem_cons_of_mem _ h1, h2⟩
        · rintro (h | ⟨h1, h2⟩)
          · exact Or.inl (Or.inr h)
          · rcases List.mem_cons.mp h1 with rfl | h3
            · exact Or.inl (Or.inl rfl)
            · exact Or.inr ⟨h3, h2⟩
      · intro t
        rw [ih2, mapGet_mapSet]
        by_cases ht : t ∈ rest ∧ topicFetched listOffsets groupName t = true
        · have ht2 : t ∈ x :: rest ∧ topicFetched listOffsets groupName t = true :=
            ⟨List.mem_cons_of_mem _ ht.1, ht.2⟩
          simp only [ht, ht2, and_self, if_true]
        · by_cases hxt : x = t
          · subst hxt
            have ht2 : x ∈ x :: rest ∧ topicFetched listOffsets groupName x = true :=
              ⟨List.mem_cons_self _ _, hx⟩
            simp only [ht2, and_self, if_true, hb, Option.map_some']
            split <;> rfl
          · have ht2 : ¬ (t ∈ x :: rest ∧ topicFetched listOffsets groupName t = true) := by
              rintro ⟨h1, h2⟩
              rcases List.mem_cons.mp h1 with rfl | h3
              · exact hxt rfl
              · exact ht ⟨h3, h2⟩
            simp only [ht, ht2, if_false, hxt]
      · intro hnd
        exact ih3 (nodup_keys_mapSet _ _ _ hnd)
    · have hxf : topicFetched listOffsets groupName x = false := by
        cases h : topicFetched listOffsets groupName x with
        | true => exact absurd h hx
        | false => rfl
      rw [fetchTopic_not_fetched listOffsets groupName m x hxf] at ih1 ih2 ih3 ⊢
      refine ⟨?_, ?_, ih3⟩
      · intro t
        rw [ih1]
        constructor
        · rintro (h | ⟨h1, h2⟩)
          · exact Or.inl h
          · exact Or.inr ⟨List.mem_cons_of_mem _ h1, h2⟩
        · rintro (h | ⟨h1, h2⟩)
          · exact Or.inl h
          · rcases List.mem_cons.mp h1 with rfl | h3
            · rw [hxf] at h2; exact absurd h2 (by simp)
            · exact Or.inr ⟨h3, h2⟩
      · intro t
        rw [ih2]
        by_cases ht : t ∈ rest ∧ topicFetched listOffsets groupName t = true
        · have ht2 : t ∈ x :: rest ∧ topicFetched listOffsets groupName t = true :=
            ⟨List.mem_cons_of_mem _ ht.1, ht.2⟩
          simp only [ht, ht2, and_self, if_true]
        · have ht2 : ¬ (t ∈ x :: rest ∧ topicFetched listOffsets groupName t = true) := by
            rintro ⟨h1, h2⟩
            rcases List.mem_cons.mp h1 with rfl | h3
            · rw [hxf] at h2; exact absurd h2 (by simp)
            · exact ht ⟨h3, h2⟩
          simp only [ht, ht2, if_false]

theorem expectedTopics_keys (listOffsets : String → String → Option (List (String × OffsetBlock)))
    (group : ConsumerGroupInfo) (t : String) :
    t ∈ (expectedTopics listOffsets group).map Prod.fst ↔
      t ∈ group.Topics ∧ topicFetched listOffsets group.Name t = true := by
  have h := (foldl_fetchTopic listOffsets group.Name group.Topics []).1 t
  simpa [expectedTopics] using h

theorem expectedTopics_nodup (listOffsets : String → String → Option (List (String × OffsetBlock)))
    (group : ConsumerGroupInfo) : ((expectedTopics listOffsets group).map Prod.fst).Nodup :=
  (foldl_fetchTopic listOffsets group.Name group.Topics []).2.2 (by simp)

theorem expectedTopics_get (listOffsets : String → String → Option (List (String × OffsetBlock)))
    (group : ConsumerGroupInfo) (t : String) :
    mapGet (expectedTopics listOffsets group) t =
      if t ∈ group.Topics ∧ topicFetched listOffsets group.Name t = true then
        (offsetBlockOf listOffsets group.Name t).map (sortedPartitionOffsets 0 0)
      else none := by
  have h := (foldl_fetchTopic listOffsets group.Name group.Topics []).2.1 t
  simpa [expectedTopics, mapGet] using h

theorem expectedTopics_length (listOffsets : String → String → Option (List (String × OffsetBlock)))
    (group : ConsumerGroupInfo) :
    (expectedTopics listOffsets group).length > 0 ↔ groupKept listOffsets group = true := by
  unfold groupKept
  rw [List.any_eq_true]
  constructor
  · intro h
    have hne : (expectedTopics listOffsets group).map Prod.fst ≠ [] := by
      intro h0
      have := congrArg List.length h0
      simp only [List.length_map, List.length_nil] at this
      omega
    obtain ⟨t, ht⟩ := List.exists_mem_of_ne_nil _ hne
    exact ⟨t, (expectedTopics_keys listOffsets group t).mp ht⟩
  · rintro ⟨t, h1, h2⟩
    have ht := (expectedTopics_keys listOffsets group t).mpr ⟨h1, h2⟩
    have := List.length_pos_of_mem ht
    simpa using this

/-- The group loop in closed form: without time stamps, the groups appended
are the kept groups in input order, each with its topic map, whatever the
clock and the chosen orders. -/
theorem fetchGroups_erase (listOffsets : String → String → Option (List (String × OffsetBlock)))
    (clock : Nat → String) (rnd : Nat → Nat → Nat → Nat) (groups : List ConsumerGroupInfo) :
    ∀ (i : Nat) (acc : List ConsumerGroupOffsets),
      (fetchGroups listOffsets clock rnd i groups acc).map (fun g => { g with Timestamp := "" }) =
        acc.map (fun g => { g with Timestamp := "" }) ++ expectedGroups listOffsets groups := by
  induction groups with
  | nil => intro i acc; simp [fetchGroups, expectedGroups]
  | cons g rest ih =>
    intro i acc
    have hT : fetchTopics listOffsets rnd g.Name i 0 g.Topics [] = expectedTopics listOffsets g :=
      fetchTopics_eq listOffsets rnd g.Name i g.Topics 0 []
    unfold fetchGroups
    by_cases h0 : g.Topics.length = 0
    · have hk : groupKept listOffsets g = false := by
        have : g.Topics = [] := List.length_eq_zero.mp h0
        simp [groupKept, this]
      simp only [h0, if_true]
      rw [ih]
      simp [expectedGroups, List.filter_cons, hk]
    · simp only [h0, if_false, hT]
      by_cases hk : groupKept listOffsets g = true
      · have hlen := (expectedTopics_length listOffsets g).mpr hk
        simp only [hlen, if_true]
        rw [ih]
        simp [expectedGroups, List.filter_cons, hk]
      · have hlen : ¬ (expectedTopics listOffsets g).length > 0 := fun h =>
          hk ((expectedTopics_length listOffsets g).mp h)
        simp only [hlen, if_false]
        rw [ih]
        simp [expectedGroups, List.filter_cons, hk]

/-- `fetchConsumerOffsets` always returns a backup, and without time stamps
the backup is a function of the group list, the cluster name and the answers
of the offset listing alone. -/
theorem fetchConsumerOffsets_closed
    (listOffsets : String → String → Option (List (String × OffsetBlock)))
    (groups : List ConsumerGroupInfo) (cluster : String) (clock : Nat → String)
    (rnd : Nat → Nat → Nat → Nat) :
    ∃ B, fetchConsumerOffsets listOffsets groups cluster clock rnd = .ok B ∧
      eraseTimestamps B =
        { Timestamp := "", Cluster := cluster,
          ConsumerGroups := expectedGroups listOffsets groups } := by
  refine ⟨_, rfl, ?_⟩
  have h := fetchGroups_erase listOffsets clock rnd groups 0 []
  simp only [List.map_nil, List.nil_append] at h
  simp only [eraseTimestamps, h]

/-- Every group of the backup comes from a kept input group and carries its
name and topic map. -/
theorem mem_backup_groups {B : ConsumerOffsetsBackup} {cluster : String}
    {listOffsets : String → String → Option (List (String × OffsetBlock))}
    {groups : List ConsumerGroupInfo}
    (hB : eraseTimestamps B =
      { Timestamp := "", Cluster := cluster,
        ConsumerGroups := expectedGroups listOffsets groups })
    {g : ConsumerGroupOffsets} (hg : g ∈ B.ConsumerGroups) :
    ∃ g0 ∈ groups, groupKept listOffsets g0 = true ∧ g.Group = g0.Name ∧
      g.Topics = expectedTopics listOffsets g0 := by
  have h1 : (eraseTimestamps B).ConsumerGroups = expectedGroups listOffsets groups := by
    rw [hB]
  have h2 : ({ g with Timestamp := "" } : ConsumerGroupOffsets) ∈
      (eraseTimestamps B).ConsumerGroups :=
    List.mem_map.mpr ⟨g, hg, rfl⟩
  rw [h1] at h2
  unfold expectedGroups at h2
  obtain ⟨g0, hg0, heq⟩ := List.mem_map.mp h2
  obtain ⟨hin, hk⟩ := List.mem_filter.mp hg0
  have e1 := congrArg ConsumerGroupOffsets.Group heq
  have e2 := congrArg ConsumerGroupOffsets.Topics heq
  exact ⟨g0, hin, hk, e1.symm, e2.symm⟩

theorem fetchGroups_rnd (listOffsets : String → String → Option (List (String × OffsetBlock)))
    (clock : Nat → String) (rnd1 rnd2 : Nat → Nat → Nat → Nat)
    (groups : List ConsumerGroupInfo) :
    ∀ (i : Nat) (acc : List ConsumerGroupOffsets),
      fetchGroups listOffsets clock rnd1 i groups acc =
        fetchGroups listOffsets clock rnd2 i groups acc := by
  induction groups with
  | nil => intro i acc; rfl
  | cons g rest ih =>
    intro i acc
    unfold fetchGroups
    simp only [fetchTopics_eq, ih]

theorem foldl_fetchTopic_filter
    (listOffsets : String → String → Option (List (String × OffsetBlock)))
    (groupName : String) (topics : List String) :
    ∀ m : List (String × List PartitionOffset),
      topics.foldl (fetchTopic listOffsets groupName 0 0) m =
        (topics.filter (topicFetched listOffsets groupName)).foldl
          (fetchTopic listOffsets groupName 0 0) m := by
  induction topics with
  | nil => intro m; rfl
  | cons x rest ih =>
    intro m
    cases hx : topicFetched listOffsets groupName x with
    | true => simp only [List.foldl_cons, List.filter_cons, hx, if_true, ih]
    | false =>
      simp only [List.foldl_cons, List.filter_cons, hx, Bool.false_eq_true, if_false,
        fetchTopic_not_fetched listOffsets groupName m x hx, ih]

/-! ## Claims about the offset snapshot -/

/-- C12. For every group and topic kept in the snapshot built by
`fetchConsumerOffsets`, the topic's list is sorted strictly ascending by
partition number and holds exactly the (partition, offset) pairs of the
fetched offset block, one per partition, whatever the clock and the chosen
orders; for group `svc` on topic `events` with committed offsets
0:100, 1:50, 2:75, 3:0 the list is [(0,100),(1,50),(2,75),(3,0)]. -/
theorem C12_offset_lists_sorted
    (listOffsets : String → String → Option (List (String × OffsetBlock)))
    (groups : List ConsumerGroupInfo) (cluster : String) (clock : Nat → String)
    (rnd : Nat → Nat → Nat → Nat) :
    (∃ B, fetchConsumerOffsets listOffsets groups cluster clock rnd = .ok B ∧
      ∀ g ∈ B.ConsumerGroups, ∀ e ∈ g.Topics,
        ∃ block, offsetBlockOf listOffsets g.Group e.1 = some block ∧
          e.2.Pairwise (fun a b => a.Partition < b.Partition) ∧
          (e.2.map fun po => (po.Partition, po.Offset)).Perm block.entries) ∧
      ∃ S, fetchConsumerOffsets scenarioOffsets scenarioGroups cluster clock rnd = .ok S ∧
        S.ConsumerGroups.map (fun g => (g.Group, g.Topics.map fun e =>
          (e.1, e.2.map fun po => (po.Partition, po.Offset)))) =
          [("svc", [("events", [(0, 100), (1, 50), (2, 75), (3, 0)])])] := by
  constructor
  · obtain ⟨B, hB, hE⟩ := fetchConsumerOffsets_closed listOffsets groups cluster clock rnd
    refine ⟨B, hB, ?_⟩
    intro g hg e he
    obtain ⟨g0, -, -, hname, htopics⟩ := mem_backup_groups hE hg
    rw [htopics] at he
    have hget : mapGet (expectedTopics listOffsets g0) e.1 = some e.2 :=
      mapGet_of_mem (expectedTopics_nodup listOffsets g0) he
    rw [expectedTopics_get] at hget
    split at hget
    · cases hb : offsetBlockOf listOffsets g0.Name e.1 with
      | none => simp [hb] at hget
      | some block =>
        simp only [hb, Option.map_some', Option.some.injEq] at hget
        refine ⟨block, by rw [hname]; exact hb, ?_, ?_⟩
        · rw [← hget]
          exact sortedPartitionOffsets_strict 0 0 block
        · rw [← hget]
          have hp := (sortedPartitionOffsets_perm 0 0 block).map
            fun po => (po.Partition, po.Offset)
          have e1 : ((block.entries.map fun e =>
              ({ Partition := e.1, Offset := e.2, Timestamp := 0, Lag := 0 } :
                PartitionOffset)).map fun po => (po.Partition, po.Offset)) = block.entries := by
            rw [List.map_map]
            exact List.map_id' _
          rw [e1] at hp
          exact hp
    · simp at hget
  · obtain ⟨S, hS, hE⟩ :=
      fetchConsumerOffsets_closed scenarioOffsets scenarioGroups cluster clock rnd
    refine ⟨S, hS, ?_⟩
    have h1 : (eraseTimestamps S).ConsumerGroups =
        expectedGroups scenarioOffsets scenarioGroups := by rw [hE]
    have h2 : S.ConsumerGroups.map (fun g => (g.Group, g.Topics.map fun e =>
        (e.1, e.2.map fun po => (po.Partition, po.Offset)))) =
        (eraseTimestamps S).ConsumerGroups.map (fun g => (g.Group, g.Topics.map fun e =>
          (e.1, e.2.map fun po => (po.Partition, po.Offset)))) := by
      simp [eraseTimestamps, List.map_map, Function.comp_def]
    rw [h2, h1]
    decide

/-- C13. `fetchConsumerOffsets` includes a consumer group in the snapshot if
and only if at least one of its topics was fetched successfully with a
non-empty offset block: the groups of the snapshot are the kept groups of the
input list, in input order; a group with zero topics is not kept (and causes
no error), and a group all of whose topics fail or are empty is not kept. -/
theorem C13_group_inclusion
    (listOffsets : String → String → Option (List (String × OffsetBlock)))
    (groups : List ConsumerGroupInfo) (cluster : String) (clock : Nat → String)
    (rnd : Nat → Nat → Nat → Nat) :
    (∃ B, fetchConsumerOffsets listOffsets groups cluster clock rnd = .ok B ∧
      B.ConsumerGroups.map (fun g => g.Group) =
        (groups.filter (groupKept listOffsets)).map (fun g => g.Name)) ∧
      (∀ g : ConsumerGroupInfo, groupKept listOffsets g = true ↔
        ∃ t ∈ g.Topics, ∃ block, offsetBlockOf listOffsets g.Name t = some block ∧
          block.entries ≠ []) ∧
      (∀ g : ConsumerGroupInfo, g.Topics = [] → groupKept listOffsets g = false) ∧
      (∀ g : ConsumerGroupInfo,
        (∀ t ∈ g.Topics, offsetBlockOf listOffsets g.Name t = none ∨
          ∃ block, offsetBlockOf listOffsets g.Name t = some block ∧ block.entries = []) →
        groupKept listOffsets g = false) ∧
      ∃ S, fetchConsumerOffsets scenarioOffsets scenarioGroups cluster clock rnd = .ok S ∧
        S.ConsumerGroups.map (fun g => g.Group) = ["svc"] := by
  have hkept : ∀ g : ConsumerGroupInfo, groupKept listOffsets g = true ↔
      ∃ t ∈ g.Topics, ∃ block, offsetBlockOf listOffsets g.Name t = some block ∧
        block.entries ≠ [] := by
    intro g
    unfold groupKept
    rw [List.any_eq_true]
    constructor
    · rintro ⟨t, ht, hf⟩
      exact ⟨t, ht, (topicFetched_iff listOffsets g.Name t).mp hf⟩
    · rintro ⟨t, ht, hb⟩
      exact ⟨t, ht, (topicFetched_iff listOffsets g.Name t).mpr hb⟩
  have hnames : ∀ (lo : String → String → Option (List (String × OffsetBlock)))
      (gs : List ConsumerGroupInfo),
      ∃ B, fetchConsumerOffsets lo gs cluster clock rnd = .ok B ∧
        B.ConsumerGroups.map (fun g => g.Group) =
          (gs.filter (groupKept lo)).map (fun g => g.Name) := by
    intro lo gs
    obtain ⟨B, hB, hE⟩ := fetchConsumerOffsets_closed lo gs cluster clock rnd
    refine ⟨B, hB, ?_⟩
    have h1 : (eraseTimestamps B).ConsumerGroups = expectedGroups lo gs := by rw [hE]
    have h2 : B.ConsumerGroups.map (fun g => g.Group) =
        (eraseTimestamps B).ConsumerGroups.map (fun g => g.Group) := by
      simp [eraseTimestamps, List.map_map, Function.comp_def]
    rw [h2, h1]
    simp [expectedGroups, List.map_map, Function.comp_def]
  refine ⟨hnames listOffsets groups, hkept, ?_, ?_, ?_⟩
  · intro g hg
    simp [groupKept, hg]
  · intro g hall
    cases hk : groupKept listOffsets g with
    | false => rfl
    | true =>
      obtain ⟨t, ht, block, hb, hne⟩ := (hkept g).mp hk
      rcases hall t ht with h | ⟨b2, h, he⟩
      · rw [h] at hb; simp at hb
      · rw [h] at hb
        simp only [Option.some.injEq] at hb
        subst hb
        exact absurd he hne
  · obtain ⟨S, hS, hN⟩ := hnames scenarioOffsets scenarioGroups
    refine ⟨S, hS, ?_⟩
    rw [hN]
    decide

/-- C14. Within a group kept by `fetchConsumerOffsets`, a topic is a key of
the group's `Topics` map if and only if it is a topic of the group whose
offset fetch returned no error and whose block holds at least one partition;
such a topic holds the offset list of its block whatever happens to the other
topics (the map is the one of the group with the failed and empty topics
removed from its topic list), and `fetchConsumerOffsets` returns no error. -/
theorem C14_topic_inclusion
    (listOffsets : String → String → Option (List (String × OffsetBlock)))
    (groups : List ConsumerGroupInfo) (cluster : String) (clock : Nat → String)
    (rnd : Nat → Nat → Nat → Nat) :
    ∃ B, fetchConsumerOffsets listOffsets groups cluster clock rnd = .ok B ∧
      ∀ g ∈ B.ConsumerGroups, ∃ g0 ∈ groups, g.Group = g0.Name ∧
        (∀ t, t ∈ g.Topics.map Prod.fst ↔
          t ∈ g0.Topics ∧ ∃ block, offsetBlockOf listOffsets g0.Name t = some block ∧
            block.entries ≠ []) ∧
        (∀ t ∈ g0.Topics, ∀ block, offsetBlockOf listOffsets g0.Name t = some block →
          block.entries ≠ [] → mapGet g.Topics t = some (sortedPartitionOffsets 0 0 block)) ∧
        g.Topics = expectedTopics listOffsets
          { g0 with Topics := g0.Topics.filter (topicFetched listOffsets g0.Name) } := by
  obtain ⟨B, hB, hE⟩ := fetchConsumerOffsets_closed listOffsets groups cluster clock rnd
  refine ⟨B, hB, ?_⟩
  intro g hg
  obtain ⟨g0, hin, -, hname, htopics⟩ := mem_backup_groups hE hg
  refine ⟨g0, hin, hname, ?_, ?_, ?_⟩
  · intro t
    rw [htopics, expectedTopics_keys, topicFetched_iff]
  · intro t ht block hb hne
    rw [htopics, expectedTopics_get]
    have hf : topicFetched listOffsets g0.Name t = true :=
      (topicFetched_iff listOffsets g0.Name t).mpr ⟨block, hb, hne⟩
    simp [ht, hf, hb]
  · rw [htopics]
    exact foldl_fetchTopic_filter listOffsets g0.Name g0.Topics []

/-- C15. Snapshot idempotence: for the same group list and the same answers
of the offset listing, two runs of `fetchConsumerOffsets` yield the same
groups in the same order with identical per-topic partition/offset lists and
differ at most in the time stamp fields; with the same clock readings the two
backups are equal, so the result depends neither on the iteration order of
the offset block map nor on the instability of the sort. -/
theorem C15_snapshot_idempotent
    (listOffsets : String → String → Option (List (String × OffsetBlock)))
    (groups : List ConsumerGroupInfo) (cluster : String) (clock1 clock2 : Nat → String)
    (rnd1 rnd2 : Nat → Nat → Nat → Nat) :
    (∃ B1 B2, fetchConsumerOffsets listOffsets groups cluster clock1 rnd1 = .ok B1 ∧
      fetchConsumerOffsets listOffsets groups cluster clock2 rnd2 = .ok B2 ∧
      eraseTimestamps B1 = eraseTimestamps B2 ∧
      B1.ConsumerGroups.map (fun g => (g.Group, g.Topics)) =
        B2.ConsumerGroups.map (fun g => (g.Group, g.Topics))) ∧
      fetchConsumerOffsets listOffsets groups cluster clock1 rnd1 =
        fetchConsumerOffsets listOffsets groups cluster clock1 rnd2 := by
  constructor
  · obtain ⟨B1, hB1, hE1⟩ := fetchConsumerOffsets_closed listOffsets groups cluster clock1 rnd1
    obtain ⟨B2, hB2, hE2⟩ := fetchConsumerOffsets_closed listOffsets groups cluster clock2 rnd2
    refine ⟨B1, B2, hB1, hB2, hE1.trans hE2.symm, ?_⟩
    have h : ∀ B : ConsumerOffsetsBackup, B.ConsumerGroups.map (fun g => (g.Group, g.Topics)) =
        (eraseTimestamps B).ConsumerGroups.map (fun g => (g.Group, g.Topics)) := by
      intro B
      simp [eraseTimestamps, List.map_map, Function.comp_def]
    rw [h B1, h B2, hE1, hE2]
  · unfold fetchConsumerOffsets
    rw [fetchGroups_rnd listOffsets clock1 rnd1 rnd2 groups 0 []]

/-! ## Claims about the restore script -/

theorem concatAll_append (a b : List String) :
    concatAll (a ++ b) = concatAll a ++ concatAll b := by
  induction a with
  | nil => simp [concatAll]
  | cons x a ih =>
    simp only [concatAll, List.cons_append, List.foldr_cons] at ih ⊢
    rw [ih, String.append_assoc]

theorem payloadLoop_length (topic : String) (n : Nat) (l : List PartitionOffset) :
    ∀ i : Nat, (payloadLoop topic n i l).length = l.length := by
  induction l with
  | nil => intro i; rfl
  | cons po l ih => intro i; simp [payloadLoop, ih]

theorem payloadLoop_get (topic : String) (n : Nat) (l : List PartitionOffset) :
    ∀ (i k : Nat) (po : PartitionOffset), l[k]? = some po →
      (payloadLoop topic n i l)[k]? =
        some (payloadEntry topic po (if i + k = n - 1 then "" else ",")) := by
  induction l with
  | nil => intro i k po h; simp at h
  | cons x l ih =>
    intro i k po h
    cases k with
    | zero =>
      simp only [List.getElem?_cons_zero, Option.some.injEq] at h
      subst h
      simp [payloadLoop, payloadEntry]
    | succ k =>
      simp only [List.getElem?_cons_succ] at h
      have := ih (i + 1) k po h
      simp only [payloadLoop, List.getElem?_cons_succ, this]
      have e : i + 1 + k = i + (k + 1) := by omega
      rw [e]

/-- The block of a group and topic: the staging of the payload between the
heredoc markers, then the reset command and the removal of the payload. -/
theorem restoreBlock_eq (group topic : String) (L : List PartitionOffset) :
    restoreBlock group topic L =
      ["echo \"  Topic: " ++ topic ++ " (" ++ toString L.length ++ " partitions)\"\n",
       "cat > " ++ offsetsPath group topic ++ " << \x27OFFSET_EOF\x27\n",
       "\x7b\n",
       "  \"partitions\": [\n"] ++
      payloadLoop topic L.length 0 L ++ ["  ]\n", "\x7d\n", "OFFSET_EOF\n\n"] ++
      resetCommand group topic L.length := by
  simp only [restoreBlock, resetCommand, offsetsPath, List.append_assoc, String.append_assoc]
  rfl

/-- Every (group, topic) pair of the backup has its block in the script. -/
theorem restoreGroups_contains (rnd : Nat → Nat) (total : Nat)
    (groups : List ConsumerGroupOffsets) :
    ∀ (i : Nat) (g : ConsumerGroupOffsets), g ∈ groups → ∀ e ∈ g.Topics,
      ∃ a b, restoreGroups rnd total i groups = a ++ restoreBlock g.Group e.1 e.2 ++ b := by
  induction groups with
  | nil => intro i g hg; simp at hg
  | cons x rest ih =>
    intro i g hg e he
    rcases List.mem_cons.mp hg with rfl | hin
    · have hmem : e ∈ mapRange (rnd i) g.Topics := (mapRange_perm g.Topics (rnd i)).symm.subset he
      obtain ⟨l1, l2, hl⟩ := List.append_of_mem hmem
      refine ⟨groupHeading total i g.Group ++ l1.flatMap (fun e => restoreBlock g.Group e.1 e.2),
        l2.flatMap (fun e => restoreBlock g.Group e.1 e.2) ++ (["\n"] ++
          restoreGroups rnd total (i + 1) rest), ?_⟩
      simp only [restoreGroups, groupHeading, hl, List.flatMap_append, List.flatMap_cons,
        List.flatMap_nil, List.append_nil, List.append_assoc]
    · obtain ⟨a, b, hab⟩ := ih (i + 1) g hin e he
      refine ⟨groupHeading total i x.Group ++ ((mapRange (rnd i) x.Topics).flatMap fun e =>
        restoreBlock x.Group e.1 e.2) ++ ["\n"] ++ a, b, ?_⟩
      simp only [restoreGroups, groupHeading, hab, List.append_assoc]

theorem restorePieces_contains (backup : ConsumerOffsetsBackup) (filename : String)
    (rnd : Nat → Nat) (g : ConsumerGroupOffsets) (hg : g ∈ backup.ConsumerGroups)
    (e : String × List PartitionOffset) (he : e ∈ g.Topics) :
    ∃ a b, restorePieces backup filename rnd = a ++ restoreBlock g.Group e.1 e.2 ++ b := by
  obtain ⟨a, b, hab⟩ := restoreGroups_contains rnd backup.ConsumerGroups.length
    backup.ConsumerGroups 0 g hg e he
  refine ⟨[restoreHeader backup filename] ++ a, b ++ [restoreSummary], ?_⟩
  simp only [restorePieces, hab, List.append_assoc]

theorem isPrefixOf_append_left (pre l1 l2 : List Char) (h : pre.length ≤ l1.length) :
    pre.isPrefixOf (l1 ++ l2) = pre.isPrefixOf l1 := by
  induction pre generalizing l1 with
  | nil => simp
  | cons c pre ih =>
    cases l1 with
    | nil => simp at h
    | cons d l1 =>
      simp only [List.length_cons, Nat.add_le_add_iff_right] at h
      simp only [List.cons_append, List.isPrefixOf_cons₂, ih l1 h]

/-- A text that begins with a literal at least as long as `pre` has the
prefix `pre` exactly when the literal has it. -/
theorem HasPrefix_lit (lit x pre : String) (b : Bool)
    (hlen : pre.data.length ≤ lit.data.length) (h : HasPrefix lit pre = b) :
    HasPrefix (lit ++ x) pre = b := by
  unfold HasPrefix at h ⊢
  rw [String.data_append, isPrefixOf_append_left _ _ _ hlen, h]

theorem payloadLoop_no_rm (topic : String) (n : Nat) (l : List PartitionOffset) :
    ∀ i : Nat, ∀ p ∈ payloadLoop topic n i l, HasPrefix p "rm -f " = false := by
  induction l with
  | nil => intro i p hp; simp [payloadLoop] at hp
  | cons po l ih =>
    intro i p hp
    simp only [payloadLoop, List.mem_cons] at hp
    rcases hp with rfl | hp
    · simp only [String.append_assoc]
      exact HasPrefix_lit _ _ _ _ (by decide) (by decide)
    · exact ih (i + 1) p hp

theorem filter_eq_nil_of_forall {α : Type} (p : α → Bool) (l : List α)
    (h : ∀ x ∈ l, p x = false) : l.filter p = [] := by
  rw [List.filter_eq_nil_iff]
  intro x hx
  simp [h x hx]

/-- The removal of the payload file is the only text of a block that begins
with `rm -f `. -/
theorem restoreBlock_rm (group topic : String) (L : List PartitionOffset) :
    (restoreBlock group topic L).filter (fun p => HasPrefix p "rm -f ") =
      ["rm -f " ++ offsetsPath group topic ++ "\n"] := by
  have h1 : HasPrefix ("echo \"  Topic: " ++ topic ++ " (" ++ toString L.length
      ++ " partitions)\"\n") "rm -f " = false := by
    simp only [String.append_assoc]
    exact HasPrefix_lit _ _ _ _ (by decide) (by decide)
  have h2 : HasPrefix ("cat > " ++ offsetsPath group topic ++ " << \x27OFFSET_EOF\x27\n")
      "rm -f " = false := by
    simp only [String.append_assoc]
    exact HasPrefix_lit _ _ _ _ (by decide) (by decide)
  have h3 : HasPrefix ("  --group \"" ++ group ++ "\" \\\n") "rm -f " = false := by
    simp only [String.append_assoc]
    exact HasPrefix_lit _ _ _ _ (by decide) (by decide)
  have h4 : HasPrefix ("  --topic \"" ++ topic ++ "\" \\\n") "rm -f " = false := by
    simp only [String.append_assoc]
    exact HasPrefix_lit _ _ _ _ (by decide) (by decide)
  have h5 : HasPrefix ("  --from-json-file " ++ offsetsPath group topic ++ " \\\n")
      "rm -f " = false := by
    simp only [String.append_assoc]
    exact HasPrefix_lit _ _ _ _ (by decide) (by decide)
  have h6 : HasPrefix ("  echo \"    ✓ Restored " ++ toString L.length ++ " partitions\"\n")
      "rm -f " = false := by
    simp only [String.append_assoc]
    exact HasPrefix_lit _ _ _ _ (by decide) (by decide)
  have h7 : HasPrefix ("rm -f " ++ offsetsPath group topic ++ "\n") "rm -f " = true := by
    simp only [String.append_assoc]
    exact HasPrefix_lit _ _ _ _ (by decide) (by decide)
  have hp := filter_eq_nil_of_forall (fun p => HasPrefix p "rm -f ")
    (payloadLoop topic L.length 0 L) (payloadLoop_no_rm topic L.length L 0)
  have hl1 : HasPrefix "\x7b\n" "rm -f " = false := by decide
  have hl2 : HasPrefix "  \"partitions\": [\n" "rm -f " = false := by decide
  have hl3 : HasPrefix "  ]\n" "rm -f " = false := by decide
  have hl4 : HasPrefix "\x7d\n" "rm -f " = false := by decide
  have hl5 : HasPrefix "OFFSET_EOF\n\n" "rm -f " = false := by decide
  have hl6 : HasPrefix
      "if $KAFKA_CONSUMER_GROUPS --bootstrap-server \"$BOOTSTRAP_SERVERS\" $COMMAND_CONFIG \\\n"
      "rm -f " = false := by decide
  have hl7 : HasPrefix "  --reset-offsets \\\n" "rm -f " = false := by decide
  have hl8 : HasPrefix "  --execute; then\n" "rm -f " = false := by decide
  have hl9 : HasPrefix "  ((RESTORED++))\n" "rm -f " = false := by decide
  have hl10 : HasPrefix "else\n" "rm -f " = false := by decide
  have hl11 : HasPrefix "  echo \"    ✗ Failed to restore offsets\"\n" "rm -f " = false := by
    decide
  have hl12 : HasPrefix "  ((FAILED++))\n" "rm -f " = false := by decide
  have hl13 : HasPrefix "fi\n" "rm -f " = false := by decide
  have hl14 : HasPrefix "\n" "rm -f " = false := by decide
  rw [restoreBlock_eq]
  simp only [resetCommand, List.filter_append, List.filter_cons, List.filter_nil, hp, h1, h2, h3,
    h4, h5, h6, h7, hl1, hl2, hl3, hl4, hl5, hl6, hl7, hl8, hl9, hl10, hl11, hl12, hl13, hl14,
    if_true, if_false, Bool.false_eq_true, List.append_nil, List.nil_append]

/-- C18. For every (group, topic) pair with partition list `L`, the payload
staged by `generateRestoreOffsetsScript` between the heredoc markers (the
`cat > ... << OFFSET_EOF` line and the `OFFSET_EOF` line) lists exactly
`len(L)` entries in the order of `L`, the `i`-th naming the topic, the
partition `L[i].Partition` and the offset `L[i].Offset`, with a comma after
every entry except the last; the script contains this block for every pair of
the snapshot; for the offsets of the scenario the four entries are written
out. -/
theorem C18_payload_entries (group topic : String) (L : List PartitionOffset) :
    restoreBlock group topic L =
        ["echo \"  Topic: " ++ topic ++ " (" ++ toString L.length ++ " partitions)\"\n",
         "cat > " ++ offsetsPath group topic ++ " << \x27OFFSET_EOF\x27\n",
         "\x7b\n",
         "  \"partitions\": [\n"] ++
        payloadLoop topic L.length 0 L ++ ["  ]\n", "\x7d\n", "OFFSET_EOF\n\n"] ++
        resetCommand group topic L.length ∧
      (payloadLoop topic L.length 0 L).length = L.length ∧
      (∀ (i : Nat) (po : PartitionOffset), L[i]? = some po →
        (payloadLoop topic L.length 0 L)[i]? =
          some ("    \x7b\"topic\": \"" ++ topic ++ "\", \"partition\": "
            ++ toString po.Partition ++ ", \"offset\": " ++ toString po.Offset ++ "\x7d"
            ++ (if i + 1 = L.length then "" else ",") ++ "\n")) ∧
      (∀ (backup : ConsumerOffsetsBackup) (filename : String) (rnd : Nat → Nat),
        ∀ g ∈ backup.ConsumerGroups, ∀ e ∈ g.Topics,
          ∃ a b, restorePieces backup filename rnd = a ++ restoreBlock g.Group e.1 e.2 ++ b) ∧
      payloadLoop "events" 4 0 scenarioOffsetList =
        ["    \x7b\"topic\": \"events\", \"partition\": 0, \"offset\": 100\x7d,\n",
         "    \x7b\"topic\": \"events\", \"partition\": 1, \"offset\": 50\x7d,\n",
         "    \x7b\"topic\": \"events\", \"partition\": 2, \"offset\": 75\x7d,\n",
         "    \x7b\"topic\": \"events\", \"partition\": 3, \"offset\": 0\x7d\n"] := by
  refine ⟨restoreBlock_eq group topic L, payloadLoop_length topic L.length L 0, ?_,
    fun backup filename rnd g hg e he => restorePieces_contains backup filename rnd g hg e he,
    by decide⟩
  · intro i po h
    have hlt : i < L.length := by
      by_contra hc
      rw [List.getElem?_eq_none (by omega)] at h
      simp at h
    rw [payloadLoop_get topic L.length L 0 i po h]
    have e : (0 + i = L.length - 1) ↔ (i + 1 = L.length) := by omega
    simp only [payloadEntry, e]

/-! ### Determinism of the restore script -/

theorem restoreGroups_sections (rnd : Nat → Nat) (total : Nat)
    (groups : List ConsumerGroupOffsets) : ∀ i : Nat,
    restoreGroups rnd total i groups =
      (restoreSections rnd total i groups).flatMap fun s => s.1 ++ s.2.flatten ++ ["\n"] := by
  induction groups with
  | nil => intro i; rfl
  | cons g rest ih =>
    intro i
    simp only [restoreGroups, restoreSections, List.flatMap_cons, ih (i + 1), groupHeading,
      List.flatMap_def, List.map_cons, List.flatten_cons, List.append_assoc]

theorem restoreSections_seed (rnd1 rnd2 : Nat → Nat) (total : Nat)
    (groups : List ConsumerGroupOffsets) : ∀ i : Nat,
    List.Forall₂ (fun s1 s2 => s1.1 = s2.1 ∧ s1.2.Perm s2.2)
      (restoreSections rnd1 total i groups) (restoreSections rnd2 total i groups) := by
  induction groups with
  | nil => intro i; exact List.Forall₂.nil
  | cons g rest ih =>
    intro i
    refine List.Forall₂.cons ⟨rfl, ?_⟩ (ih (i + 1))
    exact ((mapRange_perm g.Topics (rnd1 i)).trans (mapRange_perm g.Topics (rnd2 i)).symm).map _

theorem restoreSections_blocks (rnd : Nat → Nat) (total : Nat)
    (groups : List ConsumerGroupOffsets) : ∀ i : Nat,
    List.Forall₂ (fun s g => s.2.Perm (g.Topics.map fun e => restoreBlock g.Group e.1 e.2))
      (restoreSections rnd total i groups) groups := by
  induction groups with
  | nil => intro i; exact List.Forall₂.nil
  | cons g rest ih =>
    intro i
    exact List.Forall₂.cons ((mapRange_perm g.Topics (rnd i)).map _) (ih (i + 1))

theorem mapRange_short {α : Type} (l : List α) (seed : Nat) (h : l.length ≤ 1) :
    mapRange seed l = l := by
  have hp := mapRange_perm l seed
  match l, h, hp with
  | [], _, hp => exact List.Perm.eq_nil hp
  | [x], _, hp => exact List.perm_singleton.mp hp
  | _ :: _ :: _, h, _ => simp at h

theorem restoreGroups_short (rnd1 rnd2 : Nat → Nat) (total : Nat)
    (groups : List ConsumerGroupOffsets) (h : ∀ g ∈ groups, g.Topics.length ≤ 1) : ∀ i : Nat,
    restoreGroups rnd1 total i groups = restoreGroups rnd2 total i groups := by
  induction groups with
  | nil => intro i; rfl
  | cons g rest ih =>
    intro i
    have hg := h g (List.mem_cons_self _ _)
    simp only [restoreGroups, mapRange_short g.Topics _ hg,
      ih (fun x hx => h x (List.mem_cons_of_mem _ hx)) (i + 1)]

/-- The order of the blocks of a group is not fixed: two generations of the
script of `sampleBackup` that visit the topic map in different orders write the
two blocks of the group in different orders. -/
theorem restorePieces_order_varies :
    restorePieces sampleBackup "restore.sh" (fun _ => 0) ≠
      restorePieces sampleBackup "restore.sh" (fun _ => 1) := by
  intro h
  have h3 := congrArg (fun l : List String => l[3]?) h
  revert h3
  simp only [restorePieces, sampleBackup, restoreGroups, mapRange]
  decide

/-- Two generations of the restore script for the same backup and file name
(whatever orders `rnd1`, `rnd2` the runtime visits the topic maps in) write the
same heading and summary, and for every group the same heading lines and the
same blocks, one per topic of the group, each block being `restoreBlock` of
the group name, the topic name and the partition list alone; the blocks of one
group are the same up to their order, and the whole file is the same when no
group has more than one topic. The returned error does not depend on the order
either. -/
theorem restoreSections_deterministic (backup : ConsumerOffsetsBackup) (filename : String)
    (createErr chmodErr : Option String) (rnd1 rnd2 : Nat → Nat) :
    (∀ rnd : Nat → Nat, restorePieces backup filename rnd =
        [restoreHeader backup filename] ++
          ((restoreSections rnd backup.ConsumerGroups.length 0 backup.ConsumerGroups).flatMap
            fun s => s.1 ++ s.2.flatten ++ ["\n"]) ++ [restoreSummary]) ∧
      List.Forall₂ (fun s1 s2 => s1.1 = s2.1 ∧ s1.2.Perm s2.2)
        (restoreSections rnd1 backup.ConsumerGroups.length 0 backup.ConsumerGroups)
        (restoreSections rnd2 backup.ConsumerGroups.length 0 backup.ConsumerGroups) ∧
      List.Forall₂
        (fun s g => s.2.Perm (g.Topics.map fun e => restoreBlock g.Group e.1 e.2))
        (restoreSections rnd1 backup.ConsumerGroups.length 0 backup.ConsumerGroups)
        backup.ConsumerGroups ∧
      ((∀ g ∈ backup.ConsumerGroups, g.Topics.length ≤ 1) →
        generateRestoreOffsetsScript backup filename createErr chmodErr rnd1 =
          generateRestoreOffsetsScript backup filename createErr chmodErr rnd2) ∧
      (generateRestoreOffsetsScript backup filename createErr chmodErr rnd1).2 =
        (generateRestoreOffsetsScript backup filename createErr chmodErr rnd2).2 ∧
      (generateRestoreOffsetsScript backup filename createErr chmodErr rnd1).1.isSome =
        (generateRestoreOffsetsScript backup filename createErr chmodErr rnd2).1.isSome := by
  refine ⟨fun rnd => ?_, restoreSections_seed rnd1 rnd2 _ _ 0,
    restoreSections_blocks rnd1 _ _ 0, fun h => ?_, ?_, ?_⟩
  · simp only [restorePieces, restoreGroups_sections]
  · cases createErr with
    | some err => rfl
    | none =>
      simp only [generateRestoreOffsetsScript, restorePieces,
        restoreGroups_short rnd1 rnd2 _ _ h 0]
  · cases createErr <;> simp only [generateRestoreOffsetsScript]
  · cases createErr <;> simp only [generateRestoreOffsetsScript, Option.isSome]

/-! ### Removal of the payload file -/

/-- For every group `g` of the backup and every entry `e` of its topic
map, the script contains the block of the pair; among the texts the block
writes exactly one begins with `rm -f `, it removes
`/tmp/offsets_<group>_<topic>.json` and is written right after the `fi` that
closes the reset command, so after both the success and the failure branch;
the `cat >` line and `--from-json-file` name the same path. -/
theorem restoreBlock_rm_position (backup : ConsumerOffsetsBackup) (filename : String)
    (rnd : Nat → Nat) (g : ConsumerGroupOffsets) (hg : g ∈ backup.ConsumerGroups)
    (e : String × List PartitionOffset) (he : e ∈ g.Topics) :
    (∃ a b, restorePieces backup filename rnd = a ++ restoreBlock g.Group e.1 e.2 ++ b) ∧
      (restoreBlock g.Group e.1 e.2).filter (fun p => HasPrefix p "rm -f ") =
        ["rm -f " ++ offsetsPath g.Group e.1 ++ "\n"] ∧
      (∃ pre, restoreBlock g.Group e.1 e.2 = pre ++
          ["if $KAFKA_CONSUMER_GROUPS --bootstrap-server \"$BOOTSTRAP_SERVERS\" $COMMAND_CONFIG \\\n",
           "  --group \"" ++ g.Group ++ "\" \\\n",
           "  --topic \"" ++ e.1 ++ "\" \\\n",
           "  --reset-offsets \\\n",
           "  --from-json-file " ++ offsetsPath g.Group e.1 ++ " \\\n",
           "  --execute; then\n",
           "  echo \"    ✓ Restored " ++ toString e.2.length ++ " partitions\"\n",
           "  ((RESTORED++))\n",
           "else\n",
           "  echo \"    ✗ Failed to restore offsets\"\n",
           "  ((FAILED++))\n",
           "fi\n",
           "rm -f " ++ offsetsPath g.Group e.1 ++ "\n",
           "\n"] ∧
        ("cat > " ++ offsetsPath g.Group e.1 ++ " << \x27OFFSET_EOF\x27\n") ∈ pre) ∧
      offsetsPath g.Group e.1 = "/tmp/offsets_" ++ g.Group ++ "_" ++ e.1 ++ ".json" := by
  refine ⟨restorePieces_contains backup filename rnd g hg e he,
    restoreBlock_rm g.Group e.1 e.2,
    ⟨["echo \"  Topic: " ++ e.1 ++ " (" ++ toString e.2.length ++ " partitions)\"\n",
       "cat > " ++ offsetsPath g.Group e.1 ++ " << \x27OFFSET_EOF\x27\n",
       "\x7b\n",
       "  \"partitions\": [\n"] ++
      payloadLoop e.1 e.2.length 0 e.2 ++ ["  ]\n", "\x7d\n", "OFFSET_EOF\n\n"], ?_, ?_⟩, rfl⟩
  · rw [restoreBlock_eq, resetCommand]
  · exact List.mem_append_left _ (List.mem_append_left _
      (List.mem_cons_of_mem _ (List.mem_cons_self _ _)))

/-- The removal line of the block of the topic `events` of the group `svc`. -/
theorem restoreBlock_rm_sample :
    (restoreBlock "svc" "events" scenarioOffsetList).filter (fun p => HasPrefix p "rm -f ") =
      ["rm -f " ++ offsetsPath "svc" "events" ++ "\n"] :=
  (restoreBlock_rm_position sampleBackup "restore.sh" (fun _ => 0)
    { Group := "svc",
      Topics := [("events", scenarioOffsetList),
                 ("audit", [{ Partition := 0, Offset := 7, Timestamp := 0, Lag := 0 }])],
      Timestamp := "2024-01-01T00:00:00Z" }
    (List.Mem.head _) ("events", scenarioOffsetList) (List.Mem.head _)).2.1

/-! ## Claims about byte formatting and the recreation script -/

theorem toString_ofNat_int (n : Nat) : toString (Int.ofNat n) = toString n := rfl

/-- C19. The three sizes of the specification format as stated, and a size
`b` with `0 ≤ b < 1024` formats as the decimal of `b` followed by ` B`. -/
theorem C19_formatBytes_values :
    formatBytes 0 = "0 B" ∧ formatBytes 1536 = "1.50 KiB" ∧
      formatBytes 1048576 = "1.00 MiB" ∧
      ∀ b : Int, 0 ≤ b → b < 1024 → formatBytes b = toString b.toNat ++ " B" := by
  refine ⟨by decide, by decide, by decide, ?_⟩
  intro b h0 h1
  unfold formatBytes
  rw [if_pos h1]
  cases b with
  | ofNat n => rfl
  | negSucc n => exact absurd h0 (by simp)

/-- Witness of C19: 512 bytes. -/
theorem C19_formatBytes_values_witness :
    (0 : Int) ≤ 512 ∧ (512 : Int) < 1024 ∧ formatBytes 512 = "512 B" :=
  ⟨by decide, by decide, C19_formatBytes_values.2.2.2 512 (by decide) (by decide)⟩

theorem recreateTopics_blocks (rnd : Nat → Nat → Nat) (topics : List TopicInfo) :
    ∀ i k : Nat, recreateTopics rnd i k topics =
      recreateBlocks rnd (k + 1) ((topics.enumFrom i).filter fun p => !isInternal p.2) := by
  induction topics with
  | nil => intro i k; rfl
  | cons t rest ih =>
    intro i k
    by_cases h : HasPrefix t.Name "__" = true
    · simp only [recreateTopics, h, if_true, List.enumFrom_cons, List.filter_cons, isInternal,
        Bool.not_true, Bool.false_eq_true, if_false, ih (i + 1) k]
    · simp only [Bool.not_eq_true] at h
      simp only [recreateTopics, h, Bool.false_eq_true, if_false, List.enumFrom_cons,
        List.filter_cons, isInternal, Bool.not_false, if_true, ih (i + 1) (k + 1),
        recreateBlocks, List.flatMap_cons]

theorem enumFrom_filter_snd {α : Type} (p : α → Bool) (l : List α) : ∀ i : Nat,
    ((l.enumFrom i).filter fun q => p q.2).map Prod.snd = l.filter p := by
  induction l with
  | nil => intro i; rfl
  | cons x xs ih =>
    intro i
    by_cases h : p x = true
    · simp only [List.enumFrom_cons, List.filter_cons, h, if_true, List.map_cons, ih (i + 1)]
    · simp only [List.enumFrom_cons, List.filter_cons, h, if_false, ih (i + 1),
        Bool.false_eq_true]

theorem countInternalTopics_foldl (topics : List TopicInfo) : ∀ c : Nat,
    topics.foldl (fun count topic => if HasPrefix topic.Name "__" then count + 1 else count) c =
      c + (topics.filter isInternal).length := by
  induction topics with
  | nil => intro c; rfl
  | cons t rest ih =>
    intro c
    by_cases h : HasPrefix t.Name "__" = true
    · simp only [List.foldl_cons, h, if_true, ih, List.filter_cons, isInternal,
        List.length_cons]
      omega
    · simp only [List.foldl_cons, h, if_false, ih, List.filter_cons, isInternal,
        Bool.false_eq_true]

theorem countInternalTopics_eq (topics : List TopicInfo) :
    countInternalTopics topics = (topics.filter isInternal).length := by
  unfold countInternalTopics
  rw [countInternalTopics_foldl topics 0, Nat.zero_add]

theorem filter_not_length {α : Type} (p : α → Bool) (l : List α) :
    (l.filter fun x => !p x).length + (l.filter p).length = l.length := by
  induction l with
  | nil => rfl
  | cons x xs ih =>
    by_cases h : p x = true
    · simp only [List.filter_cons, h, Bool.not_true, if_true, if_false, List.length_cons,
        Bool.false_eq_true]
      omega
    · simp only [Bool.not_eq_true] at h
      simp only [List.filter_cons, h, Bool.not_false, if_true, if_false, List.length_cons,
        Bool.false_eq_true]
      omega

/-- C20. The recreation script is its header, then one creation block for each
topic of the snapshot whose name does not begin with `__`, in snapshot order
and numbered 1, 2, ..., k, then the summary; a block names its topic in
`--create` and `--topic`; no block is written for a topic whose name begins
with `__`. The number printed as `Internal topics skipped` is
`countInternalTopics`, the number of topics whose name begins with `__`, and
with k it adds up to the number of topics. -/
theorem C20_internal_topics_skipped (info : KafkaClusterInfo) (filename : String)
    (writeErr : Option String) (rnd : Nat → Nat → Nat) :
    generateRecreateScript info filename writeErr rnd =
        (concatAll (recreateHeader info filename ++
          recreateBlocks rnd 1 (info.Topics.enum.filter fun p => !isInternal p.2) ++
          recreateSummary info), writeErr) ∧
      (info.Topics.enum.filter fun p => !isInternal p.2).map Prod.snd =
        info.Topics.filter (fun t => !HasPrefix t.Name "__") ∧
      (∀ p ∈ info.Topics.enum.filter (fun p => !isInternal p.2),
        HasPrefix p.2.Name "__" = false ∧ info.Topics[p.1]? = some p.2) ∧
      (∀ (sr ss k : Nat) (t : TopicInfo),
        recreateBlock sr ss k t =
          ["# Topic " ++ toString k ++ ": " ++ t.Name ++ "\n",
           "echo \"[" ++ toString k ++ "] Creating topic: " ++ t.Name ++ "\"\n",
           "if $KAFKA_TOPICS --bootstrap-server \"$BOOTSTRAP_SERVERS\" $COMMAND_CONFIG \\\n"
             ++ ("  --create \\\n" ++ ("  --topic \"" ++ (t.Name ++ ("\" \\\n" ++ recreateCmdTail sr ss t)))),
           "echo \"\"\n\n"]) ∧
      ("echo \"  Internal topics skipped: " ++ toString (countInternalTopics info.Topics)
        ++ "\"\n") ∈ recreateSummary info ∧
      countInternalTopics info.Topics =
        (info.Topics.filter fun t => HasPrefix t.Name "__").length ∧
      (info.Topics.filter fun t => !HasPrefix t.Name "__").length +
        countInternalTopics info.Topics = info.Topics.length ∧
      recreateTopics rnd 0 0 sampleTopicList =
        recreateBlock (rnd 0 0) (rnd 0 1) 1
            { Name := "orders", Partitions := 3, ReplicationFactor := 2, TotalMessages := 0,
              Configs := [] } ++
          recreateBlock (rnd 2 0) (rnd 2 1) 2
            { Name := "events", Partitions := 4, ReplicationFactor := 3, TotalMessages := 225,
              Configs := [("retention.ms", "1000"), ("cleanup.policy", "delete")] } ∧
      countInternalTopics sampleTopicList = 2 := by
  refine ⟨?_, enumFrom_filter_snd (fun t : TopicInfo => !HasPrefix t.Name "__") info.Topics 0,
    ?_, ?_, ?_, countInternalTopics_eq info.Topics, ?_, ?_, by decide⟩
  · simp only [generateRecreateScript, recreatePieces, recreateTopics_blocks, List.enum]
  · intro p hp
    rw [List.mem_filter] at hp
    refine ⟨?_, ?_⟩
    · have := hp.2
      simpa [isInternal] using this
    · have := List.mk_mem_enum_iff_getElem?.mp (show (p.1, p.2) ∈ info.Topics.enum from hp.1)
      exact this
  · intro sr ss k t
    simp only [recreateBlock, recreateCmd, recreateCmdTail, String.append_assoc]
  · simp [recreateSummary]
  · rw [countInternalTopics_eq]
    exact filter_not_length isInternal info.Topics
  · have h1 : HasPrefix "orders" "__" = false := by decide
    have h2 : HasPrefix "__consumer_offsets" "__" = true := by decide
    have h3 : HasPrefix "events" "__" = false := by decide
    have h4 : HasPrefix "__transaction_state" "__" = true := by decide
    simp only [recreateTopics, sampleTopicList, h1, h2, h3, h4, if_true, if_false,
      Bool.false_eq_true, List.append_nil]

/-! ## Totality of the byte formatting -/

/-- More iterations than the loop needs do not change its result. -/
theorem formatBytesLoop_fuel : ∀ (fuel1 fuel2 : Nat) (n div : Int) (exp : Nat),
    n.toNat ≤ fuel1 → n.toNat ≤ fuel2 →
      formatBytesLoop fuel1 n div exp = formatBytesLoop fuel2 n div exp := by
  intro fuel1
  induction fuel1 with
  | zero =>
    intro fuel2 n div exp h1 _
    have hn : ¬ n ≥ 1024 := by omega
    cases fuel2 with
    | zero => rfl
    | succ f => simp only [formatBytesLoop, hn, if_false]
  | succ f1 ih =>
    intro fuel2 n div exp h1 h2
    by_cases hn : n ≥ 1024
    · cases fuel2 with
      | zero => omega
      | succ f2 =>
        simp only [formatBytesLoop, hn, if_true]
        exact ih f2 (n / 1024) _ _ (by omega) (by omega)
    · cases fuel2 with
      | zero => simp only [formatBytesLoop, hn, if_false]
      | succ f2 => simp only [formatBytesLoop, hn, if_false]

/-- C30. `formatBytes` is total on `int64`.  For `b ≥ 1024` the loop ends
(any larger bound on the number of iterations gives the same result) with an
exponent `exp ≤ 5` and a divisor `div = 1024 ^ (exp + 1)`, computed without
overflow, with `div ≤ b < 1024 * div`, and `units[exp]` is an entry of the
table; for `b < 1024`, negative values included, the result is the decimal of
`b` followed by ` B` and no unit is looked up. -/
theorem C30_formatBytes_total (b : Int) (hlo : -(2 ^ 63) ≤ b) (hhi : b < 2 ^ 63) :
    (b < 1024 → formatBytes b = toString b ++ " B") ∧
      (1024 ≤ b →
        ∃ (div : Int) (exp : Nat),
          (∀ fuel : Nat, (b / 1024).toNat ≤ fuel →
            formatBytesLoop fuel (b / 1024) 1024 0 = (div, exp)) ∧
          exp ≤ 5 ∧ div = 1024 ^ (exp + 1) ∧ div < 2 ^ 63 ∧ div ≤ b ∧ b < 1024 * div ∧
          ∃ u : String, units[exp]? = some u ∧
            formatBytes b = sprintf2f (toFloat64 b.toNat) div.toNat ++ " " ++ u) := by
  constructor
  · intro h
    simp only [formatBytes, h, if_true]
  · intro h
    obtain ⟨hp, hle, hlt⟩ := formatBytesLoop_spec b hhi (b / 1024).toNat (b / 1024)
      1024 0 (by omega) (le_refl _) (by norm_num) (by omega) (by omega) (by norm_num)
    have hexp := formatBytesLoop_exp_le b h hhi
    refine ⟨(formatBytesLoop (b / 1024).toNat (b / 1024) 1024 0).1,
      (formatBytesLoop (b / 1024).toNat (b / 1024) 1024 0).2, ?_, hexp, hp, ?_, hle, hlt, ?_⟩
    · intro fuel hf
      exact formatBytesLoop_fuel fuel _ _ _ _ hf (le_refl _)
    · omega
    · have hlen : (formatBytesLoop (b / 1024).toNat (b / 1024) 1024 0).2 < units.length := by
        have : units.length = 6 := rfl
        omega
      refine ⟨units.get ⟨_, hlen⟩, List.getElem?_eq_getElem hlen, ?_⟩
      have hnot : ¬ b < 1024 := by omega
      simp only [formatBytes, hnot, if_false, List.getD_eq_getElem?_getD,
        List.getElem?_eq_getElem hlen, Option.getD_some, List.get_eq_getElem]

/-- Witness of C30: the largest `int64` value formats with the last unit of
the table. -/
theorem C30_formatBytes_total_witness :
    ∃ (div : Int) (exp : Nat),
      (∀ fuel : Nat, ((2 ^ 63 - 1 : Int) / 1024).toNat ≤ fuel →
        formatBytesLoop fuel ((2 ^ 63 - 1) / 1024) 1024 0 = (div, exp)) ∧
      exp ≤ 5 ∧ div = 1024 ^ (exp + 1) ∧ div < 2 ^ 63 ∧ div ≤ 2 ^ 63 - 1 ∧
      (2 ^ 63 - 1 : Int) < 1024 * div ∧
      ∃ u : String, units[exp]? = some u ∧
        formatBytes (2 ^ 63 - 1) = sprintf2f (toFloat64 (2 ^ 63 - 1 : Int).toNat) div.toNat
          ++ " " ++ u :=
  (C30_formatBytes_total (2 ^ 63 - 1) (by decide) (by decide)).2 (by decide)

/-! ## Log dirs in error -/

theorem foldl_convertLogDir_filter (l : List KafkaLogDir) : ∀ st : ConvertState,
    (l.filter fun logDir => logDir.Error.isNone).foldl convertLogDir st =
      l.foldl convertLogDir st := by
  induction l with
  | nil => intro st; rfl
  | cons d l ih =>
    intro st
    cases he : d.Error with
    | none =>
      simp only [List.filter_cons, he, Option.isNone_none, if_true, List.foldl_cons, ih]
    | some err =>
      simp only [List.filter_cons, he, Option.isNone_some, Bool.false_eq_true, if_false,
        List.foldl_cons, ih, convertLogDir, Option.isSome_some, if_true]

theorem convertAggregate_withoutErrored (kafkaResponse : KafkaLogDirsResponse) :
    convertAggregate (withoutErrored kafkaResponse) = convertAggregate kafkaResponse := by
  simp only [convertAggregate, withoutErrored, List.foldl_map, convertBroker,
    foldl_convertLogDir_filter]
  rfl

theorem convertRecords_withoutErrored (kafkaResponse : KafkaLogDirsResponse) :
    convertRecords (withoutErrored kafkaResponse) = convertRecords kafkaResponse := by
  have hd : ∀ l : List KafkaLogDir,
      ((l.filter fun logDir => logDir.Error.isNone).flatMap fun logDir =>
        if logDir.Error.isSome then []
        else logDir.Partitions.flatMap fun partition =>
          match decodePartition partition.Partition with
          | none => ([] : List SizeRecord)
          | some d => [{ topic := d.1, partition := d.2, size := partition.Size }]) =
      l.flatMap fun logDir =>
        if logDir.Error.isSome then []
        else logDir.Partitions.flatMap fun partition =>
          match decodePartition partition.Partition with
          | none => ([] : List SizeRecord)
          | some d => [{ topic := d.1, partition := d.2, size := partition.Size }] := by
    intro l
    induction l with
    | nil => rfl
    | cons d l ih =>
      cases he : d.Error with
      | none =>
        simp only [List.filter_cons, he, Option.isNone_none, if_true, List.flatMap_cons, ih]
      | some err =>
        simp only [List.filter_cons, he, Option.isNone_some, Bool.false_eq_true, if_false,
          List.flatMap_cons, ih, Option.isSome_some, if_true, List.nil_append]
  simp only [convertRecords, withoutErrored, List.flatMap_map, hd]

/-- C29. A log dir whose `Error` is set contributes nothing to the report of
`convertKafkaLogDirsToReport`: apart from the timestamp the report is the one
for the response with every such log dir removed (same choices of the
unspecified orders), and the records aggregated are those of the remaining log
dirs, so the error-free log dirs of a broker still count.  In the sample
response broker 1 has one log dir in error and one without. -/
theorem C29_errored_log_dir_skipped (kafkaResponse : KafkaLogDirsResponse)
    (brokers : List String) (now1 now2 : String) (rnd : Nat → Nat) :
    { convertKafkaLogDirsToReport kafkaResponse brokers now1 rnd with Timestamp := now2 } =
        convertKafkaLogDirsToReport (withoutErrored kafkaResponse) brokers now2 rnd ∧
      (convertKafkaLogDirsToReport kafkaResponse brokers now1 rnd).Topics.Perm
        (aggregatedTopics (convertRecords (withoutErrored kafkaResponse))) ∧
      (∀ (st : ConvertState) (logDir : KafkaLogDir), logDir.Error.isSome = true →
        convertLogDir st logDir = st) ∧
      (∀ (st : ConvertState) (logDir : KafkaLogDir), logDir.Error = none →
        convertLogDir st logDir = logDir.Partitions.foldl convertPartition st) ∧
      (withoutErrored sampleResponse).Brokers.map
          (fun broker => (broker.Broker, broker.LogDirs.map fun logDir => logDir.LogDir)) =
        [(1, ["/data1"]), (2, ["/data1"]), (3, ["/data1"])] ∧
      convertKafkaLogDirsToReport (withoutErrored sampleResponse) ["b1:9092", "b2:9092"]
        "2024-01-01T00:00:00Z" (fun _ => 0) = sampleReport := by
  refine ⟨?_, ?_, ?_, ?_, by decide, by decide⟩
  · rw [convert_timestamp]
    simp only [convertKafkaLogDirsToReport, convertAggregate_withoutErrored]
  · rw [convertRecords_withoutErrored]
    exact (convert_report kafkaResponse brokers now1 rnd).1
  · intro st logDir h
    simp only [convertLogDir, h, if_true]
  · intro st logDir h
    simp only [convertLogDir, h, Option.isSome_none, Bool.false_eq_true, if_false]

/-! ## Acceptance set of the identifier decoding -/

theorem all_isDot_iff (p : List Char) : p.all isDot = true ↔ '\n' ∉ p := by
  induction p with
  | nil => simp
  | cons c p ih =>
    simp only [List.all_cons, Bool.and_eq_true, ih, List.mem_cons, not_or, isDot,
      decide_eq_true_eq]
    constructor
    · rintro ⟨h1, h2⟩
      exact ⟨fun h => h1 h.symm, h2⟩
    · rintro ⟨h1, h2⟩
      exact ⟨fun h => h1 h.symm, h2⟩

/-- C28. An identifier `s` is decoded if and only if `s = p ++ "-" ++ d` with
`p` non-empty and free of newlines and `d` a non-empty run of ASCII digits
whose value fits in `int`; it then decodes to topic `p` and the value of `d`.
So `-5` (empty topic) and a digit suffix that overflows `int` are skipped,
leading zeros are accepted, and `t-007` and `t-7` both decode to topic `t`,
partition 7 and count as one distinct partition. -/
theorem C28_acceptance_set (s : String) :
    ((decodePartition s).isSome = true ↔
        ∃ p d : List Char, s.data = p ++ '-' :: d ∧ p ≠ [] ∧ '\n' ∉ p ∧ d ≠ [] ∧
          d.all isDigit = true ∧ digitsValue d ≤ maxInt) ∧
      (∀ p d : List Char, s.data = p ++ '-' :: d → p ≠ [] → '\n' ∉ p → d ≠ [] →
        d.all isDigit = true → digitsValue d ≤ maxInt →
        decodePartition s = some (String.mk p, (digitsValue d : Int))) ∧
      decodePartition "-5" = none ∧
      decodePartition "t-9223372036854775808" = none ∧
      decodePartition "t-9223372036854775807" = some ("t", 9223372036854775807) ∧
      decodePartition "t-007" = some ("t", 7) ∧
      decodePartition "t-7" = some ("t", 7) ∧
      (convertKafkaLogDirsToReport leadingZerosResponse ["b1:9092"] "2024-01-01T00:00:00Z"
        (fun _ => 0)).Topics =
        [{ Topic := "t", TotalSize := 15, TotalSizeStr := "15 B", Partitions := 1 }] := by
  have hcomplete : ∀ p d : List Char, s.data = p ++ '-' :: d → p ≠ [] → '\n' ∉ p → d ≠ [] →
      d.all isDigit = true → digitsValue d ≤ maxInt →
      decodePartition s = some (String.mk p, (digitsValue d : Int)) := by
    intro p d hs hp hnl hd hall hfit
    have hmk : s = String.mk (p ++ '-' :: d) := by
      rw [← hs]
    rw [hmk]
    exact decodePartition_complete p d hp ((all_isDot_iff p).mpr hnl) hd hall hfit
  refine ⟨⟨?_, ?_⟩, hcomplete, by decide, by decide, by decide, by decide, by decide,
    by decide⟩
  · intro h
    cases hd : decodePartition s with
    | none => rw [hd] at h; simp at h
    | some r =>
      obtain ⟨t, n⟩ := r
      obtain ⟨d, hs, hne, hdot, hdne, hall, hfit, -⟩ := decodePartition_sound s t n hd
      exact ⟨t.data, d, hs, hne, (all_isDot_iff t.data).mp hdot, hdne, hall, hfit⟩
  · rintro ⟨p, d, hs, hp, hnl, hd, hall, hfit⟩
    rw [hcomplete p d hs hp hnl hd hall hfit]
    rfl

/-! ## Empty results of the native collector -/

theorem nativeAggregate_empty_iff (brokerIDs : List BrokerQuery) (topicFilter : List String) :
    (nativeAggregate brokerIDs topicFilter).topicSizes.length = 0 ↔
      nativeRecords brokerIDs topicFilter = [] := by
  obtain ⟨-, hkeys, -⟩ := native_topicSizes brokerIDs topicFilter
  constructor
  · intro h
    have hnil : (nativeAggregate brokerIDs topicFilter).topicSizes = [] :=
      List.length_eq_zero.mp h
    cases hr : nativeRecords brokerIDs topicFilter with
    | nil => rfl
    | cons r rest =>
      have hmem : r.topic ∈ (nativeRecords brokerIDs topicFilter).map fun r => r.topic := by
        rw [hr]; simp
      have := (hkeys r.topic).mpr hmem
      rw [hnil] at this
      simp at this
  · intro h
    cases hm : (nativeAggregate brokerIDs topicFilter).topicSizes with
    | nil => rfl
    | cons e rest =>
      have hmem : e.1 ∈ (nativeAggregate brokerIDs topicFilter).topicSizes.map Prod.fst := by
        rw [hm]; simp
      have := (hkeys e.1).mp hmem
      rw [h] at this
      simp at this

theorem client_error_ne (err : String) :
    "error creating client: " ++ err ≠ "no topic size data retrieved" := by
  intro h
  have h2 := congrArg (fun s : String => s.data.head?) h
  simp only [String.data_append] at h2
  simp at h2

/-- C21. `getTopicSizes` fails with "no topic size data retrieved" exactly
when the client was created and no partition size entry was accumulated over
all brokers (no record reaches the maps); when at least one entry was
accumulated it returns a report whose topics are those of the accumulated
entries, whatever brokers or log dirs were skipped.  In `sampleClient` one of
three brokers is unreachable and a report is returned; in `emptyClient` no
broker yields an entry and the call fails. -/
theorem C21_native_empty_result (brokers : List String)
    (client : Except String (List BrokerQuery)) (topicFilter : List String) (now : String)
    (rnd : Nat → Nat) :
    (getTopicSizes brokers client topicFilter now rnd = .error "no topic size data retrieved" ↔
        ∃ brokerIDs, client = .ok brokerIDs ∧ nativeRecords brokerIDs topicFilter = []) ∧
      (∀ brokerIDs, client = .ok brokerIDs → nativeRecords brokerIDs topicFilter ≠ [] →
        ∃ R, getTopicSizes brokers client topicFilter now rnd = .ok R ∧
          R.Topics.Perm (aggregatedTopics (nativeRecords brokerIDs topicFilter)) ∧
          R.Topics ≠ [] ∧ R.TotalTopics = R.Topics.length) ∧
      getTopicSizes ["b1:9092", "b2:9092"] sampleClient [] "2024-01-01T00:00:00Z" (fun _ => 0) =
        .ok sampleNativeReport ∧
      getTopicSizes ["b1:9092"] emptyClient [] now rnd =
        .error "no topic size data retrieved" := by
  refine ⟨⟨?_, ?_⟩, ?_, rfl, rfl⟩
  · intro h
    cases client with
    | error err =>
      simp only [getTopicSizes] at h
      exact absurd (Except.error.inj h) (client_error_ne err)
    | ok brokerIDs =>
      refine ⟨brokerIDs, rfl, ?_⟩
      by_cases h0 : (nativeAggregate brokerIDs topicFilter).topicSizes.length = 0
      · exact (nativeAggregate_empty_iff brokerIDs topicFilter).mp h0
      · simp only [getTopicSizes, h0, if_false] at h
        cases h
  · rintro ⟨brokerIDs, rfl, hrec⟩
    have h0 := (nativeAggregate_empty_iff brokerIDs topicFilter).mpr hrec
    simp only [getTopicSizes, h0, if_true]
  · rintro brokerIDs rfl hrec
    have h0 : ¬ (nativeAggregate brokerIDs topicFilter).topicSizes.length = 0 :=
      fun h => hrec ((nativeAggregate_empty_iff brokerIDs topicFilter).mp h)
    have hok : ∃ R, getTopicSizes brokers (.ok brokerIDs) topicFilter now rnd = .ok R := by
      simp only [getTopicSizes, h0, if_false]
      exact ⟨_, rfl⟩
    obtain ⟨R, hR⟩ := hok
    obtain ⟨ids, hids, hperm, -, -, -, htot⟩ :=
      native_report brokers (.ok brokerIDs) topicFilter now rnd R hR
    have hids2 : ids = brokerIDs := (Except.ok.inj hids).symm
    subst hids2
    refine ⟨R, hR, hperm, ?_, htot⟩
    intro hnil
    rw [hnil] at hperm
    have hagg := hperm.symm.eq_nil
    cases hr : nativeRecords ids topicFilter with
    | nil => exact hrec hr
    | cons r rest =>
      have : (aggregatedTopics (nativeRecords ids topicFilter)).length ≠ 0 := by
        simp only [aggregatedTopics, List.length_map, hr, List.map_cons]
        intro h
        have := List.length_eq_zero.mp h
        have hmem : r.topic ∈ (r.topic :: rest.map fun r => r.topic).dedup :=
          List.mem_dedup.mpr (List.mem_cons_self _ _)
        rw [this] at hmem
        simp at hmem
      rw [hagg] at this
      exact this rfl

/-! ## Topics whose description fails -/

/-- The broker metrics depend on the topic map and on the order in which it is
visited only through the collection of described partitions. -/
theorem brokerMetrics_congr (clusterInfo : KafkaClusterInfo)
    (topics1 topics2 : List (String × TopicDetail))
    (describeTopics : String → Option (List TopicMetadata)) (apiVersions : String → Bool)
    (rnd1 rnd2 : Nat → Nat)
    (hperm : (describedPartitions topics1 describeTopics).Perm
      (describedPartitions topics2 describeTopics)) :
    brokerMetrics clusterInfo topics1 describeTopics apiVersions rnd1 =
      brokerMetrics clusterInfo topics2 describeTopics apiVersions rnd2 := by
  by_cases he : clusterInfo.BrokerDetails = []
  · rw [brokerMetrics_empty _ _ _ _ _ he, brokerMetrics_empty _ _ _ _ _ he]
  · obtain ⟨st1, ⟨hp1, hl1, hu1, ht1⟩, e1⟩ :=
      brokerMetrics_nonempty clusterInfo topics1 describeTopics apiVersions rnd1 he
    obtain ⟨st2, ⟨hp2, hl2, hu2, ht2⟩, e2⟩ :=
      brokerMetrics_nonempty clusterInfo topics2 describeTopics apiVersions rnd2 he
    have hP : (describedPartitions (mapRange (rnd1 0) topics1) describeTopics).Perm
        (describedPartitions (mapRange (rnd2 0) topics2) describeTopics) :=
      ((describedPartitions_perm topics1 describeTopics (rnd1 0)).trans hperm).trans
        (describedPartitions_perm topics2 describeTopics (rnd2 0)).symm
    have hfill : ∀ b : BrokerInfo, fillBroker st1 apiVersions b = fillBroker st2 apiVersions b := by
      intro b
      have a1 : (mapGet st1.brokerPartitions b.ID).getD 0 =
          (mapGet st2.brokerPartitions b.ID).getD 0 := by
        rw [hp1 b.ID, hp2 b.ID]
        exact replicaOccurrences_perm hP b.ID
      have a2 : (mapGet st1.brokerLeaders b.ID).getD 0 =
          (mapGet st2.brokerLeaders b.ID).getD 0 := by
        rw [hl1 b.ID, hl2 b.ID]
        exact (hP.filter _).length_eq
      have a3 : (mapGet st1.brokerURPs b.ID).getD 0 = (mapGet st2.brokerURPs b.ID).getD 0 := by
        rw [hu1 b.ID, hu2 b.ID]
        exact replicaOccurrences_perm (hP.filter _) b.ID
      simp only [fillBroker, a1, a2, a3]
    have htot : st1.TotalURPs = st2.TotalURPs := by
      rw [ht1, ht2, (hP.filter _).length_eq]
    rw [e1, e2, htot]
    congr 1
    exact List.map_congr_left fun b _ => hfill b

theorem describedPartitions_filter (keep : String → Bool)
    (describeTopics : String → Option (List TopicMetadata))
    (topics : List (String × TopicDetail))
    (h : ∀ e ∈ topics, keep e.1 = false → describeTopics e.1 = none) :
    describedPartitions (topics.filter fun e => keep e.1) describeTopics =
      describedPartitions topics describeTopics := by
  induction topics with
  | nil => rfl
  | cons e rest ih =>
    have ih2 := ih fun x hx => h x (List.mem_cons_of_mem _ hx)
    unfold describedPartitions at ih2 ⊢
    by_cases hk : keep e.1 = true
    · simp only [List.filter_cons, hk, if_true, List.flatMap_cons, ih2]
    · simp only [Bool.not_eq_true] at hk
      have hn := h e (List.mem_cons_self _ _) hk
      simp only [List.filter_cons, hk, Bool.false_eq_true, if_false, List.flatMap_cons, ih2, hn,
        Option.getD_none, List.flatMap_nil, List.nil_append]

/-- C23. If `DescribeTopics` fails for topic `t`, the loop skips the topic and
goes on, and the snapshot is the one computed from the topic map without `t`:
every broker's `Partitions`, `Leaders` and `UnderReplicated` and the cluster
`TotalURPs` are the counts over the described partitions of the remaining
topics, whatever the iteration orders.  The same holds for all failing topics
together. -/
theorem C23_failed_describe_skipped (now : String) (brokerList : List String)
    (metadata : Option (List (Int × String))) (topicInfos : List TopicInfo)
    (topics : List (String × TopicDetail))
    (describeTopics : String → Option (List TopicMetadata)) (apiVersions : String → Bool)
    (rnd1 rnd2 : Nat → Nat) (t : String) (ht : describeTopics t = none) :
    topologySnapshot now brokerList metadata topicInfos topics describeTopics apiVersions rnd1 =
        topologySnapshot now brokerList metadata topicInfos
          (topics.filter fun e => decide (e.1 ≠ t)) describeTopics apiVersions rnd2 ∧
      topologySnapshot now brokerList metadata topicInfos topics describeTopics apiVersions rnd1 =
        topologySnapshot now brokerList metadata topicInfos
          (topics.filter fun e => (describeTopics e.1).isSome) describeTopics apiVersions rnd2 ∧
      (∀ st : MetricsState, countTopic describeTopics st t = st) ∧
      (∀ b ∈ (topologySnapshot now brokerList metadata topicInfos topics describeTopics
          apiVersions rnd1).BrokerDetails,
        b.Partitions = replicaOccurrences
          (describedPartitions (topics.filter fun e => decide (e.1 ≠ t)) describeTopics) b.ID ∧
        b.Leaders = ((describedPartitions (topics.filter fun e => decide (e.1 ≠ t))
          describeTopics).filter fun p => decide (p.Leader ≥ 0 ∧ p.Leader = b.ID)).length ∧
        b.UnderReplicated = replicaOccurrences
          ((describedPartitions (topics.filter fun e => decide (e.1 ≠ t))
            describeTopics).filter isURP) b.ID) ∧
      (metadata.getD [] ≠ [] →
        (topologySnapshot now brokerList metadata topicInfos topics describeTopics
          apiVersions rnd1).TotalURPs =
          ((describedPartitions (topics.filter fun e => decide (e.1 ≠ t))
            describeTopics).filter isURP).length) := by
  have hf1 : describedPartitions (topics.filter fun e => decide (e.1 ≠ t)) describeTopics =
      describedPartitions topics describeTopics := by
    apply describedPartitions_filter (fun name => decide (name ≠ t))
    intro e _ hk
    have : e.1 = t := by simpa using hk
    rw [this, ht]
  have hf2 : describedPartitions (topics.filter fun e => (describeTopics e.1).isSome)
      describeTopics = describedPartitions topics describeTopics := by
    apply describedPartitions_filter (fun name => (describeTopics name).isSome)
    intro e _ hk
    cases hd : describeTopics e.1 with
    | none => rfl
    | some v => rw [hd] at hk; simp at hk
  refine ⟨?_, ?_, ?_, ?_, ?_⟩
  · unfold topologySnapshot
    exact brokerMetrics_congr _ _ _ _ _ _ _ (by rw [hf1])
  · unfold topologySnapshot
    exact brokerMetrics_congr _ _ _ _ _ _ _ (by rw [hf2])
  · intro st
    simp only [countTopic, ht]
  · intro b hb
    obtain ⟨st, ⟨hp, hl, hu, -⟩, e1, e2, e3⟩ := topologySnapshot_broker now brokerList metadata
      topicInfos topics describeTopics apiVersions rnd1 b hb
    have hP := describedPartitions_perm topics describeTopics (rnd1 0)
    rw [hf1]
    refine ⟨?_, ?_, ?_⟩
    · rw [e1, hp b.ID]
      exact replicaOccurrences_perm hP b.ID
    · rw [e2, hl b.ID]
      exact (hP.filter _).length_eq
    · rw [e3, hu b.ID]
      exact replicaOccurrences_perm (hP.filter _) b.ID
  · intro hne
    rw [hf1]
    have hbd : (withTopics (collectBrokers (newClusterInfo now brokerList) metadata)
        topicInfos).BrokerDetails ≠ [] := by
      cases metadata with
      | none => simp at hne
      | some bs =>
        simp only [Option.getD_some] at hne
        simp only [withTopics, collectBrokers, newClusterInfo]
        intro h
        exact hne (List.map_eq_nil_iff.mp h)
    obtain ⟨st, ⟨-, -, -, htot⟩, e⟩ := brokerMetrics_nonempty
      (withTopics (collectBrokers (newClusterInfo now brokerList) metadata) topicInfos)
      topics describeTopics apiVersions rnd1 hbd
    unfold topologySnapshot
    rw [e]
    show st.TotalURPs = _
    rw [htot, (filter_isURP_perm topics describeTopics (rnd1 0)).length_eq]
    have h0 : (withTopics (collectBrokers (newClusterInfo now brokerList) metadata)
        topicInfos).TotalURPs = 0 := by
      cases metadata <;> rfl
    rw [h0, Nat.zero_add]

/-- Witness of C23: the scenario with the topic `orders`, whose description
fails, added to the topic map. -/
theorem C23_failed_describe_skipped_witness :
    scenarioDescribe "orders" = none ∧
      topologySnapshot "2024-01-01T00:00:00Z" ["b1:9092"] scenarioMetadata []
          scenarioTopicsWithFailure scenarioDescribe (fun _ => false) (fun _ => 0) =
        topologySnapshot "2024-01-01T00:00:00Z" ["b1:9092"] scenarioMetadata []
          (scenarioTopicsWithFailure.filter fun e => decide (e.1 ≠ "orders")) scenarioDescribe
          (fun _ => false) (fun _ => 1) :=
  ⟨by decide,
    (C23_failed_describe_skipped "2024-01-01T00:00:00Z" ["b1:9092"] scenarioMetadata []
      scenarioTopicsWithFailure scenarioDescribe (fun _ => false) (fun _ => 0) (fun _ => 1)
      "orders" (by decide)).1⟩

/-! ## Order independence of the aggregation -/

theorem flatMap_perm_of_forall₂ {α β γ : Type} (f : α → List γ) (g : β → List γ)
    {l1 : List α} {l2 : List β} (h : List.Forall₂ (fun a b => (f a).Perm (g b)) l1 l2) :
    (l1.flatMap f).Perm (l2.flatMap g) := by
  induction h with
  | nil => exact List.Perm.refl _
  | cons hab _ ih =>
    simp only [List.flatMap_cons]
    exact hab.append ih

theorem logDirRecords_perm {a b : KafkaLogDir} (h : LogDirPerm a b) :
    (logDirRecords a).Perm (logDirRecords b) := by
  obtain ⟨-, he, hp⟩ := h
  unfold logDirRecords
  rw [he]
  split
  · exact List.Perm.refl _
  · exact hp.flatMap_right _

theorem brokerRecords_perm {a b : KafkaBrokerLogDirs} (h : BrokerPerm a b) :
    (a.LogDirs.flatMap logDirRecords).Perm (b.LogDirs.flatMap logDirRecords) := by
  obtain ⟨-, l, hp, hf⟩ := h
  refine (hp.flatMap_right _).trans (flatMap_perm_of_forall₂ _ _ ?_)
  exact hf.imp fun _ _ hab => logDirRecords_perm hab

theorem convertRecords_eq (kafkaResponse : KafkaLogDirsResponse) :
    convertRecords kafkaResponse =
      kafkaResponse.Brokers.flatMap fun broker => broker.LogDirs.flatMap logDirRecords := rfl

theorem convertRecords_perm {a b : KafkaLogDirsResponse} (h : ResponsePerm a b) :
    (convertRecords a).Perm (convertRecords b) := by
  obtain ⟨l, hp, hf⟩ := h
  rw [convertRecords_eq, convertRecords_eq]
  refine (hp.flatMap_right _).trans (flatMap_perm_of_forall₂ _ _ ?_)
  exact hf.imp fun _ _ hab => brokerRecords_perm hab

theorem expectedTopic_perm {recs1 recs2 : List SizeRecord} (h : recs1.Perm recs2) (t : String) :
    expectedTopic recs1 t = expectedTopic recs2 t := by
  have hb : topicBytes recs1 t = topicBytes recs2 t :=
    sumInt64_perm ((h.filter _).map _)
  have hd : distinctPartitions recs1 t = distinctPartitions recs2 t :=
    (((h.filter _).map _).dedup).length_eq
  simp only [expectedTopic, hb, hd]

theorem aggregatedTopics_perm {recs1 recs2 : List SizeRecord} (h : recs1.Perm recs2) :
    (aggregatedTopics recs1).Perm (aggregatedTopics recs2) := by
  unfold aggregatedTopics
  have hf : expectedTopic recs1 = expectedTopic recs2 := funext (expectedTopic_perm h)
  rw [hf]
  exact ((h.map _).dedup).map _

theorem LogDirPerm_refl (a : KafkaLogDir) : LogDirPerm a a := ⟨rfl, rfl, List.Perm.refl _⟩

theorem forall₂_refl {α : Type} (r : α → α → Prop) (hr : ∀ a, r a a) :
    ∀ l : List α, List.Forall₂ r l l
  | [] => List.Forall₂.nil
  | a :: l => List.Forall₂.cons (hr a) (forall₂_refl r hr l)

theorem BrokerPerm_refl (a : KafkaBrokerLogDirs) : BrokerPerm a a :=
  ⟨rfl, a.LogDirs, List.Perm.refl _, forall₂_refl _ LogDirPerm_refl _⟩

theorem sampleResponse_perm : ResponsePerm sampleResponse sampleResponsePermuted := by
  refine ⟨[sampleResponse.Brokers.get ⟨2, by decide⟩, sampleResponse.Brokers.get ⟨0, by decide⟩,
    sampleResponse.Brokers.get ⟨1, by decide⟩], by decide, ?_⟩
  refine List.Forall₂.cons (BrokerPerm_refl _) (List.Forall₂.cons ?_
    (List.Forall₂.cons (BrokerPerm_refl _) List.Forall₂.nil))
  refine ⟨rfl, [{ LogDir := "/data2", Error := some "offline"
                  Partitions :=
                    [{ Partition := "events-7", Size := 999, OffsetLag := 0,
                       IsFuture := false }] },
                { LogDir := "/data1", Error := none
                  Partitions :=
                    [{ Partition := "events-0", Size := 100, OffsetLag := 0, IsFuture := false },
                     { Partition := "events-1", Size := 50, OffsetLag := 0, IsFuture := false },
                     { Partition := "orders-0", Size := 2048, OffsetLag := 0,
                       IsFuture := false }] }], by decide, ?_⟩
  exact List.Forall₂.cons (LogDirPerm_refl _)
    (List.Forall₂.cons ⟨rfl, rfl, by decide⟩ List.Forall₂.nil)

/-- C26. Size aggregation is order-independent: two responses that differ only
in the order of the brokers, of the log dirs inside a broker and of the
partition entries inside a log dir give reports with the same `TotalSize`,
`TotalSizeStr`, `TotalPartitions` and `TotalTopics` and the same per-topic
records (the topic lists are permutations of each other), whatever the
iteration orders chosen in the two runs. -/
theorem C26_order_independent (r1 r2 : KafkaLogDirsResponse) (h : ResponsePerm r1 r2)
    (brokers1 brokers2 : List String) (now1 now2 : String) (rnd1 rnd2 : Nat → Nat) :
    (convertKafkaLogDirsToReport r1 brokers1 now1 rnd1).TotalSize =
        (convertKafkaLogDirsToReport r2 brokers2 now2 rnd2).TotalSize ∧
      (convertKafkaLogDirsToReport r1 brokers1 now1 rnd1).TotalPartitions =
        (convertKafkaLogDirsToReport r2 brokers2 now2 rnd2).TotalPartitions ∧
      (convertKafkaLogDirsToReport r1 brokers1 now1 rnd1).TotalTopics =
        (convertKafkaLogDirsToReport r2 brokers2 now2 rnd2).TotalTopics ∧
      (convertKafkaLogDirsToReport r1 brokers1 now1 rnd1).Topics.Perm
        (convertKafkaLogDirsToReport r2 brokers2 now2 rnd2).Topics ∧
      (convertKafkaLogDirsToReport r1 brokers1 now1 rnd1).TotalSizeStr =
        (convertKafkaLogDirsToReport r2 brokers2 now2 rnd2).TotalSizeStr := by
  obtain ⟨hp1, -, hs1, hn1, ht1⟩ := convert_report r1 brokers1 now1 rnd1
  obtain ⟨hp2, -, hs2, hn2, ht2⟩ := convert_report r2 brokers2 now2 rnd2
  have hperm : (convertKafkaLogDirsToReport r1 brokers1 now1 rnd1).Topics.Perm
      (convertKafkaLogDirsToReport r2 brokers2 now2 rnd2).Topics :=
    (hp1.trans (aggregatedTopics_perm (convertRecords_perm h))).trans hp2.symm
  have hsize : (convertKafkaLogDirsToReport r1 brokers1 now1 rnd1).TotalSize =
      (convertKafkaLogDirsToReport r2 brokers2 now2 rnd2).TotalSize := by
    rw [hs1, hs2]
    exact sumInt64_perm (hperm.map _)
  have hstr : ∀ (r : KafkaLogDirsResponse) (bs : List String) (now : String) (rnd : Nat → Nat),
      (convertKafkaLogDirsToReport r bs now rnd).TotalSizeStr =
        formatBytes (convertKafkaLogDirsToReport r bs now rnd).TotalSize := fun _ _ _ _ => rfl
  refine ⟨hsize, ?_, ?_, hperm, ?_⟩
  · rw [hn1, hn2]
    exact (hperm.map _).sum_eq
  · rw [ht1, ht2]
    exact hperm.length_eq
  · rw [hstr, hstr, hsize]

/-- Witness of C26: the sample response and a reordering of it. -/
theorem C26_order_independent_witness :
    ResponsePerm sampleResponse sampleResponsePermuted ∧
      (convertKafkaLogDirsToReport sampleResponse ["b1:9092"] "t1" (fun _ => 0)).Topics.Perm
        (convertKafkaLogDirsToReport sampleResponsePermuted ["b1:9092"] "t2"
          (fun _ => 1)).Topics :=
  ⟨sampleResponse_perm,
    (C26_order_independent sampleResponse sampleResponsePermuted sampleResponse_perm
      ["b1:9092"] ["b1:9092"] "t1" "t2" (fun _ => 0) (fun _ => 1)).2.2.2.1⟩

/-! ## The two collectors on the same records -/

theorem decodePartition_encode (t : String) (n : Nat) (ht : t ≠ "") (hnl : '\n' ∉ t.data)
    (hn : n ≤ maxInt) : decodePartition (t ++ "-" ++ toString n) = some (t, (n : Int)) := by
  obtain ⟨h1, h2, h3⟩ := repr_digits n
  have e : t ++ "-" ++ toString n = String.mk (t.data ++ '-' :: (toString n).data) := by
    apply String.ext
    simp [String.data_append]
  have := decodePartition_complete t.data (toString n).data (string_data_ne_nil ht)
    ((all_isDot_iff t.data).mpr hnl) h1 h2 (by rw [h3]; exact hn)
  rw [e, this, h3]

theorem decodePartition_encodeRecord (r : SizeRecord) (ht : r.topic ≠ "")
    (hnl : '\n' ∉ r.topic.data) (h0 : 0 ≤ r.partition) (hn : r.partition ≤ maxInt) :
    decodePartition (encodeRecord r).Partition = some (r.topic, r.partition) := by
  obtain ⟨t, p, s⟩ := r
  cases p with
  | ofNat n =>
    have hn2 : n ≤ maxInt := by
      have hn3 : ((n : Nat) : Int) ≤ (maxInt : Int) := hn
      exact_mod_cast hn3
    exact decodePartition_encode t n ht hnl hn2
  | negSucc n => exact absurd h0 (by simp)

theorem convertRecords_fallbackInput (recs : List SizeRecord)
    (hok : ∀ r ∈ recs, r.topic ≠ "" ∧ '\n' ∉ r.topic.data ∧ 0 ≤ r.partition ∧
      r.partition ≤ maxInt) :
    convertRecords (fallbackInput recs) = recs := by
  have hflat : ∀ l : List SizeRecord,
      (∀ r ∈ l, r.topic ≠ "" ∧ '\n' ∉ r.topic.data ∧ 0 ≤ r.partition ∧
        r.partition ≤ maxInt) →
      ((l.map encodeRecord).flatMap fun partition =>
        match decodePartition partition.Partition with
        | none => ([] : List SizeRecord)
        | some d => [{ topic := d.1, partition := d.2, size := partition.Size }]) = l := by
    intro l
    induction l with
    | nil => intro _; rfl
    | cons r l ih =>
      intro h
      obtain ⟨h1, h2, h3, h4⟩ := h r (List.mem_cons_self _ _)
      have hd := decodePartition_encodeRecord r h1 h2 h3 h4
      simp only [List.map_cons, List.flatMap_cons, hd,
        ih fun x hx => h x (List.mem_cons_of_mem _ hx)]
      rfl
  simp only [convertRecords, fallbackInput, List.flatMap_cons, List.flatMap_nil,
    List.append_nil, Option.isSome_none, Bool.false_eq_true, if_false, hflat recs hok]

theorem nativeRecords_nativeInput (recs : List SizeRecord) :
    nativeRecords (nativeInput recs) [] = recs := by
  have hflat : ∀ l : List SizeRecord,
      ((l.map fun r : SizeRecord =>
          ({ Topic := r.topic
             Partitions :=
               [{ PartitionID := r.partition, Size := r.size, OffsetLag := 0,
                  IsTemporary := false }] } : DescribeLogDirsResponseTopic)).flatMap
        fun topicInfo =>
          if ([] : List String).length > 0 ∧ contains [] topicInfo.Topic = false then []
          else topicInfo.Partitions.map fun p =>
            ({ topic := topicInfo.Topic, partition := p.PartitionID, size := p.Size } :
              SizeRecord)) = l := by
    intro l
    induction l with
    | nil => rfl
    | cons r l ih =>
      simp only [List.map_cons, List.flatMap_cons, ih]
      simp
  simp only [nativeRecords, nativeInput, List.flatMap_cons, List.flatMap_nil, List.append_nil,
    Option.getD_some]
  simp only [Bool.true_eq_false, false_and, if_false, ne_eq, not_true_eq_false, hflat recs]

/-- When some partition entry is accumulated the native collector returns a
report. -/
theorem getTopicSizes_ok (brokers : List String) (brokerIDs : List BrokerQuery)
    (topicFilter : List String) (now : String) (rnd : Nat → Nat)
    (hrec : nativeRecords brokerIDs topicFilter ≠ []) :
    ∃ R, getTopicSizes brokers (.ok brokerIDs) topicFilter now rnd = .ok R ∧
      R.TotalSizeStr = formatBytes R.TotalSize := by
  have h0 : ¬ (nativeAggregate brokerIDs topicFilter).topicSizes.length = 0 :=
    fun h => hrec ((nativeAggregate_empty_iff brokerIDs topicFilter).mp h)
  simp only [getTopicSizes, h0, if_false]
  exact ⟨_, rfl, rfl⟩

/-- The two collectors agree whenever they receive the same records, in any
order and any arrangement over brokers and log dirs. -/
theorem collectors_agree (brokers : List String) (brokerIDs : List BrokerQuery)
    (topicFilter : List String) (kafkaResponse : KafkaLogDirsResponse) (now1 now2 : String)
    (rnd1 rnd2 : Nat → Nat) (N : TopicSizesReport)
    (hN : getTopicSizes brokers (.ok brokerIDs) topicFilter now1 rnd1 = .ok N)
    (hstr : N.TotalSizeStr = formatBytes N.TotalSize)
    (hrecs : (nativeRecords brokerIDs topicFilter).Perm (convertRecords kafkaResponse)) :
    N.Topics.Perm (convertKafkaLogDirsToReport kafkaResponse brokers now2 rnd2).Topics ∧
      N.TotalSize = (convertKafkaLogDirsToReport kafkaResponse brokers now2 rnd2).TotalSize ∧
      N.TotalSizeStr =
        (convertKafkaLogDirsToReport kafkaResponse brokers now2 rnd2).TotalSizeStr ∧
      N.TotalPartitions =
        (convertKafkaLogDirsToReport kafkaResponse brokers now2 rnd2).TotalPartitions ∧
      N.TotalTopics = (convertKafkaLogDirsToReport kafkaResponse brokers now2 rnd2).TotalTopics := by
  obtain ⟨ids, hids, hp1, -, hs1, hn1, ht1⟩ :=
    native_report brokers (.ok brokerIDs) topicFilter now1 rnd1 N hN
  have hids2 : ids = brokerIDs := (Except.ok.inj hids).symm
  subst hids2
  obtain ⟨hp2, -, hs2, hn2, ht2⟩ := convert_report kafkaResponse brokers now2 rnd2
  have hperm : N.Topics.Perm
      (convertKafkaLogDirsToReport kafkaResponse brokers now2 rnd2).Topics :=
    (hp1.trans (aggregatedTopics_perm hrecs)).trans hp2.symm
  have hsize : N.TotalSize =
      (convertKafkaLogDirsToReport kafkaResponse brokers now2 rnd2).TotalSize := by
    rw [hs1, hs2]
    exact sumInt64_perm (hperm.map _)
  have hstr2 : (convertKafkaLogDirsToReport kafkaResponse brokers now2 rnd2).TotalSizeStr =
      formatBytes (convertKafkaLogDirsToReport kafkaResponse brokers now2 rnd2).TotalSize := rfl
  refine ⟨hperm, hsize, ?_, ?_, ?_⟩
  · rw [hstr, hstr2, hsize]
  · rw [hn1, hn2]
    exact (hperm.map _).sum_eq
  · rw [ht1, ht2]
    exact hperm.length_eq

/-- Counterexample to C27 as stated: the record list `negativeRecords` is not
empty and its topic name `t` is not empty and has no newline, yet the two
collectors disagree: the native collector reports topic `t`, while the encoded
identifier `t--1` decodes to topic `t-`, partition 1, so the fallback
collector reports topic `t-`. -/
theorem C27_collectors_reconcile_counterexample :
    negativeRecords ≠ [] ∧
      (∀ r ∈ negativeRecords, r.topic ≠ "" ∧ '\n' ∉ r.topic.data) ∧
      (encodeRecord { topic := "t", partition := -1, size := 5 }).Partition = "t--1" ∧
      getTopicSizes ["b1:9092"] (.ok (nativeInput negativeRecords)) [] "2024-01-01T00:00:00Z"
          (fun _ => 0) =
        .ok { Timestamp := "2024-01-01T00:00:00Z", Cluster := "b1:9092",
              Topics := [{ Topic := "t", TotalSize := 5, TotalSizeStr := "5 B",
                           Partitions := 1 }],
              TotalSize := 5, TotalSizeStr := "5 B", TotalTopics := 1, TotalPartitions := 1 } ∧
      (convertKafkaLogDirsToReport (fallbackInput negativeRecords) ["b1:9092"]
          "2024-01-01T00:00:00Z" (fun _ => 0)).Topics =
        [{ Topic := "t-", TotalSize := 5, TotalSizeStr := "5 B", Partitions := 1 }] ∧
      ¬ ∃ N, getTopicSizes ["b1:9092"] (.ok (nativeInput negativeRecords)) []
            "2024-01-01T00:00:00Z" (fun _ => 0) = .ok N ∧
          N.Topics.Perm
            (convertKafkaLogDirsToReport (fallbackInput negativeRecords) ["b1:9092"]
              "2024-01-01T00:00:00Z" (fun _ => 0)).Topics := by
  have hN : getTopicSizes ["b1:9092"] (.ok (nativeInput negativeRecords)) []
      "2024-01-01T00:00:00Z" (fun _ => 0) =
      .ok { Timestamp := "2024-01-01T00:00:00Z", Cluster := "b1:9092",
            Topics := [{ Topic := "t", TotalSize := 5, TotalSizeStr := "5 B",
                         Partitions := 1 }],
            TotalSize := 5, TotalSizeStr := "5 B", TotalTopics := 1, TotalPartitions := 1 } := by
    rfl
  have hF : (convertKafkaLogDirsToReport (fallbackInput negativeRecords) ["b1:9092"]
      "2024-01-01T00:00:00Z" (fun _ => 0)).Topics =
      [{ Topic := "t-", TotalSize := 5, TotalSizeStr := "5 B", Partitions := 1 }] := by
    decide
  refine ⟨by decide, by decide, by decide, hN, hF, ?_⟩
  rintro ⟨N, hN2, hperm⟩
  rw [hN] at hN2
  have hN3 := Except.ok.inj hN2
  rw [← hN3, hF] at hperm
  revert hperm
  decide

/-- C27 (amended). The two collectors reconcile: for a non-empty list of
replica records whose topic names are non-empty and free of newlines and whose
partition numbers are not negative (`0 ≤ partition ≤ max int`), the native
collector on the records returns a report, and that report and the report of
`convertKafkaLogDirsToReport` on the same records encoded as
`<topic>-<partition>` have the same per-topic records (topic, `TotalSize`,
`TotalSizeStr`, `Partitions`) and the same `TotalSize`, `TotalSizeStr`,
`TotalPartitions` and `TotalTopics`; the per-topic records are those of the
aggregation of the records. -/
theorem C27_collectors_reconcile (recs : List SizeRecord) (hne : recs ≠ [])
    (hok : ∀ r ∈ recs, r.topic ≠ "" ∧ '\n' ∉ r.topic.data ∧ 0 ≤ r.partition ∧
      r.partition ≤ maxInt)
    (brokers : List String) (now1 now2 : String) (rnd1 rnd2 : Nat → Nat) :
    ∃ N, getTopicSizes brokers (.ok (nativeInput recs)) [] now1 rnd1 = .ok N ∧
      N.Topics.Perm
        (convertKafkaLogDirsToReport (fallbackInput recs) brokers now2 rnd2).Topics ∧
      N.TotalSize =
        (convertKafkaLogDirsToReport (fallbackInput recs) brokers now2 rnd2).TotalSize ∧
      N.TotalSizeStr =
        (convertKafkaLogDirsToReport (fallbackInput recs) brokers now2 rnd2).TotalSizeStr ∧
      N.TotalPartitions =
        (convertKafkaLogDirsToReport (fallbackInput recs) brokers now2 rnd2).TotalPartitions ∧
      N.TotalTopics =
        (convertKafkaLogDirsToReport (fallbackInput recs) brokers now2 rnd2).TotalTopics ∧
      N.Topics.Perm (aggregatedTopics recs) := by
  have hn : nativeRecords (nativeInput recs) [] = recs := nativeRecords_nativeInput recs
  have hc : convertRecords (fallbackInput recs) = recs := convertRecords_fallbackInput recs hok
  obtain ⟨N, hN, hstr⟩ := getTopicSizes_ok brokers (nativeInput recs) [] now1 rnd1
    (by rw [hn]; exact hne)
  obtain ⟨h1, h2, h3, h4, h5⟩ := collectors_agree brokers (nativeInput recs) []
    (fallbackInput recs) now1 now2 rnd1 rnd2 N hN hstr (by rw [hn, hc])
  refine ⟨N, hN, h1, h2, h3, h4, h5, ?_⟩
  obtain ⟨ids, hids, hp1, -⟩ := native_report brokers (.ok (nativeInput recs)) [] now1 rnd1 N hN
  have hids2 : ids = nativeInput recs := (Except.ok.inj hids).symm
  subst hids2
  rw [hn] at hp1
  exact hp1

/-- Witness of C27: the sample records, with a topic name that itself ends in
a hyphen and digits. -/
theorem C27_collectors_reconcile_witness :
    ∃ N, getTopicSizes ["b1:9092"] (.ok (nativeInput sampleRecords)) [] "t1" (fun _ => 0) =
        .ok N ∧
      N.Topics.Perm
        (convertKafkaLogDirsToReport (fallbackInput sampleRecords) ["b1:9092"] "t2"
          (fun _ => 1)).Topics ∧
      N.TotalSize =
        (convertKafkaLogDirsToReport (fallbackInput sampleRecords) ["b1:9092"] "t2"
          (fun _ => 1)).TotalSize ∧
      N.TotalSizeStr =
        (convertKafkaLogDirsToReport (fallbackInput sampleRecords) ["b1:9092"] "t2"
          (fun _ => 1)).TotalSizeStr ∧
      N.TotalPartitions =
        (convertKafkaLogDirsToReport (fallbackInput sampleRecords) ["b1:9092"] "t2"
          (fun _ => 1)).TotalPartitions ∧
      N.TotalTopics =
        (convertKafkaLogDirsToReport (fallbackInput sampleRecords) ["b1:9092"] "t2"
          (fun _ => 1)).TotalTopics ∧
      N.Topics.Perm (aggregatedTopics sampleRecords) :=
  C27_collectors_reconcile sampleRecords (by decide) (by decide) ["b1:9092"] "t1" "t2"
    (fun _ => 0) (fun _ => 1)

/-! ## The fallback collector: selection of the JSON line -/

theorem splitNewline_ne_nil : ∀ s : List Char, splitNewline s ≠ []
  | [] => by simp [splitNewline]
  | c :: cs => by
    unfold splitNewline
    split
    · simp
    · split <;> simp

theorem splitNewline_append (a b : List Char) :
    splitNewline (a ++ '\n' :: b) = splitNewline a ++ splitNewline b := by
  induction a with
  | nil => simp [splitNewline]
  | cons c a ih =>
    by_cases hc : c = '\n'
    · rw [List.cons_append]
      simp only [splitNewline, hc, if_true, ih, List.cons_append]
    · cases hs : splitNewline a with
      | nil => exact absurd hs (splitNewline_ne_nil a)
      | cons l ls =>
        rw [List.cons_append]
        simp only [splitNewline, hc, if_false, ih, hs, List.cons_append]

theorem Split_append (status output : String) :
    Split (status ++ "\n" ++ output) = Split status ++ Split output := by
  have e : (status ++ "\n" ++ output).data = status.data ++ '\n' :: output.data := by
    simp [String.data_append]
  simp only [Split, e, splitNewline_append, List.map_append]

theorem findJSONLine_append (pre rest : List String)
    (h : ∀ l ∈ pre, HasPrefix (TrimSpace l) "\x7b" = false) :
    findJSONLine (pre ++ rest) = findJSONLine rest := by
  induction pre with
  | nil => rfl
  | cons l pre ih =>
    have hl := h l (List.mem_cons_self _ _)
    simp only [List.cons_append, findJSONLine, hl, Bool.false_eq_true, if_false]
    exact ih fun x hx => h x (List.mem_cons_of_mem _ hx)

theorem findJSONLine_cons (line : String) (post : List String)
    (h : HasPrefix (TrimSpace line) "\x7b" = true) : findJSONLine (line :: post) = line := by
  simp only [findJSONLine, h, if_true]

theorem json_line_ne_empty (line : String) (h : HasPrefix (TrimSpace line) "\x7b" = true) :
    line ≠ "" := by
  rintro rfl
  revert h
  decide

/-- The selected line is the first one that begins with a brace after
trimming; it is empty exactly when there is no such line. -/
theorem findJSONLine_spec (ls : List String) :
    (findJSONLine ls = "" ∧ ∀ l ∈ ls, HasPrefix (TrimSpace l) "\x7b" = false) ∨
      ∃ pre line post, ls = pre ++ line :: post ∧
        (∀ l ∈ pre, HasPrefix (TrimSpace l) "\x7b" = false) ∧
        HasPrefix (TrimSpace line) "\x7b" = true ∧ findJSONLine ls = line ∧ line ≠ "" := by
  induction ls with
  | nil => exact Or.inl ⟨rfl, fun l hl => by simp at hl⟩
  | cons x xs ih =>
    by_cases hx : HasPrefix (TrimSpace x) "\x7b" = true
    · exact Or.inr ⟨[], x, xs, rfl, fun l hl => by simp at hl, hx, findJSONLine_cons x xs hx,
        json_line_ne_empty x hx⟩
    · simp only [Bool.not_eq_true] at hx
      rcases ih with ⟨h1, h2⟩ | ⟨pre, line, post, h1, h2, h3, h4, h5⟩
      · refine Or.inl ⟨?_, ?_⟩
        · simp only [findJSONLine, hx, Bool.false_eq_true, if_false, h1]
        · intro l hl
          rcases List.mem_cons.mp hl with rfl | hl
          · exact hx
          · exact h2 l hl
      · refine Or.inr ⟨x :: pre, line, post, by rw [h1]; rfl, ?_, h3, ?_, h5⟩
        · intro l hl
          rcases List.mem_cons.mp hl with rfl | hl
          · exact hx
          · exact h2 l hl
        · simp only [findJSONLine, hx, Bool.false_eq_true, if_false, h4]

theorem parse_error_ne (err tail output : String) :
    "failed to parse kafka-log-dirs.sh output: " ++ err ++ "\nJSON: " ++ tail ≠
      "no JSON found in kafka-log-dirs.sh output: " ++ output := by
  intro h
  have h2 := congrArg (fun s : String => s.data.head?) h
  simp only [String.data_append, String.append_assoc] at h2
  simp at h2

theorem cli_result (brokers topicList : List String) (path file : String)
    (run : String → List String → Except (String × String) String)
    (unmarshal : String → Except String KafkaLogDirsResponse) (now : String) (rnd : Nat → Nat)
    (output : String) (hrun : run path (logDirsArgs brokers topicList file) = .ok output) :
    getTopicSizesFromKafkaCLI brokers topicList (.ok path) (.ok file) run unmarshal now rnd =
      if findJSONLine (Split output) = "" then
        .error ("no JSON found in kafka-log-dirs.sh output: " ++ output)
      else
        match unmarshal (findJSONLine (Split output)) with
        | .error err =>
          .error ("failed to parse kafka-log-dirs.sh output: " ++ err ++ "\nJSON: " ++
            String.mk (takeBytes (minInt (findJSONLine (Split output)).utf8ByteSize 500)
              (findJSONLine (Split output)).data))
        | .ok kafkaResponse => .ok (convertKafkaLogDirsToReport kafkaResponse brokers now rnd) := by
  simp only [getTopicSizesFromKafkaCLI, hrun]

/-- C25. When the external command succeeds with `output`, the fallback parser
takes the first of the lines of `output` (split at newlines) whose trimmed text
begins with an opening brace and decodes that line; it fails with the
"no JSON found" error if and only if no line begins with a brace after
trimming; status lines in front of the output that do not begin with a brace
do not change the result. -/
theorem C25_first_json_line (brokers topicList : List String) (path file : String)
    (run : String → List String → Except (String × String) String)
    (unmarshal : String → Except String KafkaLogDirsResponse) (now : String) (rnd : Nat → Nat)
    (output : String) (hrun : run path (logDirsArgs brokers topicList file) = .ok output) :
    (∀ (pre : List String) (line : String) (post : List String),
        Split output = pre ++ line :: post →
        (∀ l ∈ pre, HasPrefix (TrimSpace l) "\x7b" = false) →
        HasPrefix (TrimSpace line) "\x7b" = true →
        getTopicSizesFromKafkaCLI brokers topicList (.ok path) (.ok file) run unmarshal now
            rnd =
          match unmarshal line with
          | .error err =>
            .error ("failed to parse kafka-log-dirs.sh output: " ++ err ++ "\nJSON: " ++
              String.mk (takeBytes (minInt line.utf8ByteSize 500) line.data))
          | .ok kafkaResponse =>
            .ok (convertKafkaLogDirsToReport kafkaResponse brokers now rnd)) ∧
      (getTopicSizesFromKafkaCLI brokers topicList (.ok path) (.ok file) run unmarshal now rnd =
          .error ("no JSON found in kafka-log-dirs.sh output: " ++ output) ↔
        ∀ l ∈ Split output, HasPrefix (TrimSpace l) "\x7b" = false) ∧
      (∀ status : String, (∀ l ∈ Split status, HasPrefix (TrimSpace l) "\x7b" = false) →
        (∃ l ∈ Split output, HasPrefix (TrimSpace l) "\x7b" = true) →
        getTopicSizesFromKafkaCLI brokers topicList (.ok path) (.ok file)
            (fun _ _ => .ok (status ++ "\n" ++ output)) unmarshal now rnd =
          getTopicSizesFromKafkaCLI brokers topicList (.ok path) (.ok file) run unmarshal now
            rnd) := by
  have hres := cli_result brokers topicList path file run unmarshal now rnd output hrun
  refine ⟨?_, ⟨?_, ?_⟩, ?_⟩
  · intro pre line post hs hpre hline
    have hf : findJSONLine (Split output) = line := by
      rw [hs, findJSONLine_append pre _ hpre, findJSONLine_cons line post hline]
    rw [hres, hf, if_neg (json_line_ne_empty line hline)]
  · intro h
    rcases findJSONLine_spec (Split output) with ⟨-, h2⟩ | ⟨pre, line, post, -, -, -, h4, h5⟩
    · exact h2
    · rw [hres, h4, if_neg h5] at h
      cases hu : unmarshal line with
      | error err =>
        rw [hu] at h
        exact absurd (Except.error.inj h) (parse_error_ne _ _ _)
      | ok r =>
        rw [hu] at h
        cases h
  · intro h
    rcases findJSONLine_spec (Split output) with ⟨h1, -⟩ | ⟨pre, line, post, h1, -, h3, -, -⟩
    · rw [hres, if_pos h1]
    · have hmem : line ∈ Split output := by rw [h1]; simp
      rw [h line hmem] at h3
      cases h3
  · intro status hst hex
    have hres2 := cli_result brokers topicList path file
      (fun _ _ => .ok (status ++ "\n" ++ output)) unmarshal now rnd (status ++ "\n" ++ output) rfl
    have hf : findJSONLine (Split (status ++ "\n" ++ output)) = findJSONLine (Split output) := by
      rw [Split_append, findJSONLine_append _ _ hst]
    have hne : findJSONLine (Split output) ≠ "" := by
      rcases findJSONLine_spec (Split output) with ⟨-, h2⟩ | ⟨pre, line, post, -, -, -, h4, h5⟩
      · obtain ⟨l, hl, hj⟩ := hex
        rw [h2 l hl] at hj
        cases hj
      · rw [h4]; exact h5
    rw [hres, hres2, hf, if_neg hne, if_neg hne]

/-- Witness of C25: two status lines, then the JSON line. -/
theorem C25_first_json_line_witness :
    getTopicSizesFromKafkaCLI ["b1:9092"] [] (.ok "/opt/kafka/bin/kafka-log-dirs.sh") (.ok "")
        (fun _ _ => .ok emptyOutput) (fun _ => .ok sampleResponse) "2024-01-01T00:00:00Z"
        (fun _ => 0) =
      .ok (convertKafkaLogDirsToReport sampleResponse ["b1:9092"] "2024-01-01T00:00:00Z"
        (fun _ => 0)) :=
  (C25_first_json_line ["b1:9092"] [] "/opt/kafka/bin/kafka-log-dirs.sh" ""
    (fun _ _ => .ok emptyOutput) (fun _ => .ok sampleResponse) "2024-01-01T00:00:00Z"
    (fun _ => 0) emptyOutput rfl).1
    ["Querying brokers for log directories information",
     "Received log directory information from brokers 1"]
    "\x7b\"version\":1,\"brokers\":[]\x7d" [""] (by decide) (by decide) (by decide)

/-! ## The fallback collector on a response without size data -/

theorem convert_empty (kafkaResponse : KafkaLogDirsResponse) (brokers : List String)
    (now : String) (rnd : Nat → Nat) (h : convertRecords kafkaResponse = []) :
    (convertKafkaLogDirsToReport kafkaResponse brokers now rnd).Topics = [] ∧
      (convertKafkaLogDirsToReport kafkaResponse brokers now rnd).TotalTopics = 0 := by
  obtain ⟨hp, -, -, -, ht⟩ := convert_report kafkaResponse brokers now rnd
  rw [h] at hp
  have hnil : (convertKafkaLogDirsToReport kafkaResponse brokers now rnd).Topics = [] :=
    hp.eq_nil
  refine ⟨hnil, ?_⟩
  rw [ht, hnil]
  rfl

/-- C22 (what the code does). On the output `emptyOutput`, whose JSON line is a
response without brokers, `getTopicSizesFromKafkaCLI` returns a report without
topics and no error.  More generally, whenever the decoded response holds no
decodable partition entry in an error-free log dir (no brokers, every log dir
in error, every identifier unparseable), the function returns the report of
`convertKafkaLogDirsToReport`, which has no topics; and on no input does it
return the error "no topic size data retrieved", which only `getTopicSizes`
produces. -/
theorem C22_fallback_empty_report :
    getTopicSizesFromKafkaCLI ["b1:9092"] [] (.ok "/opt/kafka/bin/kafka-log-dirs.sh") (.ok "")
        (fun _ _ => .ok emptyOutput) (fun _ => .ok { Version := 1, Brokers := [] })
        "2024-01-01T00:00:00Z" (fun _ => 0) =
      .ok { Timestamp := "2024-01-01T00:00:00Z", Cluster := "b1:9092", Topics := [],
            TotalSize := 0, TotalSizeStr := "0 B", TotalTopics := 0, TotalPartitions := 0 } ∧
      (∀ (brokers topicList : List String) (path file : String)
          (run : String → List String → Except (String × String) String)
          (unmarshal : String → Except String KafkaLogDirsResponse) (now : String)
          (rnd : Nat → Nat) (output : String) (kafkaResponse : KafkaLogDirsResponse),
        run path (logDirsArgs brokers topicList file) = .ok output →
        findJSONLine (Split output) ≠ "" →
        unmarshal (findJSONLine (Split output)) = .ok kafkaResponse →
        convertRecords kafkaResponse = [] →
        ∃ R, getTopicSizesFromKafkaCLI brokers topicList (.ok path) (.ok file) run unmarshal
            now rnd = .ok R ∧ R.Topics = [] ∧ R.TotalTopics = 0) ∧
      (∀ (brokers topicList : List String) (found configFile : Except String String)
          (run : String → List String → Except (String × String) String)
          (unmarshal : String → Except String KafkaLogDirsResponse) (now : String)
          (rnd : Nat → Nat),
        getTopicSizesFromKafkaCLI brokers topicList found configFile run unmarshal now rnd ≠
          .error "no topic size data retrieved") ∧
      getTopicSizes ["b1:9092"] (.ok []) [] "2024-01-01T00:00:00Z" (fun _ => 0) =
        .error "no topic size data retrieved" := by
  refine ⟨rfl, ?_, ?_, rfl⟩
  · intro brokers topicList path file run unmarshal now rnd output kafkaResponse hrun hne hu he
    refine ⟨convertKafkaLogDirsToReport kafkaResponse brokers now rnd, ?_,
      convert_empty kafkaResponse brokers now rnd he⟩
    rw [cli_result brokers topicList path file run unmarshal now rnd output hrun, if_neg hne, hu]
  · intro brokers topicList found configFile run unmarshal now rnd h
    unfold getTopicSizesFromKafkaCLI at h
    split at h
    · have h2 := congrArg String.data (Except.error.inj h)
      simp only [String.data_append, String.append_assoc] at h2
      simp at h2
    · split at h
      · have h2 := congrArg String.data (Except.error.inj h)
        simp only [String.data_append, String.append_assoc] at h2
        simp at h2
      · split at h
        · have h2 := congrArg String.data (Except.error.inj h)
          simp only [String.data_append, String.append_assoc] at h2
          simp at h2
        · simp only at h
          split at h
          · have h2 := congrArg String.data (Except.error.inj h)
            simp only [String.data_append, String.append_assoc] at h2
            simp at h2
          · split at h
            · have h2 := congrArg String.data (Except.error.inj h)
              simp only [String.data_append, String.append_assoc] at h2
              simp at h2
            · cases h

/-! ## Topic configurations of the snapshot -/

theorem foldl_configs_get (entries : List ConfigEntry) :
    ∀ (m0 : List (String × String)) (k : String),
      mapGet (entries.foldl
        (fun m entry =>
          if (!entry.Default && decide (entry.Value ≠ "")) = true then
            mapSet m entry.Name entry.Value
          else m) m0) k =
        (((entries.filter fun e => retained e && decide (e.Name = k)).getLast?).map
          fun e => e.Value).or (mapGet m0 k) := by
  induction entries with
  | nil => intro m0 k; rfl
  | cons e rest ih =>
    intro m0 k
    rw [List.foldl_cons, ih]
    by_cases hk : retained e = true
    · have hk2 : (!e.Default && decide (e.Value ≠ "")) = true := hk
      by_cases hn : e.Name = k
      · simp only [hk2, if_true, mapGet_mapSet, hn, List.filter_cons, hk, decide_True,
          Bool.and_self, List.getLast?_cons]
        cases (List.filter (fun e => retained e && decide (e.Name = k)) rest).getLast? <;> rfl
      · simp only [hk2, if_true, mapGet_mapSet, hn, if_false, List.filter_cons, hk,
          decide_False, Bool.and_false, Bool.false_eq_true]
    · have hk2 : ¬ (!e.Default && decide (e.Value ≠ "")) = true := hk
      simp only [Bool.not_eq_true] at hk
      simp only [hk2, if_false, List.filter_cons, hk, Bool.false_and, Bool.false_eq_true]

theorem topicConfigs_get (entries : List ConfigEntry) (k : String) :
    mapGet (topicConfigs (some entries)) k =
      ((entries.filter fun e => retained e && decide (e.Name = k)).getLast?).map
        fun e => e.Value := by
  cases entries with
  | nil => rfl
  | cons e rest =>
    have hlen : (e :: rest).length > 0 := by simp
    simp only [topicConfigs, hlen, if_true, foldl_configs_get]
    cases ((List.filter (fun x => retained x && decide (x.Name = k)) (e :: rest)).getLast?) <;> rfl

theorem topologySnapshot_topics (now : String) (brokerList : List String)
    (metadata : Option (List (Int × String))) (topicInfos : List TopicInfo)
    (topics : List (String × TopicDetail))
    (describeTopics : String → Option (List TopicMetadata)) (apiVersions : String → Bool)
    (rnd : Nat → Nat) :
    (topologySnapshot now brokerList metadata topicInfos topics describeTopics apiVersions
      rnd).Topics = topicInfos := by
  unfold topologySnapshot brokerMetrics
  split <;> cases metadata <;> rfl

theorem mem_collectTopicInfos (topics : List (String × TopicDetail))
    (describeConfig : String → Option (List ConfigEntry))
    (getOffset : String → Int → Option Int) (rnd : Nat → Nat) (ti : TopicInfo) :
    ti ∈ collectTopicInfos topics describeConfig getOffset rnd ↔
      ∃ e ∈ topics, ti = topicInfoOf describeConfig getOffset e := by
  unfold collectTopicInfos
  rw [(sortSlice_perm _ _ _).mem_iff, ((mapRange_perm topics (rnd 0)).map _).mem_iff,
    List.mem_map]
  constructor
  · rintro ⟨e, he, rfl⟩
    exact ⟨e, he, rfl⟩
  · rintro ⟨e, he, rfl⟩
    exact ⟨e, he, rfl⟩

theorem sample_messageCount :
    getTopicMessageCount (fun _ _ => some 25) "events" 4 = 100 := by
  unfold getTopicMessageCount
  have hr : List.range (4 : Int).toNat = [0, 1, 2, 3] := by decide
  rw [hr]
  decide

theorem sample_collectTopicInfos :
    collectTopicInfos scenarioTopics sampleConfigs (fun _ _ => some 25) (fun _ => 0) =
      [{ Name := "events", Partitions := 4, ReplicationFactor := 3, TotalMessages := 100,
         Configs := [("cleanup.policy", "compact")] }] := by
  have hc : topicConfigs (sampleConfigs "events") = [("cleanup.policy", "compact")] := by
    decide
  simp only [collectTopicInfos, scenarioTopics, mapRange, List.map_cons, List.map_nil,
    topicInfoOf, sample_messageCount, hc]
  decide

theorem sampleSnapshot_topics :
    sampleSnapshot.Topics =
      [{ Name := "events", Partitions := 4, ReplicationFactor := 3, TotalMessages := 100,
         Configs := [("cleanup.policy", "compact")] }] := by
  unfold sampleSnapshot clusterSnapshot
  rw [topologySnapshot_topics, sample_collectTopicInfos]

/-- Counterexample to C24 as stated: the first entry of `sampleEntries` is not
a broker default, yet `Configs` does not hold it, because its value is empty;
so "retained if and only if not a broker default" fails for the topic
`events` of `sampleSnapshot`. -/
theorem C24_configs_retained_counterexample :
    sampleConfigs "events" = some sampleEntries ∧ sampleEntries ≠ [] ∧
      sampleSnapshot.Topics =
        [{ Name := "events", Partitions := 4, ReplicationFactor := 3, TotalMessages := 100,
           Configs := [("cleanup.policy", "compact")] }] ∧
      ¬ ∀ ti ∈ sampleSnapshot.Topics, ∀ entry ∈ sampleEntries,
        (mapGet ti.Configs entry.Name = some entry.Value ↔ entry.Default = false) := by
  refine ⟨rfl, by decide, sampleSnapshot_topics, ?_⟩
  rw [sampleSnapshot_topics]
  decide

/-- C24 (amended). For every topic of the topic map whose configuration
describe call succeeds, the `Configs` map of the topic in the snapshot holds a
key exactly when some entry of that name is not a broker default and has a
non-empty value, and the value stored is the one of the last such entry; when
the entry names are distinct, an entry is retained (its name mapped to its
value) if and only if it is not a broker default and its value is not
empty. -/
theorem C24_configs_retained (now : String) (brokerList : List String)
    (metadata : Option (List (Int × String))) (topics : List (String × TopicDetail))
    (describeConfig : String → Option (List ConfigEntry))
    (getOffset : String → Int → Option Int)
    (describeTopics : String → Option (List TopicMetadata)) (apiVersions : String → Bool)
    (rndTopics rnd : Nat → Nat) (name : String) (detail : TopicDetail)
    (hmem : (name, detail) ∈ topics) (entries : List ConfigEntry)
    (hcfg : describeConfig name = some entries) :
    ∃ ti ∈ (clusterSnapshot now brokerList metadata topics describeConfig getOffset
        describeTopics apiVersions rndTopics rnd).Topics,
      ti.Name = name ∧
      (∀ k : String, mapGet ti.Configs k =
        ((entries.filter fun e => retained e && decide (e.Name = k)).getLast?).map
          fun e => e.Value) ∧
      (∀ k : String, k ∈ ti.Configs.map Prod.fst ↔
        ∃ e ∈ entries, e.Name = k ∧ e.Default = false ∧ e.Value ≠ "") ∧
      ((entries.map fun e => e.Name).Nodup → ∀ e ∈ entries,
        (mapGet ti.Configs e.Name = some e.Value ↔ e.Default = false ∧ e.Value ≠ "")) := by
  have hret : ∀ e : ConfigEntry, retained e = true ↔ e.Default = false ∧ e.Value ≠ "" := by
    intro e
    simp [retained]
  have hget := topicConfigs_get entries
  refine ⟨topicInfoOf describeConfig getOffset (name, detail), ?_, rfl, ?_, ?_, ?_⟩
  · unfold clusterSnapshot
    rw [topologySnapshot_topics, mem_collectTopicInfos]
    exact ⟨(name, detail), hmem, rfl⟩
  · intro k
    simp only [topicInfoOf, hcfg, hget]
  · intro k
    rw [← mapGet_isSome_iff]
    simp only [topicInfoOf, hcfg, hget, Option.isSome_map']
    constructor
    · intro h
      cases hl : (entries.filter fun e => retained e && decide (e.Name = k)).getLast? with
      | none => rw [hl] at h; simp at h
      | some e =>
        have hm := List.mem_of_getLast?_eq_some hl
        rw [List.mem_filter] at hm
        simp only [Bool.and_eq_true, decide_eq_true_eq] at hm
        exact ⟨e, hm.1, hm.2.2, (hret e).mp hm.2.1⟩
    · rintro ⟨e, he, hn, hd⟩
      have hm : e ∈ entries.filter fun e => retained e && decide (e.Name = k) := by
        rw [List.mem_filter]
        simp only [Bool.and_eq_true, decide_eq_true_eq]
        exact ⟨he, (hret e).mpr hd, hn⟩
      cases hl : (entries.filter fun e => retained e && decide (e.Name = k)).getLast? with
      | none =>
        rw [List.getLast?_eq_none_iff] at hl
        rw [hl] at hm
        simp at hm
      | some x => rfl
  · intro hnd e he
    have hinj := List.inj_on_of_nodup_map hnd
    simp only [topicInfoOf, hcfg, hget]
    constructor
    · intro h
      cases hl : (entries.filter fun x => retained x && decide (x.Name = e.Name)).getLast? with
      | none => rw [hl] at h; simp at h
      | some x =>
        have hm := List.mem_of_getLast?_eq_some hl
        rw [List.mem_filter] at hm
        simp only [Bool.and_eq_true, decide_eq_true_eq] at hm
        have hx : x = e := hinj hm.1 he hm.2.2
        rw [← hx]
        exact (hret x).mp hm.2.1
    · intro hd
      have hm : e ∈ entries.filter fun x => retained x && decide (x.Name = e.Name) := by
        rw [List.mem_filter]
        simp only [Bool.and_eq_true, decide_eq_true_eq]
        exact ⟨he, (hret e).mpr hd, trivial⟩
      cases hl : (entries.filter fun x => retained x && decide (x.Name = e.Name)).getLast? with
      | none =>
        rw [List.getLast?_eq_none_iff] at hl
        rw [hl] at hm
        simp at hm
      | some x =>
        have hm2 := List.mem_of_getLast?_eq_some hl
        rw [List.mem_filter] at hm2
        simp only [Bool.and_eq_true, decide_eq_true_eq] at hm2
        have hx : x = e := hinj hm2.1 he hm2.2.2
        rw [hx]
        rfl

/-- Witness of C24: the topic `events` of `sampleSnapshot` with the entries
`sampleEntries`. -/
theorem C24_configs_retained_witness :
    (("events", { NumPartitions := 4, ReplicationFactor := 3 }) :
        String × TopicDetail) ∈ scenarioTopics ∧
      sampleConfigs "events" = some sampleEntries ∧
      ∃ ti ∈ sampleSnapshot.Topics,
        ti.Name = "events" ∧
        (∀ k : String, mapGet ti.Configs k =
          ((sampleEntries.filter fun e => retained e && decide (e.Name = k)).getLast?).map
            fun e => e.Value) ∧
        (∀ k : String, k ∈ ti.Configs.map Prod.fst ↔
          ∃ e ∈ sampleEntries, e.Name = k ∧ e.Default = false ∧ e.Value ≠ "") ∧
        ((sampleEntries.map fun e => e.Name).Nodup → ∀ e ∈ sampleEntries,
          (mapGet ti.Configs e.Name = some e.Value ↔ e.Default = false ∧ e.Value ≠ "")) :=
  ⟨by decide, rfl,
    C24_configs_retained "2024-01-01T00:00:00Z" ["b1:9092"] scenarioMetadata scenarioTopics
      sampleConfigs (fun _ _ => some 25) scenarioDescribe (fun _ => false) (fun _ => 0)
      (fun _ => 0) "events" { NumPartitions := 4, ReplicationFactor := 3 } (by decide)
      sampleEntries rfl⟩

/-- With a negative partition number the identifier does not decode back to
the record: the hyphen of the sign is taken as the separator. -/
theorem encodeRecord_negative :
    decodePartition (encodeRecord { topic := "t", partition := -1, size := 0 }).Partition =
      some ("t-", 1) := by
  decide

/-! ## The order of the blocks of the restore script -/

theorem string_append_left_cancel {p s t : String} (h : p ++ s = p ++ t) : s = t := by
  apply String.ext
  have h2 := congrArg String.data h
  simp only [String.data_append] at h2
  exact List.append_cancel_left h2

theorem concatAll_cons (x : String) (l : List String) :
    concatAll (x :: l) = x ++ concatAll l := rfl

/-- The text of a block begins with the line that names its topic. -/
theorem restoreBlock_text_head (group topic : String) (L : List PartitionOffset)
    (more : List String) :
    ∃ r : String, concatAll (restoreBlock group topic L ++ more) =
      "echo \"  Topic: " ++ (topic ++ r) := by
  refine ⟨" (" ++ (toString L.length ++ (" partitions)\"\n" ++
    concatAll ((restoreBlock group topic L ++ more).tail))), ?_⟩
  have e : restoreBlock group topic L ++ more =
      ("echo \"  Topic: " ++ topic ++ " (" ++ toString L.length ++ " partitions)\"\n") ::
        (restoreBlock group topic L ++ more).tail := rfl
  rw [e, concatAll_cons]
  simp only [String.append_assoc, List.tail_cons]

theorem topic_line_ne (r s : String) :
    "echo \"  Topic: " ++ ("events" ++ r) ≠ "echo \"  Topic: " ++ ("audit" ++ s) := by
  intro h
  have h2 := congrArg String.data (string_append_left_cancel h)
  simp only [String.data_append] at h2
  simp at h2

theorem sampleBackup_pieces_0 :
    restorePieces sampleBackup "restore.sh" (fun _ => 0) =
      restoreHeader sampleBackup "restore.sh" ::
        (groupHeading 1 0 "svc" ++
          (restoreBlock "svc" "events" scenarioOffsetList ++
            (restoreBlock "svc" "audit" [{ Partition := 0, Offset := 7, Timestamp := 0, Lag := 0 }]
              ++ ["\n", restoreSummary]))) := by
  have hm : mapRange 0
      [(("events", scenarioOffsetList) : String × List PartitionOffset),
       ("audit", [{ Partition := 0, Offset := 7, Timestamp := 0, Lag := 0 }])] =
      [("events", scenarioOffsetList),
       ("audit", [{ Partition := 0, Offset := 7, Timestamp := 0, Lag := 0 }])] := by decide
  simp only [restorePieces, sampleBackup, restoreGroups, hm, groupHeading, List.length_cons,
    List.length_nil, List.flatMap_cons, List.flatMap_nil, List.append_nil, List.append_assoc,
    List.cons_append, List.nil_append, List.singleton_append, Nat.zero_add]

theorem sampleBackup_pieces_1 :
    restorePieces sampleBackup "restore.sh" (fun _ => 1) =
      restoreHeader sampleBackup "restore.sh" ::
        (groupHeading 1 0 "svc" ++
          (restoreBlock "svc" "audit" [{ Partition := 0, Offset := 7, Timestamp := 0, Lag := 0 }]
            ++ (restoreBlock "svc" "events" scenarioOffsetList ++ ["\n", restoreSummary]))) := by
  have hm : mapRange 1
      [(("events", scenarioOffsetList) : String × List PartitionOffset),
       ("audit", [{ Partition := 0, Offset := 7, Timestamp := 0, Lag := 0 }])] =
      [("audit", [{ Partition := 0, Offset := 7, Timestamp := 0, Lag := 0 }]),
       ("events", scenarioOffsetList)] := by decide
  simp only [restorePieces, sampleBackup, restoreGroups, hm, groupHeading, List.length_cons,
    List.length_nil, List.flatMap_cons, List.flatMap_nil, List.append_nil, List.append_assoc,
    List.cons_append, List.nil_append, List.singleton_append, Nat.zero_add]

/-- C16 (what the code does). For the backup `sampleBackup`, whose group `svc`
has the topics `events` and `audit`, two generations of the restore script
with the same file name write different files: the loop of line 135 ranges
over the topic map of the group, whose iteration order Go leaves open, so one
generation writes the block of `events` first and the other the block of
`audit`.  Both generations succeed, and each block is the same in both. -/
theorem C16_restore_order_varies :
    (∃ s0 s1 : String,
        generateRestoreOffsetsScript sampleBackup "restore.sh" none none (fun _ => 0) =
          (some s0, none) ∧
        generateRestoreOffsetsScript sampleBackup "restore.sh" none none (fun _ => 1) =
          (some s1, none) ∧
        s0 ≠ s1) ∧
      restorePieces sampleBackup "restore.sh" (fun _ => 0) =
        restoreHeader sampleBackup "restore.sh" ::
          (groupHeading 1 0 "svc" ++
            (restoreBlock "svc" "events" scenarioOffsetList ++
              (restoreBlock "svc" "audit"
                  [{ Partition := 0, Offset := 7, Timestamp := 0, Lag := 0 }] ++
                ["\n", restoreSummary]))) ∧
      restorePieces sampleBackup "restore.sh" (fun _ => 1) =
        restoreHeader sampleBackup "restore.sh" ::
          (groupHeading 1 0 "svc" ++
            (restoreBlock "svc" "audit"
                [{ Partition := 0, Offset := 7, Timestamp := 0, Lag := 0 }] ++
              (restoreBlock "svc" "events" scenarioOffsetList ++ ["\n", restoreSummary]))) := by
  refine ⟨⟨_, _, rfl, rfl, ?_⟩, sampleBackup_pieces_0, sampleBackup_pieces_1⟩
  intro h
  rw [sampleBackup_pieces_0, sampleBackup_pieces_1] at h
  simp only [concatAll_cons, concatAll_append] at h
  have h2 := string_append_left_cancel (string_append_left_cancel h)
  obtain ⟨r, hr⟩ := restoreBlock_text_head "svc" "events" scenarioOffsetList []
  obtain ⟨s, hs⟩ := restoreBlock_text_head "svc" "audit"
    [{ Partition := 0, Offset := 7, Timestamp := 0, Lag := 0 }] []
  rw [List.append_nil] at hr hs
  rw [hr, hs] at h2
  simp only [String.append_assoc] at h2
  exact topic_line_ne _ _ h2

/-! ## The removal of the payload and the counters of the restore script -/

/-- The header of every restore script switches on exit-on-error
(`set -e`) and ends by setting both counters to 0. -/
theorem restoreHeader_errexit (backup : ConsumerOffsetsBackup) (filename : String) :
    restoreHeader backup filename =
      ("#!/bin/bash\n" ++ "# Consumer Group Offsets Restore Script\n" ++ "# Generated: "
        ++ backup.Timestamp ++ "\n" ++ "# Source Cluster: " ++ backup.Cluster ++ "\n"
        ++ "# Total Consumer Groups: " ++ toString backup.ConsumerGroups.length ++ "\n" ++ "#\n"
        ++ "# Usage:\n" ++ "#   1. Edit BOOTSTRAP_SERVERS to point to your target cluster\n"
        ++ "#   2. Add authentication flags if needed (--command-config, etc.)\n"
        ++ "#   3. Run: chmod +x " ++ filename ++ " && ./" ++ filename ++ "\n" ++ "#\n" ++ "\n")
      ++ "set -e  # Exit on error\n"
      ++ ("\n" ++ "# Target cluster configuration\n"
        ++ "BOOTSTRAP_SERVERS=\"localhost:9092\"  # CHANGE THIS\n"
        ++ "# Uncomment and configure if authentication is needed:\n"
        ++ "# COMMAND_CONFIG=\"--command-config client.properties\"\n" ++ "COMMAND_CONFIG=\"\"\n"
        ++ "\n" ++ "# Kafka consumer groups command (adjust path if needed)\n"
        ++ "KAFKA_CONSUMER_GROUPS=\"kafka-consumer-groups.sh\"\n" ++ "\n"
        ++ "echo \"========================================\"\n" ++ "echo \"Restoring offsets for "
        ++ toString backup.ConsumerGroups.length ++ " consumer groups\"\n"
        ++ "echo \"Target: $BOOTSTRAP_SERVERS\"\n"
        ++ "echo \"========================================\"\n" ++ "echo \"\"\n" ++ "\n")
      ++ "RESTORED=0\n" ++ "FAILED=0\n" ++ "\n" := by
  simp only [restoreHeader, String.append_assoc]

theorem scenarioBlock_pieces :
    restoreBlock "svc" "events" scenarioOffsetList =
      ["echo \"  Topic: events (4 partitions)\"\n",
       "cat > /tmp/offsets_svc_events.json << \x27OFFSET_EOF\x27\n",
       "\x7b\n",
       "  \"partitions\": [\n",
       "    \x7b\"topic\": \"events\", \"partition\": 0, \"offset\": 100\x7d,\n",
       "    \x7b\"topic\": \"events\", \"partition\": 1, \"offset\": 50\x7d,\n",
       "    \x7b\"topic\": \"events\", \"partition\": 2, \"offset\": 75\x7d,\n",
       "    \x7b\"topic\": \"events\", \"partition\": 3, \"offset\": 0\x7d\n",
       "  ]\n",
       "\x7d\n",
       "OFFSET_EOF\n\n",
       "if $KAFKA_CONSUMER_GROUPS --bootstrap-server \"$BOOTSTRAP_SERVERS\" $COMMAND_CONFIG \\\n",
       "  --group \"svc\" \\\n",
       "  --topic \"events\" \\\n",
       "  --reset-offsets \\\n",
       "  --from-json-file /tmp/offsets_svc_events.json \\\n",
       "  --execute; then\n",
       "  echo \"    ✓ Restored 4 partitions\"\n",
       "  ((RESTORED++))\n",
       "else\n",
       "  echo \"    ✗ Failed to restore offsets\"\n",
       "  ((FAILED++))\n",
       "fi\n",
       "rm -f /tmp/offsets_svc_events.json\n",
       "\n"] := by
  decide

theorem scenarioBackup_pieces (rnd : Nat → Nat) :
    restorePieces scenarioBackup "restore.sh" rnd =
      restoreHeader scenarioBackup "restore.sh" ::
        (groupHeading 1 0 "svc" ++
          (restoreBlock "svc" "events" scenarioOffsetList ++ ["\n", restoreSummary])) := by
  simp only [restorePieces, scenarioBackup, restoreGroups, mapRange_singleton, groupHeading,
    List.length_cons, List.length_nil, List.flatMap_cons, List.flatMap_nil, List.append_nil,
    List.append_assoc, List.cons_append, List.nil_append, List.singleton_append, Nat.zero_add]

theorem scenarioHeading :
    groupHeading 1 0 "svc" =
      ["# Consumer Group 1/1: svc\n",
       "echo \"[1/1] Restoring offsets for consumer group: svc\"\n"] := by
  decide

/-- C17 (what the code does). For the backup of the scenario (group `svc`,
topic `events`, four partitions) the script written by
`generateRestoreOffsetsScript` is, for every iteration order, the header, the
two heading lines of the group and the texts listed here, then the summary.
The header switches on `set -e` and sets `RESTORED=0` and `FAILED=0`; the
block increments a counter with `((RESTORED++))` or `((FAILED++))` inside the
`if` statement, and the line `rm -f /tmp/offsets_svc_events.json` is written
only after the closing `fi`.  (Under `set -e` the first such increment, of a
counter that is 0, has exit status 1 and ends the script, so the `rm -f` line
that follows in the text is not run.) -/
theorem C17_removal_after_increment :
    (∀ rnd : Nat → Nat,
      restorePieces scenarioBackup "restore.sh" rnd =
        restoreHeader scenarioBackup "restore.sh" ::
          "# Consumer Group 1/1: svc\n" ::
          "echo \"[1/1] Restoring offsets for consumer group: svc\"\n" ::
          (["echo \"  Topic: events (4 partitions)\"\n",
       "cat > /tmp/offsets_svc_events.json << \x27OFFSET_EOF\x27\n",
       "\x7b\n",
       "  \"partitions\": [\n",
       "    \x7b\"topic\": \"events\", \"partition\": 0, \"offset\": 100\x7d,\n",
       "    \x7b\"topic\": \"events\", \"partition\": 1, \"offset\": 50\x7d,\n",
       "    \x7b\"topic\": \"events\", \"partition\": 2, \"offset\": 75\x7d,\n",
       "    \x7b\"topic\": \"events\", \"partition\": 3, \"offset\": 0\x7d\n",
       "  ]\n",
       "\x7d\n",
       "OFFSET_EOF\n\n",
       "if $KAFKA_CONSUMER_GROUPS --bootstrap-server \"$BOOTSTRAP_SERVERS\" $COMMAND_CONFIG \\\n",
       "  --group \"svc\" \\\n",
       "  --topic \"events\" \\\n",
       "  --reset-offsets \\\n",
       "  --from-json-file /tmp/offsets_svc_events.json \\\n",
       "  --execute; then\n",
       "  echo \"    ✓ Restored 4 partitions\"\n",
       "  ((RESTORED++))\n",
       "else\n",
       "  echo \"    ✗ Failed to restore offsets\"\n",
       "  ((FAILED++))\n",
       "fi\n",
       "rm -f /tmp/offsets_svc_events.json\n",
       "\n"] ++
            ["\n", restoreSummary])) ∧
      (∀ rnd : Nat → Nat,
        generateRestoreOffsetsScript scenarioBackup "restore.sh" none none rnd =
          (some (concatAll (restorePieces scenarioBackup "restore.sh" rnd)), none)) ∧
      (∃ a b : String,
        restoreHeader scenarioBackup "restore.sh" =
          a ++ "set -e  # Exit on error\n" ++ b ++ "RESTORED=0\n" ++ "FAILED=0\n" ++ "\n") ∧
      (restoreBlock "svc" "events" scenarioOffsetList).drop 16 =
        ["  --execute; then\n",
         "  echo \"    ✓ Restored 4 partitions\"\n",
         "  ((RESTORED++))\n",
         "else\n",
         "  echo \"    ✗ Failed to restore offsets\"\n",
         "  ((FAILED++))\n",
         "fi\n",
         "rm -f /tmp/offsets_svc_events.json\n",
         "\n"] := by
  refine ⟨fun rnd => ?_, fun rnd => rfl, ⟨_, _, restoreHeader_errexit scenarioBackup "restore.sh"⟩,
    ?_⟩
  · rw [scenarioBackup_pieces, scenarioHeading, scenarioBlock_pieces]
    rfl
  · rw [scenarioBlock_pieces]
    rfl

end Kmap
